import Mathlib

/-!
# Repository database (repository_db.c): embedding and verified properties

A shallow embedding of the record store of `src/Kursovayaya/repository_db.c`
and of the function `sort_records` of `src/Kursovayaya/Kursovayaya.c`.

Conventions of the embedding

* A C `int` is an `Int`; where the source subtracts or negates, the result is
  reduced to 32 bits by `wrap32`.
* A C string is the list of its bytes before the terminating NUL (`CStr`), so
  a well-formed C string holds no byte 0 (`is_cstr`).
* The enums `Direction` and `Compatibility` are C integers: a variable of
  enum type can hold a value outside the enumerators.
* A pointer argument that the source tests against `NULL` is an `Option`.
* The heap buffer `db->records` is the list of its initialised slots
  `0 .. count-1`; `capacity` is kept as the number the source keeps. A write
  to a slot at or past `capacity` is outside the buffer: the operation has no
  defined result (`Outcome.undefined`).
* `count` and `capacity` are unbounded integers: the doubling of the capacity
  is taken not to overflow (it would only past 2^30 slots).
* The results of `malloc`/`realloc`, the file system seen by `fopen` and the
  bytes of the opened file are inputs. Messages written to `stderr` are not
  part of the state.
* `fscanf` is the libc function; `fscanf_record` follows the C standard for
  the one format string `db_load_from_file` uses, in the "C" locale. For a
  number outside the range of `int`, where the standard leaves `%d`
  undefined, it follows the GNU C library with a 64-bit `long`.
* `fprintf` is the libc function; `fprintf_record` gives the bytes written for
  the one format string `db_save_to_file` uses. Whether `fopen` can open the
  target for writing is an input; write errors are not modelled.
* `sort_records` of `Kursovayaya.c` works on the same `Repository` record and
  calls a `compare_dates` with the same text as the one of `repository_db.c`;
  its array argument is the list of the slots.
-/

namespace Kursovayaya

/-! ## Machine integers and C strings -/

/-- Reduction of an integer to the range of a 32-bit two's-complement `int`. -/
def wrap32 (x : Int) : Int := (x + 2147483648) % 4294967296 - 2147483648

/-- Bytes of a C string, terminator excluded. -/
abbrev CStr := List Nat

/-- The bytes of an ASCII literal. -/
def cstr (s : String) : CStr := s.toList.map Char.toNat

/-- Well-formed C string content: no byte before the terminator is NUL. -/
def is_cstr (s : CStr) : Prop := ∀ b ∈ s, 0 < b

instance (s : CStr) : Decidable (is_cstr s) := by
  unfold is_cstr; infer_instance

/-- The libc `strcmp`: bytes compared as `unsigned char`, the end of the list
standing for the terminating NUL; the result is the difference of the first
pair of bytes that differ. -/
def strcmp : CStr → CStr → Int
  | [], [] => 0
  | [], b :: _ => 0 - (b : Int)
  | a :: _, [] => (a : Int)
  | a :: s, b :: t => if a = b then strcmp s t else (a : Int) - (b : Int)

/-! ## `repository.h` -/

def MAX_STR : Nat := 50
def MAX_LONG_STR : Nat := 100
def INITIAL_CAPACITY : Int := 10

abbrev Direction := Int
def DIRECTION_BACKEND : Direction := 0
def DIRECTION_FRONTEND : Direction := 1
def DIRECTION_MOBILE : Direction := 2
def DIRECTION_DEVOPS : Direction := 3
def DIRECTION_DATA_SCIENCE : Direction := 4
def DIRECTION_COUNT : Int := 5

abbrev Compatibility := Int
def COMPAT_WINDOWS : Compatibility := 0
def COMPAT_LINUX : Compatibility := 1
def COMPAT_MACOS : Compatibility := 2
def COMPAT_CROSS_PLATFORM : Compatibility := 3
def COMPAT_COUNT : Int := 4

structure Date where
  day : Int
  month : Int
  year : Int
deriving DecidableEq, Repr

structure Repository where
  direction : Direction
  site : CStr
  name : CStr
  size : Int
  release_date : Date
  dependencies : Int
  compatibility : Compatibility
deriving DecidableEq, Repr

/-- The store: `records` lists the initialised slots of the heap buffer. -/
structure RepositoryDB where
  records : List Repository
  count : Int
  capacity : Int
deriving DecidableEq, Repr

/-! ## Name tables and conversions -/

def dir_names : List CStr :=
  [cstr "Backend", cstr "Frontend", cstr "Mobile", cstr "DevOps", cstr "DataScience"]

def compat_names : List CStr :=
  [cstr "Windows", cstr "Linux", cstr "macOS", cstr "CrossPlatform"]

def direction_to_string (dir : Direction) : CStr :=
  if dir ≥ 0 ∧ dir < DIRECTION_COUNT then dir_names.getD dir.toNat []
  else cstr "Unknown"

def compatibility_to_string (compat : Compatibility) : CStr :=
  if compat ≥ 0 ∧ compat < COMPAT_COUNT then compat_names.getD compat.toNat []
  else cstr "Unknown"

/-- The loop `for (i = ...; i < n; i++) if (strcmp(str, names[i]) == 0) ...`
with `todo = n - i` iterations left: the index of the first match. -/
def find_name (names : List CStr) (str : CStr) : (todo : Nat) → (i : Nat) → Option Int
  | 0, _ => none
  | todo + 1, i =>
    if strcmp str (names.getD i []) = 0 then some (i : Int)
    else find_name names str todo (i + 1)

/-- Returns the code and the content of `*result` after the call. -/
def string_to_direction (str : Option CStr) (result : Option Direction) :
    Int × Option Direction :=
  match str, result with
  | some s, some r =>
    match find_name dir_names s DIRECTION_COUNT.toNat 0 with
    | some i => (1, some i)
    | none => (0, some r)
  | _, _ => (0, result)

/-- Returns the code and the content of `*result` after the call. -/
def string_to_compatibility (str : Option CStr) (result : Option Compatibility) :
    Int × Option Compatibility :=
  match str, result with
  | some s, some r =>
    match find_name compat_names s COMPAT_COUNT.toNat 0 with
    | some i => (1, some i)
    | none => (0, some r)
  | _, _ => (0, result)

/-! ## Dates -/

def days_in_month : List Int := [31, 28, 31, 30, 31, 30, 31, 31, 30, 31, 30, 31]

/-- The C operator `%` truncates towards zero: `Int.tmod`. -/
def validate_date (date : Date) : Int :=
  if date.year < 1900 ∨ date.year > 2100 then 0
  else if date.month < 1 ∨ date.month > 12 then 0
  else
    let is_leap : Bool :=
      (date.year.tmod 4 = 0 ∧ date.year.tmod 100 ≠ 0) ∨ date.year.tmod 400 = 0
    let days := if is_leap then days_in_month.set 1 29 else days_in_month
    if date.day ≥ 1 ∧ date.day ≤ days.getD (date.month - 1).toNat 0 then 1 else 0

def compare_dates (d1 d2 : Date) : Int :=
  if d1.year ≠ d2.year then wrap32 (d1.year - d2.year)
  else if d1.month ≠ d2.month then wrap32 (d1.month - d2.month)
  else wrap32 (d1.day - d2.day)

/-! ## The store -/

/-- What a call does: it returns a value, or its behaviour is undefined in C
(a write outside the buffer), or the embedding ran out of fuel. -/
inductive Outcome (α : Type) where
  | returns (v : α)
  | undefined
  | out_of_fuel
deriving DecidableEq, Repr

def Outcome.map {α β : Type} (f : α → β) : Outcome α → Outcome β
  | .returns v => .returns (f v)
  | .undefined => .undefined
  | .out_of_fuel => .out_of_fuel

/-- Body of `db_init` for a non-NULL `db`; `malloc_ok` is whether `malloc`
gives a buffer. On failure only `db->records` (now NULL) has been written. -/
def db_init_nonnull (d : RepositoryDB) (malloc_ok : Bool) : Int × RepositoryDB :=
  if malloc_ok = false then (0, { d with records := [] })
  else (1, { records := [], count := 0, capacity := INITIAL_CAPACITY })

def db_init (db : Option RepositoryDB) (malloc_ok : Bool) : Int × Option RepositoryDB :=
  match db with
  | none => (0, none)
  | some d => ((db_init_nonnull d malloc_ok).1, some (db_init_nonnull d malloc_ok).2)

/-- Body of `db_free` for a non-NULL `db`. -/
def db_free_nonnull (_d : RepositoryDB) : Int × RepositoryDB :=
  (1, { records := [], count := 0, capacity := 0 })

def db_free (db : Option RepositoryDB) : Int × Option RepositoryDB :=
  match db with
  | none => (0, none)
  | some d => ((db_free_nonnull d).1, some (db_free_nonnull d).2)

/-- The function `db_grow_capacity`: `realloc` keeps the content of the
slots; `realloc_ok` is whether it gives a buffer. -/
def db_grow_capacity (d : RepositoryDB) (realloc_ok : Bool) : Int × RepositoryDB :=
  let new_capacity := d.capacity * 2
  if realloc_ok = false then (0, d)
  else (1, { d with capacity := new_capacity })

/-- Body of `db_add_record` for non-NULL arguments. The assignment
`db->records[db->count] = *record` is defined when slot `count` lies inside
the buffer; the slots before it keep their content. -/
def db_add_record_nonnull (d : RepositoryDB) (record : Repository) (realloc_ok : Bool) :
    Outcome (Int × RepositoryDB) :=
  let grown := if d.count ≥ d.capacity then db_grow_capacity d realloc_ok else (1, d)
  if grown.1 = 0 then .returns (0, grown.2)
  else
    let d1 := grown.2
    if 0 ≤ d1.count ∧ d1.count < d1.capacity then
      .returns (1, { d1 with
        records := d1.records.take d1.count.toNat ++ [record],
        count := d1.count + 1 })
    else .undefined

def db_add_record (db : Option RepositoryDB) (record : Option Repository)
    (realloc_ok : Bool) : Outcome (Int × Option RepositoryDB) :=
  match db, record with
  | some d, some r => (db_add_record_nonnull d r realloc_ok).map (fun x => (x.1, some x.2))
  | _, _ => .returns (0, db)

/-! ## Reading one record with `fscanf` -/

/-- The function `isspace` in the "C" locale. -/
def isspace (c : Nat) : Bool := c = 32 || (9 ≤ c && c ≤ 13)

def isdigit (c : Nat) : Bool := 48 ≤ c && c ≤ 57

/-- A white-space directive of the format (`\n` or a blank): input is read up
to the first byte that is not white space; it never fails. -/
def skip_space (inp : List Nat) : List Nat := inp.dropWhile isspace

/-- The conversion `%width[^\n]`: the longest run of at most `width` bytes
other than line feed (byte 10), which must not be empty; no white space is
skipped before it. The C string stored ends at the first NUL of the run. -/
def scan_line (width : Nat) (inp : List Nat) : Option (CStr × List Nat) :=
  let run := (inp.takeWhile (fun c => c ≠ 10)).take width
  if run = [] then none
  else some (run.takeWhile (fun c => c ≠ 0), inp.drop run.length)

/-- The value of a run of decimal digits. -/
def digits_value (ds : List Nat) : Nat := ds.foldl (fun acc c => acc * 10 + (c - 48)) 0

/-- An optional sign in front of the digits of a `%d` conversion: whether it
is a minus, and the input after it. -/
def scan_sign (inp : List Nat) : Bool × List Nat :=
  match inp with
  | 45 :: t => (true, t)
  | 43 :: t => (false, t)
  | _ => (false, inp)

/-- The largest and the smallest value of a `long` (64 bits). -/
def LONG_MAX : Int := 9223372036854775807

def LONG_MIN : Int := -9223372036854775808

/-- The conversion `%d`: white space is skipped, then an optional sign and a
non-empty run of decimal digits are read. For a value outside the range of
`int` the C standard leaves the behaviour undefined; the C library converts
the digits to a `long`, which saturates at `LONG_MIN` and `LONG_MAX`, and
stores that number reduced to 32 bits. -/
def scan_int (inp : List Nat) : Option (Int × List Nat) :=
  let signed := scan_sign (skip_space inp)
  let ds := signed.2.takeWhile isdigit
  if ds = [] then none
  else
    let v : Int := digits_value ds
    let num : Int :=
      if signed.1 = true then (if -v < LONG_MIN then LONG_MIN else -v)
      else (if v > LONG_MAX then LONG_MAX else v)
    some (wrap32 num, signed.2.drop ds.length)

/-- The nine values one successful `fscanf` call assigns. -/
structure Scanned where
  dir_str : CStr
  site : CStr
  name : CStr
  size : Int
  day : Int
  month : Int
  year : Int
  dependencies : Int
  compat_str : CStr
deriving DecidableEq, Repr

/-- One call
`fscanf(file, "%49[^\n]\n%99[^\n]\n%99[^\n]\n%d\n%d %d %d\n%d\n%49[^\n]\n", ...)`
on the rest `inp` of the stream: `some` with the nine values and the new rest
of the stream when the call returns 9, `none` when it returns anything else
(the caller only tests `read_count != 9`). -/
def fscanf_record (inp : List Nat) : Option (Scanned × List Nat) :=
  match scan_line 49 inp with
  | none => none
  | some (dir_str, r1) =>
  match scan_line 99 (skip_space r1) with
  | none => none
  | some (site, r2) =>
  match scan_line 99 (skip_space r2) with
  | none => none
  | some (name, r3) =>
  match scan_int (skip_space r3) with
  | none => none
  | some (size, r4) =>
  match scan_int (skip_space r4) with
  | none => none
  | some (day, r5) =>
  match scan_int (skip_space r5) with
  | none => none
  | some (month, r6) =>
  match scan_int (skip_space r6) with
  | none => none
  | some (year, r7) =>
  match scan_int (skip_space r7) with
  | none => none
  | some (dependencies, r8) =>
  match scan_line 49 (skip_space r8) with
  | none => none
  | some (compat_str, r9) =>
    some ({ dir_str := dir_str, site := site, name := name, size := size, day := day,
            month := month, year := year, dependencies := dependencies,
            compat_str := compat_str }, skip_space r9)

/-! ## Loading -/

/-- The loop `while (1)` of `db_load_from_file` together with the code after
it. `inp` is the unread rest of the file, `i` the number of records read so
far, `current` the local record (its fields keep their last values between
iterations), `alloc (i + 1)` the result of the `realloc` made, if one is, when
record `i` is added. The counter `line_number` of the source only occurs in
messages and is left out. Every iteration that does not leave the loop
consumes input, so `fuel` above the length of `inp` is never used up. -/
def db_load_loop : (fuel : Nat) → (inp : List Nat) → (alloc : Nat → Bool) → (i : Nat) →
    (current : Repository) → (d : RepositoryDB) → Outcome (Int × RepositoryDB)
  | 0, _, _, _, _, _ => .out_of_fuel
  | fuel + 1, inp, alloc, i, current, d =>
    match fscanf_record inp with
    | none =>
      -- break; fclose(file); if (db->count == 0) ...
      if d.count = 0 then .returns (0, (db_free_nonnull d).2) else .returns (1, d)
    | some (sc, rest) =>
      let cur1 : Repository := { current with
        site := sc.site, name := sc.name, size := sc.size,
        release_date := { day := sc.day, month := sc.month, year := sc.year },
        dependencies := sc.dependencies }
      let rd := string_to_direction (some sc.dir_str) (some cur1.direction)
      if rd.1 = 0 then .returns (0, (db_free_nonnull d).2)
      else
        let cur2 : Repository := { cur1 with direction := rd.2.getD cur1.direction }
        let rc := string_to_compatibility (some sc.compat_str) (some cur2.compatibility)
        if rc.1 = 0 then .returns (0, (db_free_nonnull d).2)
        else
          let cur3 : Repository := { cur2 with compatibility := rc.2.getD cur2.compatibility }
          if cur3.size ≤ 0 then .returns (0, (db_free_nonnull d).2)
          else if cur3.dependencies < 0 then .returns (0, (db_free_nonnull d).2)
          else if validate_date cur3.release_date = 0 then .returns (0, (db_free_nonnull d).2)
          else
            match db_add_record_nonnull d cur3 (alloc (i + 1)) with
            | .returns (code, d1) =>
              if code = 0 then .returns (0, (db_free_nonnull d1).2)
              else db_load_loop fuel rest alloc (i + 1) cur3 d1
            | .undefined => .undefined
            | .out_of_fuel => .out_of_fuel

/-- The function `db_load_from_file`. `fopen name` is the content of the file
`name` when it can be opened for reading; `alloc 0` is the result of the
`malloc` in `db_init`; `current` is the indeterminate initial content of the
local record. -/
def db_load_from_file (db : Option RepositoryDB) (filename : Option CStr)
    (fopen : CStr → Option (List Nat)) (alloc : Nat → Bool) (current : Repository) :
    Outcome (Int × Option RepositoryDB) :=
  match db, filename with
  | some d, some name =>
    match fopen name with
    | none => .returns (0, some d)
    | some content =>
      let d1 := (db_free_nonnull d).2
      let ini := db_init_nonnull d1 (alloc 0)
      if ini.1 = 0 then .returns (0, some ini.2)
      else
        (db_load_loop (content.length + 1) content alloc 0 current ini.2).map
          (fun x => (x.1, some x.2))
  | _, _ => .returns (0, db)

/-! ## Sorting -/

def compare_records (a b : Repository) : Int :=
  let cmp_name := strcmp a.name b.name
  if cmp_name ≠ 0 then cmp_name
  else if a.direction ≠ b.direction then wrap32 (a.direction - b.direction)
  else wrap32 (-(compare_dates a.release_date b.release_date))

/-- The inner loop of `db_sort_bubble` seen from slot `j`: the list holds the
slots `j, j+1, ...`, `todo` is the number of values of `j` still to run, and
`swapped` the flag. Returns the slots and the flag after the loop. -/
def bubble_inner : (todo : Nat) → List Repository → Bool → List Repository × Bool
  | todo + 1, a :: b :: t, swapped =>
    if compare_records a b > 0 then
      ((b :: (bubble_inner todo (a :: t) true).1), (bubble_inner todo (a :: t) true).2)
    else
      ((a :: (bubble_inner todo (b :: t) swapped).1), (bubble_inner todo (b :: t) swapped).2)
  | _, l, swapped => (l, swapped)

/-- The outer loop of `db_sort_bubble` from pass `i` on, with `todo` passes
left: pass `i` runs `j` over `0 .. count-2-i` and the loop is left after a
pass without a swap. -/
def bubble_outer : (todo : Nat) → (i : Nat) → (count : Nat) → List Repository →
    List Repository
  | 0, _, _, l => l
  | todo + 1, i, count, l =>
    let pass := bubble_inner (count - 1 - i) l false
    if pass.2 = false then pass.1 else bubble_outer todo (i + 1) count pass.1

/-- Body of `db_sort_bubble` for a non-NULL `db`. -/
def db_sort_bubble_nonnull (d : RepositoryDB) : Int × RepositoryDB :=
  if d.count < 2 then (1, d)
  else (1, { d with
    records := bubble_outer (d.count - 1).toNat 0 d.count.toNat d.records })

def db_sort_bubble (db : Option RepositoryDB) : Int × Option RepositoryDB :=
  match db with
  | none => (0, none)
  | some d => ((db_sort_bubble_nonnull d).1, some (db_sort_bubble_nonnull d).2)

/-! ## Saving -/

/-- The decimal digits of `n` as bytes, most significant first; `fuel` above
`n` is never used up. -/
def decimal : (fuel : Nat) → Nat → List Nat
  | 0, _ => []
  | fuel + 1, n =>
    if n < 10 then [48 + n] else decimal fuel (n / 10) ++ [48 + n % 10]

/-- The conversion `%d` of `fprintf`: a minus sign for a negative value, then
the decimal digits of the magnitude. -/
def print_int (v : Int) : List Nat :=
  if v < 0 then 45 :: decimal (v.natAbs + 1) v.natAbs
  else decimal (v.toNat + 1) v.toNat

/-- The bytes one call
`fprintf(file, "%s\n%s\n%s\n%d\n%d %d %d\n%d\n%s\n", ...)` of
`db_save_to_file` writes for a record. -/
def fprintf_record (r : Repository) : List Nat :=
  direction_to_string r.direction ++ [10] ++ r.site ++ [10] ++ r.name ++ [10] ++
  print_int r.size ++ [10] ++
  print_int r.release_date.day ++ [32] ++ print_int r.release_date.month ++ [32] ++
  print_int r.release_date.year ++ [10] ++
  print_int r.dependencies ++ [10] ++
  compatibility_to_string r.compatibility ++ [10]

/-- The loop `for (i = ...; i < db->count; i++) fprintf(...)` with `todo`
iterations left; `out` is what has been written so far. Reading a slot that
was never initialised is undefined. -/
def db_save_loop : (todo : Nat) → (i : Nat) → List Repository → List Nat →
    Outcome (List Nat)
  | 0, _, _, out => .returns out
  | todo + 1, i, records, out =>
    match records[i]? with
    | some r => db_save_loop todo (i + 1) records (out ++ fprintf_record r)
    | none => .undefined

/-- The function `db_save_to_file`. `fopen_w name` is whether the file `name`
can be opened for writing. The result is the return code, the store after the
call, and the content of the file written (`none`: no file was created or
truncated). -/
def db_save_to_file (db : Option RepositoryDB) (filename : Option CStr)
    (fopen_w : CStr → Bool) : Outcome (Int × Option RepositoryDB × Option (List Nat)) :=
  match db, filename with
  | some d, some name =>
    if d.count = 0 then .returns (0, some d, none)
    else if fopen_w name = false then .returns (0, some d, none)
    else (db_save_loop d.count.toNat 0 d.records []).map (fun out => (1, some d, some out))
  | _, _ => .returns (0, db, none)

/-! ## Searching -/

/-- A search result: `indices` is NULL (`none`) or the initialised slots of
the buffer of positions. -/
structure SearchResult where
  indices : Option (List Int)
  count : Int
deriving DecidableEq, Repr

/-- The loop `for (i = ...; i < db->count; i++)` that `db_search_by_direction`
and `db_search_combined` share word for word but for the test `test` applied
to `db->records[i]`. `todo` is the number of iterations left, `capacity`,
`indices` and `count` the local capacity and the result so far, and
`alloc (i + 1)` the result of the `realloc` made, if one is, at position `i`.
Reading a slot of the store that was never initialised, or writing a position
outside the buffer, is undefined. -/
def search_loop (test : Repository → Bool) (records : List Repository)
    (alloc : Nat → Bool) : (todo : Nat) → (i : Nat) → (capacity : Int) →
    (indices : List Int) → (count : Int) → Outcome SearchResult
  | 0, _, _, indices, count => .returns { indices := some indices, count := count }
  | todo + 1, i, capacity, indices, count =>
    match records[i]? with
    | none => .undefined
    | some r =>
      if test r = true then
        if count ≥ capacity ∧ alloc (i + 1) = false then
          .returns { indices := none, count := 0 }
        else
          let capacity1 := if count ≥ capacity then capacity * 2 else capacity
          if 0 ≤ count ∧ count < capacity1 then
            search_loop test records alloc todo (i + 1) capacity1
              (indices.take count.toNat ++ [(i : Int)]) (count + 1)
          else .undefined
      else search_loop test records alloc todo (i + 1) capacity indices count

/-- The function `db_search_by_direction`; `alloc 0` is the result of its
`malloc`. -/
def db_search_by_direction (db : Option RepositoryDB) (direction : Direction)
    (alloc : Nat → Bool) : Outcome SearchResult :=
  match db with
  | none => .returns { indices := none, count := 0 }
  | some d =>
    if d.count = 0 then .returns { indices := none, count := 0 }
    else if alloc 0 = false then .returns { indices := none, count := 0 }
    else
      search_loop (fun r => decide (r.direction = direction)) d.records alloc
        d.count.toNat 0 INITIAL_CAPACITY [] 0

/-- The function `db_search_combined`; `alloc 0` is the result of its
`malloc`. -/
def db_search_combined (db : Option RepositoryDB) (target_date : Date) (target_size : Int)
    (alloc : Nat → Bool) : Outcome SearchResult :=
  match db with
  | none => .returns { indices := none, count := 0 }
  | some d =>
    if d.count = 0 then .returns { indices := none, count := 0 }
    else if alloc 0 = false then .returns { indices := none, count := 0 }
    else
      search_loop
        (fun r => decide (compare_dates r.release_date target_date = 0) &&
          decide (r.size = target_size))
        d.records alloc d.count.toNat 0 INITIAL_CAPACITY [] 0

/-! ## The sort of `Kursovayaya.c` -/

/-- The test of the `if` in `sort_records`, with a for `records[i]` and b for
`records[j]`. The `compare_dates` of `Kursovayaya.c` has the same text as the
one of `repository_db.c`. -/
def sort_records_swap (a b : Repository) : Bool :=
  let cmp_name := strcmp a.name b.name
  decide (cmp_name > 0 ∨
    (cmp_name = 0 ∧ a.direction > b.direction) ∨
    (cmp_name = 0 ∧ a.direction = b.direction ∧
      compare_dates a.release_date b.release_date < 0))

/-- The inner loop of `sort_records` for a fixed `i`: `x` is `records[i]`, the
list holds the slots `j, j+1, ...` and `todo` is the number of values of `j`
still to run. Returns `records[i]` and the slots after the loop. -/
def sort_records_inner : (todo : Nat) → Repository → List Repository →
    Repository × List Repository
  | todo + 1, x, y :: t =>
    if sort_records_swap x y = true then
      ((sort_records_inner todo y t).1, x :: (sort_records_inner todo y t).2)
    else
      ((sort_records_inner todo x t).1, y :: (sort_records_inner todo x t).2)
  | _, x, l => (x, l)

/-- The outer loop of `sort_records` from `i` on, with `todo` values of `i`
left; the list holds the slots `i, i+1, ...`. -/
def sort_records_outer : (todo : Nat) → (i : Nat) → (count : Nat) → List Repository →
    List Repository
  | todo + 1, i, count, x :: t =>
    (sort_records_inner (count - 1 - i) x t).1 ::
      sort_records_outer todo (i + 1) count (sort_records_inner (count - 1 - i) x t).2
  | _, _, _, l => l

/-- The function `sort_records` of `Kursovayaya.c` on an array `records` of at
least `count` elements: the return value and the array afterwards. -/
def sort_records (records : List Repository) (count : Int) : Int × List Repository :=
  (1, sort_records_outer (count - 1).toNat 0 count.toNat records)

/-! ## Specification-side notions used in the statements -/

/-- The length of a month as the specification words it: 31 or 30 days, and
for February 29 in a leap year, otherwise 28. -/
def month_length (year month : Int) : Int :=
  if month = 2 then
    if (year % 4 = 0 ∧ year % 100 ≠ 0) ∨ year % 400 = 0 then 29 else 28
  else if month = 4 ∨ month = 6 ∨ month = 9 ∨ month = 11 then 30
  else 31

/-- Strict lexicographic order on the triples (year, month, day). -/
def date_lex_lt (a b : Date) : Prop :=
  a.year < b.year ∨ (a.year = b.year ∧
    (a.month < b.month ∨ (a.month = b.month ∧ a.day < b.day)))

/-- A record is valid: size > 0, dependencies >= 0, a date `validate_date`
accepts, a direction among the 5 enumerators and a compatibility among the 4. -/
def valid_record (r : Repository) : Prop :=
  r.size > 0 ∧ r.dependencies ≥ 0 ∧ validate_date r.release_date ≠ 0 ∧
  (0 ≤ r.direction ∧ r.direction < DIRECTION_COUNT) ∧
  (0 ≤ r.compatibility ∧ r.compatibility < COMPAT_COUNT)

instance (r : Repository) : Decidable (valid_record r) := by
  unfold valid_record; infer_instance

/-- The values of one scanned record pass the checks of the loader: both names
are in the tables, size > 0, dependencies >= 0 and the date is valid. -/
def scanned_valid (sc : Scanned) : Prop :=
  sc.dir_str ∈ dir_names ∧ sc.compat_str ∈ compat_names ∧ sc.size > 0 ∧
  sc.dependencies ≥ 0 ∧ validate_date { day := sc.day, month := sc.month, year := sc.year } ≠ 0

instance (sc : Scanned) : Decidable (scanned_valid sc) := by
  unfold scanned_valid; infer_instance

/-- The records parsed from an input: `fscanf_record` applied again and again
from the start of the input until it first fails to match the record shape
(`fuel` bounds the number of records; above the length of the input it has no
effect, see `scan_all_fuel`). -/
def scan_all : (fuel : Nat) → List Nat → List Scanned
  | 0, _ => []
  | fuel + 1, inp =>
    match fscanf_record inp with
    | none => []
    | some (sc, rest) => sc :: scan_all fuel rest

/-- The record a scanned block of the format denotes: each name stands for its
position in its table. -/
def record_of (sc : Scanned) : Repository :=
  { direction := (dir_names.indexOf sc.dir_str : Nat),
    site := sc.site, name := sc.name, size := sc.size,
    release_date := { day := sc.day, month := sc.month, year := sc.year },
    dependencies := sc.dependencies,
    compatibility := (compat_names.indexOf sc.compat_str : Nat) }

/-- The store is consistent: `count` is the number of initialised slots. -/
def consistent (d : RepositoryDB) : Prop := d.count = (d.records.length : Int)

/-- The states of a store a client can bring about: a successful `db_init`,
then calls of `db_add_record` with records satisfying `P`, of
`db_load_from_file` and of `db_sort_bubble`, each with a defined result. -/
inductive Reachable (P : Repository → Prop) : RepositoryDB → Prop where
  | init (d0 d : RepositoryDB) :
      db_init (some d0) true = (1, some d) → Reachable P d
  | add (d d1 : RepositoryDB) (r : Repository) (ok : Bool) (c : Int) :
      Reachable P d → P r →
      db_add_record (some d) (some r) ok = .returns (c, some d1) → Reachable P d1
  | load (d d1 : RepositoryDB) (name : Option CStr) (fopen : CStr → Option (List Nat))
      (alloc : Nat → Bool) (cur : Repository) (c : Int) :
      Reachable P d →
      db_load_from_file (some d) name fopen alloc cur = .returns (c, some d1) →
      Reachable P d1
  | sort (d d1 : RepositoryDB) (c : Int) :
      Reachable P d → db_sort_bubble (some d) = (c, some d1) → Reachable P d1

/-- A C `int`: within the 32-bit two's-complement range. -/
def int32 (x : Int) : Prop := -2147483648 ≤ x ∧ x ≤ 2147483647

instance (x : Int) : Decidable (int32 x) := by
  unfold int32; infer_instance

/-- A string of at most 99 bytes without newline. -/
def line_text (s : CStr) : Prop := is_cstr s ∧ s.length ≤ 99 ∧ 10 ∉ s

instance (s : CStr) : Decidable (line_text s) := by
  unfold line_text; infer_instance

/-- A string that is not empty and does not start with white space. -/
def reads_back (s : CStr) : Prop := ∃ x t, s = x :: t ∧ isspace x = false

instance (s : CStr) : Decidable (reads_back s) :=
  match s with
  | [] => isFalse (by rintro ⟨x, t, h, _⟩; cases h)
  | x :: t =>
    if h : isspace x = false then isTrue ⟨x, t, rfl, h⟩
    else isFalse (by
      rintro ⟨y, u, he, hy⟩
      simp only [List.cons.injEq] at he
      rw [he.1] at h
      exact h hy)

/-- A valid record whose text `db_load_from_file` reads back: the integers are
C `int`s, site and name are strings of at most 99 bytes without newline, not
empty and not starting with white space. -/
def storable (r : Repository) : Prop :=
  valid_record r ∧ int32 r.size ∧ int32 r.dependencies ∧
  line_text r.site ∧ reads_back r.site ∧ line_text r.name ∧ reads_back r.name

instance (r : Repository) : Decidable (storable r) := by
  unfold storable; infer_instance

/-- The nine values `fscanf` is to read back from the text of a record. -/
def scanned_of (r : Repository) : Scanned :=
  { dir_str := direction_to_string r.direction, site := r.site, name := r.name,
    size := r.size, day := r.release_date.day, month := r.release_date.month,
    year := r.release_date.year, dependencies := r.dependencies,
    compat_str := compatibility_to_string r.compatibility }

/-- The text of a sequence of records: their blocks one after the other. -/
def records_text (rs : List Repository) : List Nat := rs.flatMap fprintf_record

/-- The decimal notation of an integer: a minus sign when negative, then the
digits of the magnitude in base 10, most significant first, a single 0 for
zero. -/
def decimal_text (v : Int) : List Nat :=
  (if v < 0 then [45] else []) ++
  (if v = 0 then [48] else (Nat.digits 10 v.natAbs).reverse.map (fun dg => 48 + dg))

/-- One block of the text format for a record:
"<DirectionName>\n<site>\n<name>\n<size>\n<day> <month> <year>\n<dependencies>\n<CompatibilityName>\n". -/
def block_text (r : Repository) : List Nat :=
  direction_to_string r.direction ++ [10] ++ r.site ++ [10] ++ r.name ++ [10] ++
  decimal_text r.size ++ [10] ++
  decimal_text r.release_date.day ++ [32] ++ decimal_text r.release_date.month ++ [32] ++
  decimal_text r.release_date.year ++ [10] ++
  decimal_text r.dependencies ++ [10] ++
  compatibility_to_string r.compatibility ++ [10]

/-- Strict byte-wise lexicographic order on strings: at the first position
where they differ the smaller byte decides, and a proper initial part comes
first. -/
def bytes_lt : CStr → CStr → Prop
  | [], [] => False
  | [], _ :: _ => True
  | _ :: _, [] => False
  | a :: s, b :: t => a < b ∨ (a = b ∧ bytes_lt s t)

/-- The order of the sort key: name ascending, then direction ascending, then
release date descending. -/
def record_le (a b : Repository) : Prop :=
  bytes_lt a.name b.name ∨ (a.name = b.name ∧
    (a.direction < b.direction ∨ (a.direction = b.direction ∧
      ¬ date_lex_lt a.release_date b.release_date)))

/-- A record the comparator is meant for: the name is a C string, the
direction one of the 5 enumerators and the date valid. -/
def sortable (r : Repository) : Prop :=
  is_cstr r.name ∧ (0 ≤ r.direction ∧ r.direction < DIRECTION_COUNT) ∧
  validate_date r.release_date ≠ 0

instance (r : Repository) : Decidable (sortable r) := by
  unfold sortable; infer_instance

/-- Two records have the same sort key: the same name, direction and release
date. -/
def same_key (a b : Repository) : Prop :=
  a.name = b.name ∧ a.direction = b.direction ∧ a.release_date = b.release_date

instance (a b : Repository) : Decidable (same_key a b) := by
  unfold same_key; infer_instance

/-- The key fields of a record as C holds them: the name is a C string, the
direction and the three date fields are 32-bit integers. -/
def key_typed (r : Repository) : Prop :=
  is_cstr r.name ∧ int32 r.direction ∧
  int32 r.release_date.day ∧ int32 r.release_date.month ∧ int32 r.release_date.year

instance (r : Repository) : Decidable (key_typed r) := by
  unfold key_typed; infer_instance

/-- The sort key of a record: name, direction and release date. -/
def sort_key (r : Repository) : CStr × Int × Date := (r.name, r.direction, r.release_date)

/-- The order of `record_le` on sort keys. -/
def key_le (k1 k2 : CStr × Int × Date) : Prop :=
  bytes_lt k1.1 k2.1 ∨ (k1.1 = k2.1 ∧
    (k1.2.1 < k2.2.1 ∨ (k1.2.1 = k2.2.1 ∧ ¬ date_lex_lt k1.2.2 k2.2.2)))

/-- A record whose text `fscanf` reads back field by field, whatever its enum
values: the integers are C `int`s, site and name are strings of at most 99
bytes without newline, not empty and not starting with white space. -/
def shape_safe (r : Repository) : Prop :=
  int32 r.size ∧ int32 r.release_date.day ∧ int32 r.release_date.month ∧
  int32 r.release_date.year ∧ int32 r.dependencies ∧
  line_text r.site ∧ reads_back r.site ∧ line_text r.name ∧ reads_back r.name

instance (r : Repository) : Decidable (shape_safe r) := by
  unfold shape_safe; infer_instance

/-- The load gives the same result on the file contents `x` and `y`, whatever
the store, the file name, the allocator and the local record. -/
def same_load (x y : List Nat) : Prop :=
  ∀ (d : RepositoryDB) (f : CStr) (alloc : Nat → Bool) (cur : Repository),
    db_load_from_file (some d) (some f) (fun _ => some x) alloc cur =
      db_load_from_file (some d) (some f) (fun _ => some y) alloc cur

/-- The load of the file content `content` stops after the records `pre`:
without such records the call returns 0 and leaves the store empty; with
them, allocations succeeding, it returns 1 with exactly these records. -/
def load_stops_after (pre : List Repository) (content : List Nat) : Prop :=
  ∀ (d : RepositoryDB) (f : CStr) (cur : Repository),
    (pre = [] → ∀ alloc : Nat → Bool,
      db_load_from_file (some d) (some f) (fun _ => some content) alloc cur =
        .returns (0, some { records := [], count := 0, capacity := 0 })) ∧
    (pre ≠ [] → ∀ alloc : Nat → Bool, (∀ k, alloc k = true) →
      ∃ d1 : RepositoryDB,
        db_load_from_file (some d) (some f) (fun _ => some content) alloc cur =
          .returns (1, some d1) ∧
        d1.records = pre ∧ d1.count = (pre.length : Int))

/-! ## Sample data -/

instance (d : RepositoryDB) : Decidable (consistent d) := by
  unfold consistent; infer_instance

def sample_record : Repository :=
  { direction := DIRECTION_BACKEND, site := cstr "https://a.example", name := cstr "alpha",
    size := 500, release_date := { day := 10, month := 1, year := 2024 },
    dependencies := 3, compatibility := COMPAT_LINUX }

def other_record : Repository :=
  { direction := DIRECTION_MOBILE, site := cstr "site two", name := cstr "beta",
    size := 900, release_date := { day := 29, month := 2, year := 2024 },
    dependencies := 0, compatibility := COMPAT_MACOS }

/-- A record with size 0: not valid. -/
def zero_size_record : Repository := { sample_record with size := 0 }

/-- A store whose buffer of one slot is full. -/
def full_store : RepositoryDB := { records := [sample_record], count := 1, capacity := 1 }

def sample_text : List Nat :=
  cstr "Backend\nhttps://a.example\nalpha\n500\n10 1 2024\n3\nLinux\n"

def other_text : List Nat :=
  cstr "Mobile\nsite two\nbeta\n900\n29 2 2024\n0\nmacOS\n"

def zero_size_text : List Nat :=
  cstr "DevOps\nsite three\ngamma\n0\n1 1 2000\n1\nWindows\n"

/-- Seven valid records with sizes 1..7. -/
def seven_records : List Repository :=
  [1, 2, 3, 4, 5, 6, 7].map (fun k => { sample_record with size := k })

def stray_tail : List Nat := cstr "this line is not a record\n"

/-- A valid record whose site is the empty string. -/
def empty_site_record : Repository := { sample_record with site := [] }

/-- A valid record whose site starts with a blank. -/
def blank_site_record : Repository := { sample_record with site := cstr " x" }

/-- A store of twelve records of direction Backend followed by one of direction
Mobile. -/
def thirteen_store : RepositoryDB :=
  { records := List.replicate 12 sample_record ++ [other_record], count := 13,
    capacity := 20 }

/-- Two records of the same date 10.01.2024 with sizes 500 and 900. -/
def same_date_store : RepositoryDB :=
  { records := [sample_record, { sample_record with size := 900 }], count := 2,
    capacity := 10 }

/-- The record (B, Backend, 2023-01-01). -/
def sort_b : Repository :=
  { sample_record with name := cstr "B", direction := DIRECTION_BACKEND,
                       release_date := { day := 1, month := 1, year := 2023 } }

/-- The record (A, Frontend, 2022-01-01). -/
def sort_a_old : Repository :=
  { sample_record with name := cstr "A", direction := DIRECTION_FRONTEND,
                       release_date := { day := 1, month := 1, year := 2022 } }

/-- The record (A, Frontend, 2024-05-05). -/
def sort_a_new : Repository :=
  { sample_record with name := cstr "A", direction := DIRECTION_FRONTEND,
                       release_date := { day := 5, month := 5, year := 2024 } }

/-- A second record with the key of `sort_b`, differing in site, size,
dependencies and compatibility. -/
def sort_b_mirror : Repository :=
  { sort_b with site := cstr "https://mirror.example/b", size := 7, dependencies := 1,
                compatibility := COMPAT_MACOS }

/-- One record whose site line has 100 bytes `a`. -/
def long_site_text : List Nat :=
  cstr "Backend\n" ++ List.replicate 100 97 ++ cstr "\nalpha\n500\n10 1 2024\n3\nLinux\n"

/-- The same record with a site line of 99 bytes `a`. -/
def cut_site_text : List Nat :=
  cstr "Backend\n" ++ List.replicate 99 97 ++ cstr "\nalpha\n500\n10 1 2024\n3\nLinux\n"

/-- One record whose name line has 100 bytes `a`. -/
def long_name_text : List Nat :=
  cstr "Backend\nhttps://a.example\n" ++ List.replicate 100 97 ++
    cstr "\n500\n10 1 2024\n3\nLinux\n"

/-- A record with a direction outside the enumerators and an empty site. -/
def unknown_direction_record : Repository :=
  { other_record with direction := 7, site := [] }

/-- The text of `sample_record` with a NUL byte at the start of the site
line. -/
def nul_site_text : List Nat :=
  cstr "Backend\n" ++ [0] ++ cstr "https://a.example\nalpha\n500\n10 1 2024\n3\nLinux\n"

/-! ## Lemmas -/

theorem strcmp_self (s : CStr) : strcmp s s = 0 := by
  induction s with
  | nil => rfl
  | cons a s ih => simp [strcmp, ih]

theorem strcmp_eq_zero_iff (s t : CStr) (hs : is_cstr s) (ht : is_cstr t) :
    strcmp s t = 0 ↔ s = t := by
  constructor
  · intro h
    induction s generalizing t with
    | nil =>
      cases t with
      | nil => rfl
      | cons b t =>
        have hb := ht b (List.mem_cons_self b t)
        simp only [strcmp] at h
        omega
    | cons a s ih =>
      cases t with
      | nil =>
        have ha := hs a (List.mem_cons_self a s)
        simp only [strcmp] at h
        omega
      | cons b t =>
        simp only [strcmp] at h
        by_cases hab : a = b
        · subst hab
          simp only [if_true] at h
          have hs' : is_cstr s := fun x hx => hs x (List.mem_cons_of_mem a hx)
          have ht' : is_cstr t := fun x hx => ht x (List.mem_cons_of_mem a hx)
          rw [ih t hs' ht' h]
        · simp only [hab, if_false] at h
          omega
  · intro h
    subst h
    exact strcmp_self s

theorem validate_date_iff (d : Date) :
    validate_date d ≠ 0 ↔
      (1900 ≤ d.year ∧ d.year ≤ 2100 ∧ 1 ≤ d.month ∧ d.month ≤ 12 ∧
        1 ≤ d.day ∧ d.day ≤ month_length d.year d.month) := by
  obtain ⟨day, month, year⟩ := d
  simp only [validate_date, month_length]
  by_cases hy : year < 1900 ∨ year > 2100
  · simp only [hy, if_true]
    constructor
    · intro h; exact absurd rfl h
    · intro h; omega
  · simp only [hy, if_false]
    by_cases hm : month < 1 ∨ month > 12
    · simp only [hm, if_true]
      constructor
      · intro h; exact absurd rfl h
      · intro h; omega
    · simp only [hm, if_false]
      have hy0 : (0 : Int) ≤ year := by omega
      rw [Int.tmod_eq_emod hy0 (by norm_num), Int.tmod_eq_emod hy0 (by norm_num),
        Int.tmod_eq_emod hy0 (by norm_num)]
      have h1 : 1 ≤ month := by omega
      have h2 : month ≤ 12 := by omega
      by_cases hl : (year % 4 = 0 ∧ year % 100 ≠ 0) ∨ year % 400 = 0
      · simp only [hl, decide_True, if_true]
        interval_cases month <;> simp [days_in_month] <;> omega
      · simp only [hl, decide_False, if_false]
        interval_cases month <;> simp [days_in_month] <;> omega

theorem wrap32_of_small (x : Int) (h1 : -2147483648 ≤ x) (h2 : x < 2147483648) :
    wrap32 x = x := by
  unfold wrap32; omega

theorem month_length_le (y m : Int) : month_length y m ≤ 31 := by
  unfold month_length; split_ifs <;> omega

theorem find_name_some (names : List CStr) (s : CStr) :
    ∀ (todo i : Nat) (j : Int), find_name names s todo i = some j →
      ∃ k : Nat, j = (k : Int) ∧ i ≤ k ∧ k < i + todo ∧
        strcmp s (names.getD k []) = 0 ∧
        ∀ m : Nat, i ≤ m → m < k → strcmp s (names.getD m []) ≠ 0 := by
  intro todo
  induction todo with
  | zero => intro i j h; simp [find_name] at h
  | succ n ih =>
    intro i j h
    simp only [find_name] at h
    by_cases hc : strcmp s (names.getD i []) = 0
    · simp only [hc, if_true, Option.some.injEq] at h
      exact ⟨i, h.symm, le_refl i, by omega, hc, fun m h1 h2 => by omega⟩
    · simp only [hc, if_false] at h
      obtain ⟨k, hk, h1, h2, h3, h4⟩ := ih (i + 1) j h
      refine ⟨k, hk, by omega, by omega, h3, ?_⟩
      intro m hm1 hm2
      by_cases hmi : m = i
      · subst hmi; exact hc
      · exact h4 m (by omega) hm2

theorem find_name_none (names : List CStr) (s : CStr) :
    ∀ (todo i : Nat), find_name names s todo i = none ↔
      ∀ m : Nat, i ≤ m → m < i + todo → strcmp s (names.getD m []) ≠ 0 := by
  intro todo
  induction todo with
  | zero => intro i; simp [find_name]; intro m h1 h2; omega
  | succ n ih =>
    intro i
    simp only [find_name]
    by_cases hc : strcmp s (names.getD i []) = 0
    · simp only [hc, if_true]
      constructor
      · intro h; cases h
      · intro h; exact absurd hc (h i (le_refl i) (by omega))
    · simp only [hc, if_false]
      rw [ih (i + 1)]
      constructor
      · intro h m h1 h2
        by_cases hmi : m = i
        · subst hmi; exact hc
        · exact h m (by omega) (by omega)
      · intro h m h1 h2
        exact h m (by omega) (by omega)

theorem dir_names_cstr : ∀ n ∈ dir_names, is_cstr n := by decide

theorem compat_names_cstr : ∀ n ∈ compat_names, is_cstr n := by decide

theorem getD_cstr (names : List CStr) (h : ∀ n ∈ names, is_cstr n) (k : Nat) :
    is_cstr (names.getD k []) := by
  by_cases hk : k < names.length
  · rw [List.getD_eq_getElem names [] hk]
    exact h _ (List.getElem_mem hk)
  · rw [List.getD_eq_default names [] (by omega)]
    intro b hb; cases hb

theorem find_name_table (names : List CStr) (hn : ∀ n ∈ names, is_cstr n)
    (s : CStr) (hs : is_cstr s) (cnt : Nat) :
    (∃ k : Nat, k < cnt ∧ s = names.getD k [] ∧ find_name names s cnt 0 = some (k : Int)) ∨
    ((∀ k : Nat, k < cnt → s ≠ names.getD k []) ∧ find_name names s cnt 0 = none) := by
  cases hf : find_name names s cnt 0 with
  | none =>
    right
    refine ⟨?_, rfl⟩
    intro k hk he
    have h := (find_name_none names s cnt 0).1 hf k (Nat.zero_le k) (by omega)
    apply h
    rw [← he]
    exact strcmp_self s
  | some j =>
    left
    obtain ⟨k, hj, _, hk, hz, _⟩ := find_name_some names s cnt 0 j hf
    refine ⟨k, by omega, ?_, by rw [hj]⟩
    exact (strcmp_eq_zero_iff s _ hs (getD_cstr names hn k)).1 hz

theorem string_to_direction_cases (s : CStr) (hs : is_cstr s) (r : Direction) :
    (∃ k : Nat, k < 5 ∧ s = dir_names.getD k [] ∧
        string_to_direction (some s) (some r) = (1, some (k : Int))) ∨
    ((∀ k : Nat, k < 5 → s ≠ dir_names.getD k []) ∧
        string_to_direction (some s) (some r) = (0, some r)) := by
  rcases find_name_table dir_names dir_names_cstr s hs 5 with ⟨k, hk, he, hf⟩ | ⟨hne, hf⟩
  · left
    refine ⟨k, hk, he, ?_⟩
    simp only [string_to_direction]
    have h5 : DIRECTION_COUNT.toNat = 5 := rfl
    rw [h5, hf]
  · right
    refine ⟨hne, ?_⟩
    simp only [string_to_direction]
    have h5 : DIRECTION_COUNT.toNat = 5 := rfl
    rw [h5, hf]

theorem string_to_compatibility_cases (s : CStr) (hs : is_cstr s) (r : Compatibility) :
    (∃ k : Nat, k < 4 ∧ s = compat_names.getD k [] ∧
        string_to_compatibility (some s) (some r) = (1, some (k : Int))) ∨
    ((∀ k : Nat, k < 4 → s ≠ compat_names.getD k []) ∧
        string_to_compatibility (some s) (some r) = (0, some r)) := by
  rcases find_name_table compat_names compat_names_cstr s hs 4 with ⟨k, hk, he, hf⟩ | ⟨hne, hf⟩
  · left
    refine ⟨k, hk, he, ?_⟩
    simp only [string_to_compatibility]
    have h4 : COMPAT_COUNT.toNat = 4 := rfl
    rw [h4, hf]
  · right
    refine ⟨hne, ?_⟩
    simp only [string_to_compatibility]
    have h4 : COMPAT_COUNT.toNat = 4 := rfl
    rw [h4, hf]

/-! ### Progress of `fscanf` -/

theorem skip_space_length_le (l : List Nat) : (skip_space l).length ≤ l.length :=
  (List.dropWhile_suffix isspace).length_le

theorem scan_line_length (w : Nat) (inp : List Nat) (s : CStr) (r : List Nat)
    (h : scan_line w inp = some (s, r)) : r.length < inp.length := by
  simp only [scan_line] at h
  split_ifs at h with he
  simp only [Option.some.injEq, Prod.mk.injEq] at h
  obtain ⟨_, hr⟩ := h
  subst hr
  have h1 : 0 < ((inp.takeWhile (fun c => decide (c ≠ 10))).take w).length :=
    List.length_pos.2 he
  have h2 : ((inp.takeWhile (fun c => decide (c ≠ 10))).take w).length ≤ inp.length := by
    rw [List.length_take]
    have := (List.takeWhile_prefix (l := inp) (fun c => decide (c ≠ 10))).length_le
    omega
  rw [List.length_drop]
  omega

theorem scan_line_cstr (w : Nat) (inp : List Nat) (s : CStr) (r : List Nat)
    (h : scan_line w inp = some (s, r)) : is_cstr s := by
  simp only [scan_line] at h
  split_ifs at h with he
  simp only [Option.some.injEq, Prod.mk.injEq] at h
  obtain ⟨hs, _⟩ := h
  subst hs
  intro b hb
  have := List.mem_takeWhile_imp hb
  simp at this
  omega

theorem scan_sign_length_le (l : List Nat) : (scan_sign l).2.length ≤ l.length := by
  unfold scan_sign
  split <;> simp

theorem scan_int_length (inp : List Nat) (v : Int) (r : List Nat)
    (h : scan_int inp = some (v, r)) : r.length ≤ inp.length := by
  simp only [scan_int] at h
  by_cases he : (scan_sign (skip_space inp)).2.takeWhile isdigit = []
  · simp [he] at h
  · simp only [he, if_false, Option.some.injEq, Prod.mk.injEq] at h
    obtain ⟨_, hr⟩ := h
    subst hr
    rw [List.length_drop]
    have h0 := skip_space_length_le inp
    have h1 := scan_sign_length_le (skip_space inp)
    omega

theorem fscanf_record_length (inp : List Nat) (sc : Scanned) (rest : List Nat)
    (h : fscanf_record inp = some (sc, rest)) : rest.length < inp.length := by
  unfold fscanf_record at h
  split at h
  · cases h
  rename_i dir_str r1 h1
  split at h
  · cases h
  rename_i site r2 h2
  split at h
  · cases h
  rename_i name r3 h3
  split at h
  · cases h
  rename_i size r4 h4
  split at h
  · cases h
  rename_i day r5 h5
  split at h
  · cases h
  rename_i month r6 h6
  split at h
  · cases h
  rename_i year r7 h7
  split at h
  · cases h
  rename_i deps r8 h8
  split at h
  · cases h
  rename_i compat r9 h9
  simp only [Option.some.injEq, Prod.mk.injEq] at h
  obtain ⟨_, hr⟩ := h
  subst hr
  have a1 := scan_line_length _ _ _ _ h1
  have a2 := scan_line_length _ _ _ _ h2
  have a3 := scan_line_length _ _ _ _ h3
  have a4 := scan_int_length _ _ _ h4
  have a5 := scan_int_length _ _ _ h5
  have a6 := scan_int_length _ _ _ h6
  have a7 := scan_int_length _ _ _ h7
  have a8 := scan_int_length _ _ _ h8
  have a9 := scan_line_length _ _ _ _ h9
  have b1 := skip_space_length_le r1
  have b2 := skip_space_length_le r2
  have b3 := skip_space_length_le r3
  have b4 := skip_space_length_le r4
  have b5 := skip_space_length_le r5
  have b6 := skip_space_length_le r6
  have b7 := skip_space_length_le r7
  have b8 := skip_space_length_le r8
  have b9 := skip_space_length_le r9
  omega

theorem fscanf_record_cstr (inp : List Nat) (sc : Scanned) (rest : List Nat)
    (h : fscanf_record inp = some (sc, rest)) :
    is_cstr sc.dir_str ∧ is_cstr sc.compat_str := by
  unfold fscanf_record at h
  split at h
  · cases h
  rename_i dir_str r1 h1
  split at h
  · cases h
  split at h
  · cases h
  split at h
  · cases h
  split at h
  · cases h
  split at h
  · cases h
  split at h
  · cases h
  split at h
  · cases h
  split at h
  · cases h
  rename_i compat r9 h9
  simp only [Option.some.injEq, Prod.mk.injEq] at h
  obtain ⟨hsc, _⟩ := h
  subst hsc
  exact ⟨scan_line_cstr _ _ _ _ h1, scan_line_cstr _ _ _ _ h9⟩

theorem scan_all_fuel : ∀ (f1 f2 : Nat) (inp : List Nat),
    inp.length < f1 → inp.length < f2 → scan_all f1 inp = scan_all f2 inp := by
  intro f1
  induction f1 with
  | zero => intro f2 inp h; omega
  | succ n ih =>
    intro f2 inp h1 h2
    cases f2 with
    | zero => omega
    | succ m =>
      simp only [scan_all]
      cases hf : fscanf_record inp with
      | none => rfl
      | some p =>
        obtain ⟨sc, rest⟩ := p
        have := fscanf_record_length inp sc rest hf
        simp only
        rw [ih m rest (by omega) (by omega)]

/-! ### The store operations -/

theorem add_in_bounds (d : RepositoryDB) (r : Repository) (ok : Bool)
    (hc : consistent d) (h : d.count < d.capacity) :
    db_add_record_nonnull d r ok =
      .returns (1, { records := d.records ++ [r], count := d.count + 1,
                     capacity := d.capacity }) := by
  unfold consistent at hc
  have h0 : ¬ (d.count ≥ d.capacity) := by omega
  have h1 : (0 : Int) ≤ d.count := by omega
  have ht : d.records.take d.count.toNat = d.records := by
    apply List.take_of_length_le; omega
  simp [db_add_record_nonnull, h0, h, h1, ht]

theorem add_grow_fail (d : RepositoryDB) (r : Repository) (h : d.count ≥ d.capacity) :
    db_add_record_nonnull d r false = .returns (0, d) := by
  simp [db_add_record_nonnull, h, db_grow_capacity]

theorem add_grow_ok (d : RepositoryDB) (r : Repository)
    (hc : consistent d) (h : d.count ≥ d.capacity) (h2 : d.count < d.capacity * 2) :
    db_add_record_nonnull d r true =
      .returns (1, { records := d.records ++ [r], count := d.count + 1,
                     capacity := d.capacity * 2 }) := by
  unfold consistent at hc
  have h1 : (0 : Int) ≤ d.count := by omega
  have ht : d.records.take d.count.toNat = d.records := by
    apply List.take_of_length_le; omega
  simp [db_add_record_nonnull, h, db_grow_capacity, h1, h2, ht]

theorem add_grow_undefined (d : RepositoryDB) (r : Repository)
    (h : d.count ≥ d.capacity) (h2 : ¬ (0 ≤ d.count ∧ d.count < d.capacity * 2)) :
    db_add_record_nonnull d r true = .undefined := by
  simp only [db_add_record_nonnull, h, db_grow_capacity, if_true]
  simp
  intro h3
  omega



theorem dir_index (k : Nat) (hk : k < 5) (s : CStr) (he : s = dir_names.getD k []) :
    dir_names.indexOf s = k ∧ s ∈ dir_names := by
  subst he
  interval_cases k <;> decide

theorem compat_index (k : Nat) (hk : k < 4) (s : CStr) (he : s = compat_names.getD k []) :
    compat_names.indexOf s = k ∧ s ∈ compat_names := by
  subst he
  interval_cases k <;> decide

theorem db_load_loop_spec : ∀ (fuel : Nat) (inp : List Nat) (alloc : Nat → Bool) (i : Nat)
    (cur : Repository) (d : RepositoryDB),
    consistent d → 0 < d.capacity → d.count ≤ d.capacity → inp.length < fuel →
    ∃ (c : Int) (d1 : RepositoryDB),
      db_load_loop fuel inp alloc i cur d = .returns (c, d1) ∧
      ((c = 0 ∧ d1 = { records := [], count := 0, capacity := 0 }) ∨
       (c = 1 ∧ d1.records = d.records ++ (scan_all fuel inp).map record_of ∧
         consistent d1 ∧ d1.count ≠ 0 ∧ 0 < d1.capacity ∧ d1.count ≤ d1.capacity ∧
         ∀ sc ∈ scan_all fuel inp, scanned_valid sc)) := by
  intro fuel
  induction fuel with
  | zero => intro inp _ _ _ _ _ _ _ h; omega
  | succ n ih =>
    intro inp alloc i cur d hc hcap hle hlen
    cases hf : fscanf_record inp with
    | none =>
      simp only [db_load_loop, hf, scan_all]
      by_cases h0 : d.count = 0
      · exact ⟨0, _, by simp [h0, db_free_nonnull], Or.inl ⟨rfl, rfl⟩⟩
      · refine ⟨1, d, by simp [h0], Or.inr ⟨rfl, by simp, hc, h0, hcap, hle, ?_⟩⟩
        intro sc hsc; cases hsc
    | some p =>
      obtain ⟨sc, rest⟩ := p
      have hlt := fscanf_record_length inp sc rest hf
      obtain ⟨hcs1, hcs2⟩ := fscanf_record_cstr inp sc rest hf
      simp only [db_load_loop, hf, scan_all]
      rcases string_to_direction_cases sc.dir_str hcs1 cur.direction with
        ⟨k, hk, he, hr⟩ | ⟨hne, hr⟩
      swap
      · exact ⟨0, _, by simp [hr, db_free_nonnull], Or.inl ⟨rfl, rfl⟩⟩
      rcases string_to_compatibility_cases sc.compat_str hcs2 cur.compatibility with
        ⟨k2, hk2, he2, hr2⟩ | ⟨hne2, hr2⟩
      swap
      · exact ⟨0, _, by simp [hr, hr2, db_free_nonnull], Or.inl ⟨rfl, rfl⟩⟩
      by_cases hsz : sc.size ≤ 0
      · exact ⟨0, _, by simp [hr, hr2, hsz, db_free_nonnull], Or.inl ⟨rfl, rfl⟩⟩
      by_cases hdep : sc.dependencies < 0
      · exact ⟨0, _, by simp [hr, hr2, hsz, hdep, db_free_nonnull], Or.inl ⟨rfl, rfl⟩⟩
      by_cases hdate : validate_date { day := sc.day, month := sc.month, year := sc.year } = 0
      · exact ⟨0, _, by simp [hr, hr2, hsz, hdep, hdate, db_free_nonnull], Or.inl ⟨rfl, rfl⟩⟩
      obtain ⟨hi1, hm1⟩ := dir_index k hk sc.dir_str he
      obtain ⟨hi2, hm2⟩ := compat_index k2 hk2 sc.compat_str he2
      have hrec : Repository.mk (k : Int) sc.site sc.name sc.size
          (Date.mk sc.day sc.month sc.year) sc.dependencies (k2 : Int) = record_of sc := by
        simp [record_of, hi1, hi2]
      have hval : scanned_valid sc := ⟨hm1, hm2, by omega, by omega, hdate⟩
      simp only [hr, hr2, hsz, hdep, hdate, if_false, Option.getD_some, hrec]
      simp only [one_ne_zero, if_false]
      have hstep : ∀ d2 : RepositoryDB,
          d2.records = d.records ++ [record_of sc] → consistent d2 → 0 < d2.capacity →
          d2.count ≤ d2.capacity →
          ∃ c d1, db_load_loop n rest alloc (i + 1) (record_of sc) d2 = .returns (c, d1) ∧
            (c = 0 ∧ d1 = { records := [], count := 0, capacity := 0 } ∨
              c = 1 ∧ d1.records = d.records ++ List.map record_of (sc :: scan_all n rest) ∧
                consistent d1 ∧ d1.count ≠ 0 ∧ 0 < d1.capacity ∧ d1.count ≤ d1.capacity ∧
                  ∀ sc_1 ∈ sc :: scan_all n rest, scanned_valid sc_1) := by
        intro d2 hrec2 hc2 hcap2 hle2
        obtain ⟨c, d1, hrun, hres⟩ :=
          ih rest alloc (i + 1) (record_of sc) d2 hc2 hcap2 hle2 (by omega)
        refine ⟨c, d1, hrun, ?_⟩
        rcases hres with h0 | ⟨h1, h2, h3, h4, h5, h6, h7⟩
        · exact Or.inl h0
        · refine Or.inr ⟨h1, ?_, h3, h4, h5, h6, ?_⟩
          · rw [h2, hrec2]; simp
          · intro x hx
            rcases List.mem_cons.1 hx with hx | hx
            · rw [hx]; exact hval
            · exact h7 x hx
      have hcons : d.count = (d.records.length : Int) := hc
      by_cases hfull : d.count ≥ d.capacity
      · cases hal : alloc (i + 1) with
        | false =>
          rw [add_grow_fail d _ hfull]
          exact ⟨0, _, by simp [db_free_nonnull], Or.inl ⟨rfl, rfl⟩⟩
        | true =>
          rw [add_grow_ok d _ hc hfull (by omega)]
          simp only [one_ne_zero, if_false]
          apply hstep
          · rfl
          · simp [consistent, hcons]
          · simp; omega
          · simp; omega
      · rw [add_in_bounds d _ _ hc (by omega)]
        simp only [one_ne_zero, if_false]
        apply hstep
        · rfl
        · simp [consistent, hcons]
        · exact hcap
        · simp; omega



theorem bubble_inner_perm : ∀ (todo : Nat) (l : List Repository) (s : Bool),
    (bubble_inner todo l s).1.Perm l := by
  intro todo
  induction todo with
  | zero => intro l s; simp [bubble_inner]
  | succ n ih =>
    intro l s
    match l with
    | [] => simp [bubble_inner]
    | [a] => simp [bubble_inner]
    | a :: b :: t =>
      simp only [bubble_inner]
      split_ifs with h
      · exact ((ih (a :: t) true).cons b).trans (List.Perm.swap a b t)
      · exact (ih (b :: t) s).cons a

theorem bubble_outer_perm : ∀ (todo i count : Nat) (l : List Repository),
    (bubble_outer todo i count l).Perm l := by
  intro todo
  induction todo with
  | zero => intro i count l; simp [bubble_outer]
  | succ n ih =>
    intro i count l
    simp only [bubble_outer]
    split_ifs with h
    · exact bubble_inner_perm _ l false
    · exact (ih (i + 1) count _).trans (bubble_inner_perm _ l false)

theorem db_sort_bubble_nonnull_perm (d : RepositoryDB) :
    (db_sort_bubble_nonnull d).1 = 1 ∧
    (db_sort_bubble_nonnull d).2.records.Perm d.records ∧
    (db_sort_bubble_nonnull d).2.count = d.count ∧
    (db_sort_bubble_nonnull d).2.capacity = d.capacity := by
  unfold db_sort_bubble_nonnull
  split_ifs with h
  · exact ⟨rfl, List.Perm.refl _, rfl, rfl⟩
  · exact ⟨rfl, bubble_outer_perm _ _ _ _, rfl, rfl⟩

theorem add_nonnull_fail (d : RepositoryDB) (r : Repository) (ok : Bool) (c : Int)
    (d1 : RepositoryDB) (h : db_add_record_nonnull d r ok = .returns (c, d1)) (hc : c = 0) :
    d.count ≥ d.capacity ∧ ok = false ∧ d1 = d := by
  subst hc
  unfold db_add_record_nonnull at h
  by_cases hfull : d.count ≥ d.capacity
  · cases ok with
    | false =>
      simp [hfull, db_grow_capacity] at h
      exact ⟨hfull, rfl, h.symm⟩
    | true =>
      simp only [hfull, db_grow_capacity, if_true] at h
      simp at h
      split_ifs at h
      simp at h
  · simp only [hfull, if_false] at h
    simp at h
    split_ifs at h
    simp at h

theorem add_nonnull_cases (d : RepositoryDB) (r : Repository) (ok : Bool) (c : Int)
    (d1 : RepositoryDB) (hcons : consistent d)
    (h : db_add_record_nonnull d r ok = .returns (c, d1)) :
    (c = 0 ∧ d1 = d ∧ d.count ≥ d.capacity ∧ ok = false) ∨
    (c = 1 ∧ d1.records = d.records ++ [r] ∧ d1.count = d.count + 1 ∧
      ((d.count < d.capacity ∧ d1.capacity = d.capacity) ∨
       (d.count ≥ d.capacity ∧ ok = true ∧ d1.capacity = d.capacity * 2))) := by
  by_cases hfull : d.count ≥ d.capacity
  · cases ok with
    | false =>
      rw [add_grow_fail d r hfull] at h
      simp only [Outcome.returns.injEq, Prod.mk.injEq] at h
      exact Or.inl ⟨h.1.symm, h.2.symm, hfull, rfl⟩
    | true =>
      by_cases hb : 0 ≤ d.count ∧ d.count < d.capacity * 2
      · rw [add_grow_ok d r hcons hfull hb.2] at h
        simp only [Outcome.returns.injEq, Prod.mk.injEq] at h
        obtain ⟨h1, h2⟩ := h
        subst h1 h2
        exact Or.inr ⟨rfl, rfl, rfl, Or.inr ⟨hfull, rfl, rfl⟩⟩
      · rw [add_grow_undefined d r hfull hb] at h
        cases h
  · rw [add_in_bounds d r ok hcons (by omega)] at h
    simp only [Outcome.returns.injEq, Prod.mk.injEq] at h
    obtain ⟨h1, h2⟩ := h
    subst h1 h2
    exact Or.inr ⟨rfl, rfl, rfl, Or.inl ⟨by omega, rfl⟩⟩

theorem valid_record_of_scanned (sc : Scanned) (h : scanned_valid sc) :
    valid_record (record_of sc) := by
  obtain ⟨h1, h2, h3, h4, h5⟩ := h
  refine ⟨h3, h4, h5, ⟨by simp [record_of], ?_⟩, ⟨by simp [record_of], ?_⟩⟩
  · have hall : ∀ s ∈ dir_names, dir_names.indexOf s < 5 := by decide
    have := hall sc.dir_str h1
    show ((dir_names.indexOf sc.dir_str : Nat) : Int) < 5
    omega
  · have hall : ∀ s ∈ compat_names, compat_names.indexOf s < 4 := by decide
    have := hall sc.compat_str h2
    show ((compat_names.indexOf sc.compat_str : Nat) : Int) < 4
    omega

theorem db_load_from_file_spec (d : RepositoryDB) (f : CStr)
    (fopen : CStr → Option (List Nat)) (alloc : Nat → Bool) (cur : Repository)
    (content : List Nat) (hopen : fopen f = some content) :
    ∃ (c : Int) (d1 : RepositoryDB),
      db_load_from_file (some d) (some f) fopen alloc cur = .returns (c, some d1) ∧
      ((c = 0 ∧ d1 = { records := [], count := 0, capacity := 0 }) ∨
       (c = 1 ∧ d1.records = (scan_all (content.length + 1) content).map record_of ∧
         consistent d1 ∧ d1.count ≠ 0 ∧ 0 < d1.capacity ∧ d1.count ≤ d1.capacity ∧
         ∀ sc ∈ scan_all (content.length + 1) content, scanned_valid sc)) := by
  simp only [db_load_from_file, hopen]
  cases hal : alloc 0 with
  | false =>
    exact ⟨0, _, by simp [db_init_nonnull, db_free_nonnull], Or.inl ⟨rfl, rfl⟩⟩
  | true =>
    obtain ⟨c, d1, hrun, hres⟩ := db_load_loop_spec (content.length + 1) content alloc 0 cur
      { records := [], count := 0, capacity := INITIAL_CAPACITY } rfl (by decide) (by decide)
      (by omega)
    refine ⟨c, d1, ?_, ?_⟩
    · simp [db_init_nonnull, db_free_nonnull, hrun, Outcome.map]
    · simpa using hres

theorem db_add_record_some (d : RepositoryDB) (r : Repository) (ok : Bool) (c : Int)
    (d1 : Option RepositoryDB) :
    db_add_record (some d) (some r) ok = .returns (c, d1) ↔
      ∃ d2, d1 = some d2 ∧ db_add_record_nonnull d r ok = .returns (c, d2) := by
  simp only [db_add_record]
  cases hres : db_add_record_nonnull d r ok with
  | returns v =>
    obtain ⟨c2, d2⟩ := v
    simp only [Outcome.map, Outcome.returns.injEq, Prod.mk.injEq]
    constructor
    · rintro ⟨h1, h2⟩
      exact ⟨d2, h2.symm, h1, rfl⟩
    · rintro ⟨d3, h1, h2, h3⟩
      exact ⟨h2, by rw [h1, h3]⟩
  | undefined => simp [Outcome.map]
  | out_of_fuel => simp [Outcome.map]

theorem db_load_from_file_cases (d : RepositoryDB) (name : Option CStr)
    (fopen : CStr → Option (List Nat)) (alloc : Nat → Bool) (cur : Repository) :
    ∃ (c : Int) (d1 : RepositoryDB),
      db_load_from_file (some d) name fopen alloc cur = .returns (c, some d1) ∧
      ((c = 0 ∧ (name = none ∨ ∃ f, name = some f ∧ fopen f = none) ∧ d1 = d) ∨
       (c = 0 ∧ (∃ f content, name = some f ∧ fopen f = some content) ∧
         d1 = { records := [], count := 0, capacity := 0 }) ∨
       (c = 1 ∧ ∃ f content, name = some f ∧ fopen f = some content ∧
         d1.records = (scan_all (content.length + 1) content).map record_of ∧
         consistent d1 ∧ d1.count ≠ 0 ∧
         ∀ sc ∈ scan_all (content.length + 1) content, scanned_valid sc)) := by
  cases name with
  | none => exact ⟨0, d, rfl, Or.inl ⟨rfl, Or.inl rfl, rfl⟩⟩
  | some f =>
    cases hopen : fopen f with
    | none =>
      exact ⟨0, d, by simp [db_load_from_file, hopen], Or.inl ⟨rfl, Or.inr ⟨f, rfl, hopen⟩, rfl⟩⟩
    | some content =>
      obtain ⟨c, d1, hrun, hres⟩ := db_load_from_file_spec d f fopen alloc cur content hopen
      refine ⟨c, d1, hrun, ?_⟩
      rcases hres with ⟨h0, h1⟩ | ⟨h1, h2, h3, h4, _, _, h7⟩
      · exact Or.inr (Or.inl ⟨h0, ⟨f, content, rfl, hopen⟩, h1⟩)
      · exact Or.inr (Or.inr ⟨h1, f, content, rfl, hopen, h2, h3, h4, h7⟩)

/-! ### Printing and reading back -/

theorem decimal_spec : ∀ (fuel n : Nat), n < fuel →
    decimal fuel n ≠ [] ∧ (∀ c ∈ decimal fuel n, isdigit c = true) ∧
    digits_value (decimal fuel n) = n := by
  intro fuel
  induction fuel with
  | zero => intro n h; omega
  | succ k ih =>
    intro n h
    simp only [decimal]
    by_cases h10 : n < 10
    · simp only [h10, if_true]
      refine ⟨by simp, ?_, ?_⟩
      · intro c hc
        simp only [List.mem_singleton] at hc
        subst hc
        simp [isdigit]; omega
      · simp [digits_value]
    · simp only [h10, if_false]
      obtain ⟨h1, h2, h3⟩ := ih (n / 10) (by omega)
      refine ⟨by simp, ?_, ?_⟩
      · intro c hc
        rcases List.mem_append.1 hc with hc | hc
        · exact h2 c hc
        · simp only [List.mem_singleton] at hc
          subst hc
          simp [isdigit]; omega
      · unfold digits_value at h3 ⊢
        rw [List.foldl_append, h3]
        simp
        omega


theorem takeWhile_append_stop (p : Nat → Bool) (ds rest : List Nat)
    (h1 : ∀ c ∈ ds, p c = true) (h2 : ∀ x t, rest = x :: t → p x = false) :
    (ds ++ rest).takeWhile p = ds := by
  induction ds with
  | nil =>
    cases rest with
    | nil => rfl
    | cons x t => simp [List.takeWhile, h2 x t rfl]
  | cons c ds ih =>
    have hc := h1 c (List.mem_cons_self c ds)
    have ih2 := ih (fun x hx => h1 x (List.mem_cons_of_mem c hx))
    simp [List.takeWhile_cons, hc, ih2]

theorem skip_space_cons (x : Nat) (t : List Nat) (h : isspace x = false) :
    skip_space (x :: t) = x :: t := by
  simp [skip_space, List.dropWhile, h]

theorem skip_space_sep (c x : Nat) (t : List Nat) (hc : c = 10 ∨ c = 32)
    (h : isspace x = false) : skip_space (c :: x :: t) = x :: t := by
  have hs : isspace c = true := by
    rcases hc with hc | hc <;> subst hc <;> decide
  simp [skip_space, List.dropWhile, h, hs]

theorem print_int_head (v : Int) :
    ∃ x t, print_int v = x :: t ∧ isspace x = false := by
  unfold print_int
  by_cases hv : v < 0
  · simp only [hv, if_true]
    exact ⟨45, _, rfl, by decide⟩
  · simp only [hv, if_false]
    obtain ⟨h1, h2, _⟩ := decimal_spec (v.toNat + 1) v.toNat (by omega)
    cases hd : decimal (v.toNat + 1) v.toNat with
    | nil => exact absurd hd h1
    | cons x t =>
      refine ⟨x, t, rfl, ?_⟩
      have hx := h2 x (by rw [hd]; exact List.mem_cons_self x t)
      simp only [isdigit, Bool.and_eq_true, decide_eq_true_eq] at hx
      simp only [isspace, Bool.or_eq_false_iff, Bool.and_eq_false_iff, decide_eq_false_iff_not]
      omega

theorem scan_sign_digit (x : Nat) (t : List Nat) (h : isdigit x = true) :
    scan_sign (x :: t) = (false, x :: t) := by
  simp only [isdigit, Bool.and_eq_true, decide_eq_true_eq] at h
  unfold scan_sign
  split
  · rename_i heq; simp at heq; omega
  · rename_i heq; simp at heq; omega
  · rfl

theorem scan_int_print (v : Int) (rest : List Nat) (hv : int32 v)
    (hrest : ∀ x t, rest = x :: t → isdigit x = false) :
    scan_int (print_int v ++ rest) = some (v, rest) := by
  obtain ⟨x, t, hx, hsp⟩ := print_int_head v
  have hskip : skip_space (print_int v ++ rest) = print_int v ++ rest := by
    rw [hx]; exact skip_space_cons x _ hsp
  unfold int32 at hv
  simp only [scan_int, hskip]
  unfold print_int
  by_cases hneg : v < 0
  · simp only [hneg, if_true]
    obtain ⟨h1, h2, h3⟩ := decimal_spec (v.natAbs + 1) v.natAbs (by omega)
    have hs : scan_sign (45 :: decimal (v.natAbs + 1) v.natAbs ++ rest) =
        (true, decimal (v.natAbs + 1) v.natAbs ++ rest) := rfl
    rw [hs]
    simp only [takeWhile_append_stop isdigit _ rest h2 hrest, h1, if_false, h3,
      List.drop_left, if_true]
    have hnum : (if -(v.natAbs : Int) < LONG_MIN then LONG_MIN else -(v.natAbs : Int)) =
        -(v.natAbs : Int) := by
      unfold LONG_MIN; split_ifs <;> omega
    have : wrap32 (-(v.natAbs : Int)) = v := by
      rw [wrap32_of_small _ (by omega) (by omega)]; omega
    rw [hnum, this]
  · simp only [hneg, if_false]
    obtain ⟨h1, h2, h3⟩ := decimal_spec (v.toNat + 1) v.toNat (by omega)
    cases hd : decimal (v.toNat + 1) v.toNat with
    | nil => exact absurd hd h1
    | cons y u =>
      have hy := h2 y (by rw [hd]; exact List.mem_cons_self y u)
      rw [List.cons_append, scan_sign_digit y _ hy, ← List.cons_append, ← hd]
      simp only [takeWhile_append_stop isdigit _ rest h2 hrest, h1, if_false, h3,
        List.drop_left]
      have hnum : (if (v.toNat : Int) > LONG_MAX then LONG_MAX else (v.toNat : Int)) =
          (v.toNat : Int) := by
        unfold LONG_MAX; split_ifs <;> omega
      have : wrap32 ((v.toNat : Int)) = v := by
        rw [wrap32_of_small _ (by omega) (by omega)]; omega
      simp only [Bool.false_eq_true, if_false, hnum, this]


theorem scan_line_text (w : Nat) (s rest : List Nat) (hne : s ≠ []) (hlen : s.length ≤ w)
    (hc : is_cstr s) (hnl : 10 ∉ s) :
    scan_line w (s ++ 10 :: rest) = some (s, 10 :: rest) := by
  have h1 : (s ++ 10 :: rest).takeWhile (fun c => decide (c ≠ 10)) = s := by
    apply takeWhile_append_stop
    · intro c hcm
      simp only [decide_eq_true_eq]
      intro h; subst h; exact hnl hcm
    · intro x t hx
      simp only [List.cons.injEq] at hx
      simp [← hx.1]
  have h2 : s.takeWhile (fun c => decide (c ≠ 0)) = s := by
    have := takeWhile_append_stop (fun c => decide (c ≠ 0)) s []
      (by intro c hcm; have := hc c hcm; simp only [decide_eq_true_eq]; omega)
      (by intro x t hx; cases hx)
    simpa using this
  simp only [scan_line, h1, List.take_of_length_le hlen, hne, if_false, h2, List.drop_left]

theorem dir_name_props (k : Int) (h0 : 0 ≤ k) (h1 : k < DIRECTION_COUNT) :
    direction_to_string k ≠ [] ∧ (direction_to_string k).length ≤ 49 ∧
    is_cstr (direction_to_string k) ∧ 10 ∉ direction_to_string k ∧
    reads_back (direction_to_string k) ∧ direction_to_string k ∈ dir_names ∧
    ((dir_names.indexOf (direction_to_string k) : Nat) : Int) = k := by
  have h5 : k < 5 := h1
  interval_cases k <;> decide

theorem compat_name_props (k : Int) (h0 : 0 ≤ k) (h1 : k < COMPAT_COUNT) :
    compatibility_to_string k ≠ [] ∧ (compatibility_to_string k).length ≤ 49 ∧
    is_cstr (compatibility_to_string k) ∧ 10 ∉ compatibility_to_string k ∧
    reads_back (compatibility_to_string k) ∧ compatibility_to_string k ∈ compat_names ∧
    ((compat_names.indexOf (compatibility_to_string k) : Nat) : Int) = k := by
  have h4 : k < 4 := h1
  interval_cases k <;> decide


theorem skip_sep_print (c : Nat) (v : Int) (rest : List Nat) (hc : c = 10 ∨ c = 32) :
    skip_space (c :: (print_int v ++ rest)) = print_int v ++ rest := by
  obtain ⟨x, t, hx, hsp⟩ := print_int_head v
  rw [hx, List.cons_append]
  exact skip_space_sep c x _ hc hsp

theorem skip_sep_line (s rest : List Nat) (hs : reads_back s) :
    skip_space (10 :: (s ++ rest)) = s ++ rest := by
  obtain ⟨x, t, hx, hsp⟩ := hs
  rw [hx, List.cons_append]
  exact skip_space_sep 10 x _ (Or.inl rfl) hsp

theorem scan_int_sep (c : Nat) (v : Int) (rest : List Nat) (hv : int32 v)
    (hc : c = 10 ∨ c = 32) :
    scan_int (print_int v ++ c :: rest) = some (v, c :: rest) := by
  apply scan_int_print v _ hv
  intro x t hx
  simp only [List.cons.injEq] at hx
  rw [← hx.1]
  rcases hc with hc | hc <;> subst hc <;> decide

theorem valid_date_int32 (d : Date) (h : validate_date d ≠ 0) :
    int32 d.day ∧ int32 d.month ∧ int32 d.year := by
  obtain ⟨h1, h2, h3, h4, h5, h6⟩ := (validate_date_iff d).1 h
  have := month_length_le d.year d.month
  unfold int32
  omega

theorem fprintf_record_append (r : Repository) (rest : List Nat) :
    fprintf_record r ++ rest =
      direction_to_string r.direction ++ 10 :: (r.site ++ 10 :: (r.name ++ 10 ::
      (print_int r.size ++ 10 :: (print_int r.release_date.day ++ 32 ::
      (print_int r.release_date.month ++ 32 :: (print_int r.release_date.year ++ 10 ::
      (print_int r.dependencies ++ 10 ::
      (compatibility_to_string r.compatibility ++ 10 :: rest)))))))) := by
  simp [fprintf_record, List.append_assoc]

theorem fscanf_record_print (r : Repository) (rest : List Nat) (hr : storable r) :
    fscanf_record (fprintf_record r ++ rest) = some (scanned_of r, skip_space rest) := by
  obtain ⟨⟨_, _, hdate, ⟨hd0, hd1⟩, ⟨hc0, hc1⟩⟩, hsz, hdep, hsite, hsite2, hname, hname2⟩ := hr
  obtain ⟨dn1, dn2, dn3, dn4, _, _, _⟩ := dir_name_props r.direction hd0 hd1
  obtain ⟨cn1, cn2, cn3, cn4, cn5, _, _⟩ := compat_name_props r.compatibility hc0 hc1
  obtain ⟨hday, hmonth, hyear⟩ := valid_date_int32 r.release_date hdate
  obtain ⟨s1, s2, s3⟩ := hsite
  obtain ⟨n1, n2, n3⟩ := hname
  have hsne : r.site ≠ [] := by
    obtain ⟨x, t, hx, _⟩ := hsite2; rw [hx]; simp
  have hnne : r.name ≠ [] := by
    obtain ⟨x, t, hx, _⟩ := hname2; rw [hx]; simp
  rw [fprintf_record_append]
  unfold fscanf_record
  rw [scan_line_text 49 _ _ dn1 dn2 dn3 dn4]
  simp only
  rw [skip_sep_line _ _ hsite2, scan_line_text 99 _ _ hsne s2 s1 s3]
  simp only
  rw [skip_sep_line _ _ hname2, scan_line_text 99 _ _ hnne n2 n1 n3]
  simp only
  rw [skip_sep_print 10 _ _ (Or.inl rfl), scan_int_sep 10 _ _ hsz (Or.inl rfl)]
  simp only
  rw [skip_sep_print 10 _ _ (Or.inl rfl), scan_int_sep 32 _ _ hday (Or.inr rfl)]
  simp only
  rw [skip_sep_print 32 _ _ (Or.inr rfl), scan_int_sep 32 _ _ hmonth (Or.inr rfl)]
  simp only
  rw [skip_sep_print 32 _ _ (Or.inr rfl), scan_int_sep 10 _ _ hyear (Or.inl rfl)]
  simp only
  rw [skip_sep_print 10 _ _ (Or.inl rfl), scan_int_sep 10 _ _ hdep (Or.inl rfl)]
  simp only
  rw [skip_sep_line _ _ cn5, scan_line_text 49 _ _ cn1 cn2 cn3 cn4]
  simp only
  have hsk : skip_space (10 :: rest) = skip_space rest := by
    simp [skip_space, List.dropWhile, isspace]
  rw [hsk]
  rfl


theorem fprintf_record_head (r : Repository) (rest : List Nat) (hr : storable r) :
    skip_space (fprintf_record r ++ rest) = fprintf_record r ++ rest := by
  obtain ⟨⟨_, _, _, ⟨hd0, hd1⟩, _⟩, _⟩ := hr
  obtain ⟨_, _, _, _, ⟨x, t, hx, hsp⟩, _, _⟩ := dir_name_props r.direction hd0 hd1
  rw [fprintf_record_append, hx, List.cons_append]
  exact skip_space_cons x _ hsp

theorem record_of_scanned_of (r : Repository) (hr : valid_record r) :
    record_of (scanned_of r) = r ∧ scanned_valid (scanned_of r) := by
  obtain ⟨h1, h2, h3, ⟨hd0, hd1⟩, ⟨hc0, hc1⟩⟩ := hr
  obtain ⟨_, _, _, _, _, dm, di⟩ := dir_name_props r.direction hd0 hd1
  obtain ⟨_, _, _, _, _, cm, ci⟩ := compat_name_props r.compatibility hc0 hc1
  refine ⟨?_, dm, cm, h1, h2, h3⟩
  obtain ⟨dir, site, name, size, date, deps, compat⟩ := r
  simp only [record_of, scanned_of] at di ci ⊢
  rw [di, ci]

theorem scan_all_records_text : ∀ (rs : List Repository) (tail : List Nat) (fuel : Nat),
    rs ≠ [] → (∀ r ∈ rs, storable r) → fscanf_record (skip_space tail) = none →
    (records_text rs ++ tail).length < fuel →
    scan_all fuel (records_text rs ++ tail) = rs.map scanned_of := by
  intro rs
  induction rs with
  | nil => intro _ _ h; exact absurd rfl h
  | cons r rs ih =>
    intro tail fuel _ hst htail hfuel
    have hr := hst r (List.mem_cons_self r rs)
    cases fuel with
    | zero => omega
    | succ n =>
      have hsplit : records_text (r :: rs) ++ tail =
          fprintf_record r ++ (records_text rs ++ tail) := by
        simp [records_text, List.append_assoc]
      rw [hsplit] at hfuel ⊢
      have hscan := fscanf_record_print r (records_text rs ++ tail) hr
      have hlt := fscanf_record_length _ _ _ hscan
      simp only [scan_all, hscan, List.map_cons]
      refine congrArg (fun l => scanned_of r :: l) ?_
      cases rs with
      | nil =>
        simp only [records_text, List.flatMap_nil, List.nil_append, List.map_nil] at hlt ⊢
        cases n with
        | zero => rfl
        | succ m => simp [scan_all, htail]
      | cons r2 rs2 =>
        have hr2 := hst r2 (List.mem_cons_of_mem r (List.mem_cons_self r2 rs2))
        have hhead : skip_space (records_text (r2 :: rs2) ++ tail) =
            records_text (r2 :: rs2) ++ tail := by
          have : records_text (r2 :: rs2) ++ tail =
              fprintf_record r2 ++ (records_text rs2 ++ tail) := by
            simp [records_text, List.append_assoc]
          rw [this]
          exact fprintf_record_head r2 _ hr2
        rw [hhead] at hlt ⊢
        exact ih tail n (by simp) (fun x hx => hst x (List.mem_cons_of_mem r hx)) htail
          (by omega)


theorem not_mem_of_getD_ne (names : List CStr) (n : Nat) (hn : names.length = n) (s : CStr)
    (h : ∀ k : Nat, k < n → s ≠ names.getD k []) : s ∉ names := by
  intro hm
  obtain ⟨k, hk, he⟩ := List.getElem_of_mem hm
  apply h k (by omega)
  rw [List.getD_eq_getElem names [] hk, he]

theorem db_load_loop_success : ∀ (fuel : Nat) (inp : List Nat) (alloc : Nat → Bool) (i : Nat)
    (cur : Repository) (d : RepositoryDB),
    consistent d → 0 < d.capacity → d.count ≤ d.capacity → inp.length < fuel →
    (∀ k, alloc k = true) → (∀ sc ∈ scan_all fuel inp, scanned_valid sc) →
    (d.count ≠ 0 ∨ scan_all fuel inp ≠ []) →
    ∃ d1 : RepositoryDB,
      db_load_loop fuel inp alloc i cur d = .returns (1, d1) ∧
      d1.records = d.records ++ (scan_all fuel inp).map record_of ∧ consistent d1 := by
  intro fuel
  induction fuel with
  | zero => intro inp _ _ _ _ _ _ _ h; omega
  | succ n ih =>
    intro inp alloc i cur d hc hcap hle hlen hal hval hne
    cases hf : fscanf_record inp with
    | none =>
      simp only [db_load_loop, hf, scan_all] at hne ⊢
      have h0 : d.count ≠ 0 := by
        rcases hne with h | h
        · exact h
        · exact absurd rfl h
      exact ⟨d, by simp [h0], by simp, hc⟩
    | some p =>
      obtain ⟨sc, rest⟩ := p
      have hlt := fscanf_record_length inp sc rest hf
      obtain ⟨hcs1, hcs2⟩ := fscanf_record_cstr inp sc rest hf
      simp only [scan_all, hf] at hval
      obtain ⟨hv1, hv2, hv3, hv4, hv5⟩ := hval sc (List.mem_cons_self _ _)
      simp only [db_load_loop, hf, scan_all]
      rcases string_to_direction_cases sc.dir_str hcs1 cur.direction with
        ⟨k, hk, he, hr⟩ | ⟨hne1, _⟩
      swap
      · exact absurd hv1 (not_mem_of_getD_ne dir_names 5 rfl _ hne1)
      rcases string_to_compatibility_cases sc.compat_str hcs2 cur.compatibility with
        ⟨k2, hk2, he2, hr2⟩ | ⟨hne2, _⟩
      swap
      · exact absurd hv2 (not_mem_of_getD_ne compat_names 4 rfl _ hne2)
      have hsz : ¬ sc.size ≤ 0 := by omega
      have hdep : ¬ sc.dependencies < 0 := by omega
      have hdate : ¬ validate_date { day := sc.day, month := sc.month, year := sc.year } = 0 :=
        hv5
      obtain ⟨hi1, _⟩ := dir_index k hk sc.dir_str he
      obtain ⟨hi2, _⟩ := compat_index k2 hk2 sc.compat_str he2
      have hrec : Repository.mk (k : Int) sc.site sc.name sc.size
          (Date.mk sc.day sc.month sc.year) sc.dependencies (k2 : Int) = record_of sc := by
        simp [record_of, hi1, hi2]
      simp only [hr, hr2, hsz, hdep, hdate, if_false, Option.getD_some, hrec]
      simp only [one_ne_zero, if_false]
      have hcons : d.count = (d.records.length : Int) := hc
      have hstep : ∀ d2 : RepositoryDB,
          d2.records = d.records ++ [record_of sc] → consistent d2 → 0 < d2.capacity →
          d2.count ≤ d2.capacity →
          ∃ d1, db_load_loop n rest alloc (i + 1) (record_of sc) d2 = .returns (1, d1) ∧
            d1.records = d.records ++ List.map record_of (sc :: scan_all n rest) ∧
            consistent d1 := by
        intro d2 hrec2 hc2 hcap2 hle2
        have hc2b : d2.count = (d2.records.length : Int) := hc2
        obtain ⟨d1, hrun, h2, h3⟩ :=
          ih rest alloc (i + 1) (record_of sc) d2 hc2 hcap2 hle2 (by omega) hal
            (fun x hx => hval x (List.mem_cons_of_mem _ hx))
            (Or.inl (by rw [hc2b, hrec2]; simp; omega))
        refine ⟨d1, hrun, ?_, h3⟩
        rw [h2, hrec2]; simp
      by_cases hfull : d.count ≥ d.capacity
      · rw [hal (i + 1), add_grow_ok d _ hc hfull (by omega)]
        simp only [one_ne_zero, if_false]
        apply hstep
        · rfl
        · simp [consistent, hcons]
        · simp; omega
        · simp; omega
      · rw [add_in_bounds d _ _ hc (by omega)]
        simp only [one_ne_zero, if_false]
        apply hstep
        · rfl
        · simp [consistent, hcons]
        · exact hcap
        · simp; omega

theorem db_load_from_file_success (d : RepositoryDB) (f : CStr)
    (fopen : CStr → Option (List Nat)) (alloc : Nat → Bool) (cur : Repository)
    (content : List Nat) (hopen : fopen f = some content) (hal : ∀ k, alloc k = true)
    (hval : ∀ sc ∈ scan_all (content.length + 1) content, scanned_valid sc)
    (hne : scan_all (content.length + 1) content ≠ []) :
    ∃ d1 : RepositoryDB,
      db_load_from_file (some d) (some f) fopen alloc cur = .returns (1, some d1) ∧
      d1.records = (scan_all (content.length + 1) content).map record_of ∧
      consistent d1 := by
  obtain ⟨d1, hrun, h2, h3⟩ := db_load_loop_success (content.length + 1) content alloc 0 cur
    { records := [], count := 0, capacity := INITIAL_CAPACITY } rfl (by decide) (by decide)
    (by omega) hal hval (Or.inr hne)
  refine ⟨d1, ?_, by simpa using h2, h3⟩
  simp [db_load_from_file, hopen, hal 0, db_init_nonnull, db_free_nonnull, hrun, Outcome.map]


theorem skip_space_head (l : List Nat) (x : Nat) (t : List Nat)
    (h : skip_space l = x :: t) : isspace x = false := by
  induction l with
  | nil => simp [skip_space] at h
  | cons a l ih =>
    by_cases ha : isspace a = true
    · have : skip_space (a :: l) = skip_space l := by
        simp [skip_space, List.dropWhile, ha]
      rw [this] at h
      exact ih h
    · have ha2 : isspace a = false := by simpa using ha
      rw [skip_space_cons a l ha2] at h
      simp only [List.cons.injEq] at h
      rw [← h.1]; exact ha2

theorem skip_space_suffix (l : List Nat) : skip_space l <:+ l :=
  List.dropWhile_suffix isspace

theorem scan_line_fields (w : Nat) (inp : List Nat) (s : CStr) (r : List Nat)
    (h : scan_line w inp = some (s, r)) (h0 : ∀ b ∈ inp, b ≠ 0) :
    s.length ≤ w ∧ is_cstr s ∧ 10 ∉ s ∧ (∃ x t u, inp = x :: t ∧ s = x :: u) ∧
    r <:+ inp := by
  simp only [scan_line] at h
  split_ifs at h with he
  · simp only [Option.some.injEq, Prod.mk.injEq] at h
    obtain ⟨hs, hr⟩ := h
    have hsub : ∀ b ∈ (inp.takeWhile (fun c => decide (c ≠ 10))).take w,
        b ∈ inp.takeWhile (fun c => decide (c ≠ 10)) := fun b hb => List.mem_of_mem_take hb
    have hrun : ((inp.takeWhile (fun c => decide (c ≠ 10))).take w).takeWhile
        (fun c => decide (c ≠ 0)) = (inp.takeWhile (fun c => decide (c ≠ 10))).take w := by
      have := takeWhile_append_stop (fun c => decide (c ≠ 0))
        ((inp.takeWhile (fun c => decide (c ≠ 10))).take w) []
        (by
          intro c hc
          have hin : c ∈ inp := (List.takeWhile_prefix _).subset (hsub c hc)
          simpa using h0 c hin)
        (by intro x t hx; cases hx)
      simpa using this
    rw [hrun] at hs
    subst hs
    subst hr
    refine ⟨List.length_take_le _ _, ?_, ?_, ?_, List.drop_suffix _ _⟩
    · intro b hb
      have hin : b ∈ inp := (List.takeWhile_prefix _).subset (hsub b hb)
      have := h0 b hin
      omega
    · intro hb
      have := List.mem_takeWhile_imp (hsub 10 hb)
      simp at this
    · cases inp with
      | nil => simp at he
      | cons x t =>
        by_cases hx : x = 10
        · subst hx; simp at he
        · cases w with
          | zero => simp at he
          | succ k =>
            refine ⟨x, t, List.take k (t.takeWhile (fun c => decide (c ≠ 10))), rfl, ?_⟩
            simp only [List.takeWhile_cons, ne_eq, hx, not_false_eq_true, decide_True,
              if_true, List.take_succ_cons]

theorem wrap32_int32 (x : Int) : int32 (wrap32 x) := by
  unfold int32 wrap32; omega

theorem scan_int_fields (inp : List Nat) (v : Int) (r : List Nat)
    (h : scan_int inp = some (v, r)) : int32 v ∧ r <:+ inp := by
  simp only [scan_int] at h
  by_cases he : (scan_sign (skip_space inp)).2.takeWhile isdigit = []
  · simp [he] at h
  · simp only [he, if_false, Option.some.injEq, Prod.mk.injEq] at h
    obtain ⟨hv, hr⟩ := h
    subst hv hr
    refine ⟨wrap32_int32 _, ?_⟩
    have h1 : (scan_sign (skip_space inp)).2 <:+ skip_space inp := by
      unfold scan_sign
      split
      · rename_i t heq; rw [heq]; exact List.suffix_cons _ _
      · rename_i t heq; rw [heq]; exact List.suffix_cons _ _
      · exact List.suffix_refl _
    exact ((List.drop_suffix _ _).trans h1).trans (skip_space_suffix inp)


theorem no_nul_suffix (l m : List Nat) (h : l <:+ m) (h0 : ∀ b ∈ m, b ≠ 0) :
    ∀ b ∈ l, b ≠ 0 := fun b hb => h0 b (h.subset hb)

theorem scan_line_after_skip (w : Nat) (hw : w ≤ 99) (r0 : List Nat) (s : CStr)
    (r : List Nat) (h : scan_line w (skip_space r0) = some (s, r)) (h0 : ∀ b ∈ r0, b ≠ 0) :
    line_text s ∧ reads_back s ∧ r <:+ r0 := by
  obtain ⟨h1, h2, h3, ⟨x, t, u, hx, hs⟩, h5⟩ :=
    scan_line_fields w _ s r h (no_nul_suffix _ _ (skip_space_suffix r0) h0)
  exact ⟨⟨h2, by omega, h3⟩, ⟨x, u, hs, skip_space_head r0 x t hx⟩,
    h5.trans (skip_space_suffix r0)⟩

theorem scan_int_after_skip (r0 : List Nat) (v : Int) (r : List Nat)
    (h : scan_int (skip_space r0) = some (v, r)) : int32 v ∧ r <:+ r0 := by
  obtain ⟨h1, h2⟩ := scan_int_fields _ v r h
  exact ⟨h1, h2.trans (skip_space_suffix r0)⟩

theorem fscanf_record_fields (inp : List Nat) (sc : Scanned) (rest : List Nat)
    (h : fscanf_record inp = some (sc, rest)) (h0 : ∀ b ∈ inp, b ≠ 0) :
    line_text sc.site ∧ reads_back sc.site ∧ line_text sc.name ∧ reads_back sc.name ∧
    int32 sc.size ∧ int32 sc.dependencies ∧ rest <:+ inp := by
  unfold fscanf_record at h
  split at h
  · cases h
  rename_i dir_str r1 h1
  split at h
  · cases h
  rename_i site r2 h2
  split at h
  · cases h
  rename_i name r3 h3
  split at h
  · cases h
  rename_i size r4 h4
  split at h
  · cases h
  rename_i day r5 h5
  split at h
  · cases h
  rename_i month r6 h6
  split at h
  · cases h
  rename_i year r7 h7
  split at h
  · cases h
  rename_i deps r8 h8
  split at h
  · cases h
  rename_i compat r9 h9
  simp only [Option.some.injEq, Prod.mk.injEq] at h
  obtain ⟨hsc, hr⟩ := h
  subst hsc hr
  obtain ⟨_, _, _, _, s1⟩ := scan_line_fields 49 inp dir_str r1 h1 h0
  have z1 := no_nul_suffix _ _ s1 h0
  obtain ⟨a2, b2, s2⟩ := scan_line_after_skip 99 (le_refl _) r1 site r2 h2 z1
  have z2 := no_nul_suffix _ _ s2 z1
  obtain ⟨a3, b3, s3⟩ := scan_line_after_skip 99 (le_refl _) r2 name r3 h3 z2
  obtain ⟨a4, s4⟩ := scan_int_after_skip r3 size r4 h4
  obtain ⟨_, s5⟩ := scan_int_after_skip r4 day r5 h5
  obtain ⟨_, s6⟩ := scan_int_after_skip r5 month r6 h6
  obtain ⟨_, s7⟩ := scan_int_after_skip r6 year r7 h7
  obtain ⟨a8, s8⟩ := scan_int_after_skip r7 deps r8 h8
  have z8 : ∀ b ∈ r8, b ≠ 0 :=
    no_nul_suffix _ _ ((((((s8.trans s7).trans s6).trans s5).trans s4).trans s3)) z2
  obtain ⟨_, _, s9⟩ := scan_line_after_skip 49 (by omega) r8 compat r9 h9 z8
  refine ⟨a2, b2, a3, b3, a4, a8, ?_⟩
  exact (skip_space_suffix r9).trans
    ((((((((s9.trans s8).trans s7).trans s6).trans s5).trans s4).trans s3).trans s2).trans s1)

theorem scan_all_fields : ∀ (fuel : Nat) (inp : List Nat), (∀ b ∈ inp, b ≠ 0) →
    ∀ sc ∈ scan_all fuel inp,
      line_text sc.site ∧ reads_back sc.site ∧ line_text sc.name ∧ reads_back sc.name ∧
      int32 sc.size ∧ int32 sc.dependencies := by
  intro fuel
  induction fuel with
  | zero => intro inp _ sc hsc; simp [scan_all] at hsc
  | succ n ih =>
    intro inp h0 sc hsc
    simp only [scan_all] at hsc
    cases hf : fscanf_record inp with
    | none => simp [hf] at hsc
    | some p =>
      obtain ⟨sc1, rest⟩ := p
      simp only [hf, List.mem_cons] at hsc
      obtain ⟨c1, c2, c3, c4, c5, c6, c7⟩ := fscanf_record_fields inp sc1 rest hf h0
      rcases hsc with hsc | hsc
      · subst hsc; exact ⟨c1, c2, c3, c4, c5, c6⟩
      · exact ih rest (no_nul_suffix _ _ c7 h0) sc hsc

theorem storable_record_of (sc : Scanned) (hv : scanned_valid sc)
    (hf : line_text sc.site ∧ reads_back sc.site ∧ line_text sc.name ∧ reads_back sc.name ∧
      int32 sc.size ∧ int32 sc.dependencies) : storable (record_of sc) := by
  obtain ⟨c1, c2, c3, c4, c5, c6⟩ := hf
  exact ⟨valid_record_of_scanned sc hv, c5, c6, c1, c2, c3, c4⟩

theorem db_save_loop_spec : ∀ (todo i : Nat) (records : List Repository) (out : List Nat),
    i + todo ≤ records.length →
    db_save_loop todo i records out =
      .returns (out ++ records_text ((records.drop i).take todo)) := by
  intro todo
  induction todo with
  | zero => intro i records out _; simp [db_save_loop, records_text]
  | succ n ih =>
    intro i records out h
    have hi : i < records.length := by omega
    simp only [db_save_loop, List.getElem?_eq_getElem hi]
    have hd := List.drop_eq_getElem_cons hi
    rw [ih (i + 1) records _ (by omega)]
    simp only [records_text, hd, List.take_succ_cons, List.flatMap_cons, List.append_assoc]

theorem db_save_to_file_spec (d : RepositoryDB) (name : CStr) (fopen_w : CStr → Bool)
    (hc : consistent d) (hne : d.count ≠ 0) (hw : fopen_w name = true) :
    db_save_to_file (some d) (some name) fopen_w =
      .returns (1, some d, some (records_text d.records)) := by
  have hcons : d.count = (d.records.length : Int) := hc
  simp only [db_save_to_file, hne, if_false, hw, Bool.true_eq_false]
  rw [db_save_loop_spec _ 0 _ _ (by omega)]
  have : d.count.toNat = d.records.length := by omega
  simp [Outcome.map, this]

theorem save_load_round_trip (rs : List Repository) (hne : rs ≠ [])
    (hst : ∀ r ∈ rs, storable r) (tail : List Nat)
    (htail : fscanf_record (skip_space tail) = none)
    (d : RepositoryDB) (f : CStr) (fopen : CStr → Option (List Nat)) (alloc : Nat → Bool)
    (cur : Repository) (hopen : fopen f = some (records_text rs ++ tail))
    (hal : ∀ k, alloc k = true) :
    ∃ d1 : RepositoryDB,
      db_load_from_file (some d) (some f) fopen alloc cur = .returns (1, some d1) ∧
      d1.records = rs ∧ consistent d1 := by
  have hscan := scan_all_records_text rs tail ((records_text rs ++ tail).length + 1) hne hst
    htail (by omega)
  have hmap : (rs.map scanned_of).map record_of = rs := by
    rw [List.map_map]
    conv_rhs => rw [← List.map_id rs]
    apply List.map_congr_left
    intro r hr
    exact (record_of_scanned_of r (hst r hr).1).1
  obtain ⟨d1, hrun, h2, h3⟩ := db_load_from_file_success d f fopen alloc cur _ hopen hal
    (by
      rw [hscan]
      intro sc hsc
      obtain ⟨r, hr, he⟩ := List.mem_map.1 hsc
      rw [← he]
      exact (record_of_scanned_of r (hst r hr).1).2)
    (by
      rw [hscan]
      cases rs with
      | nil => exact absurd rfl hne
      | cons r rs => simp)
  refine ⟨d1, hrun, ?_, h3⟩
  rw [h2, hscan, hmap]

theorem decimal_digits : ∀ (fuel n : Nat), n < fuel → 0 < n →
    decimal fuel n = (Nat.digits 10 n).reverse.map (fun dg => 48 + dg) := by
  intro fuel
  induction fuel with
  | zero => intro n h; omega
  | succ k ih =>
    intro n h hpos
    simp only [decimal]
    by_cases h10 : n < 10
    · simp only [h10, if_true]
      rw [Nat.digits_of_lt 10 n (by omega) h10]
      simp
    · simp only [h10, if_false]
      rw [ih (n / 10) (by omega) (by omega), Nat.digits_def' (by norm_num) hpos]
      simp

theorem print_int_decimal_text (v : Int) : print_int v = decimal_text v := by
  unfold print_int decimal_text
  by_cases hneg : v < 0
  · have h0 : v ≠ 0 := by omega
    simp only [hneg, if_true, h0, if_false]
    rw [decimal_digits _ _ (by omega) (by omega)]
    simp
  · simp only [hneg, if_false]
    by_cases h0 : v = 0
    · subst h0; simp [decimal]
    · simp only [h0, if_false]
      rw [decimal_digits _ _ (by omega) (by omega)]
      have : v.toNat = v.natAbs := by omega
      simp [this]

theorem fprintf_record_block (r : Repository) : fprintf_record r = block_text r := by
  simp only [fprintf_record, block_text, print_int_decimal_text]

/-! ### Searching -/

theorem search_loop_spec (test : Repository → Bool) (records : List Repository)
    (alloc : Nat → Bool) (hal : ∀ k, alloc k = true) :
    ∀ (todo i : Nat) (capacity : Int) (indices : List Int) (count : Int),
    i + todo ≤ records.length → count = (indices.length : Int) → 0 < capacity →
    count ≤ capacity →
    ∃ l : List Int,
      search_loop test records alloc todo i capacity indices count =
        .returns { indices := some (indices ++ l), count := count + (l.length : Int) } ∧
      l.Pairwise (fun a b => a < b) ∧
      (∀ x ∈ l, ∃ j : Nat, x = (j : Int) ∧ i ≤ j ∧ j < i + todo ∧
        ∃ r, records[j]? = some r ∧ test r = true) ∧
      (∀ j : Nat, i ≤ j → j < i + todo → ∀ r, records[j]? = some r → test r = true →
        (j : Int) ∈ l) := by
  intro todo
  induction todo with
  | zero =>
    intro i capacity indices count _ _ _ _
    refine ⟨[], by simp [search_loop], List.Pairwise.nil, ?_, ?_⟩
    · intro x hx; cases hx
    · intro j h1 h2; omega
  | succ n ih =>
    intro i capacity indices count hlen hcnt hcap hle
    have hi : i < records.length := by omega
    simp only [search_loop, List.getElem?_eq_getElem hi]
    by_cases ht : test records[i] = true
    · simp only [ht, if_true, hal (i + 1), Bool.true_eq_false, and_false, if_false]
      have hb : 0 ≤ count ∧ count < (if count ≥ capacity then capacity * 2 else capacity) := by
        split_ifs <;> omega
      simp only [hb, and_self, if_true]
      have htake : indices.take count.toNat = indices := by
        apply List.take_of_length_le; omega
      rw [htake]
      obtain ⟨l, hrun, hsorted, hmem, hall⟩ :=
        ih (i + 1) (if count ≥ capacity then capacity * 2 else capacity)
          (indices ++ [(i : Int)]) (count + 1) (by omega) (by simp [hcnt])
          (by split_ifs <;> omega) (by split_ifs <;> omega)
      refine ⟨(i : Int) :: l, ?_, ?_, ?_, ?_⟩
      · rw [hrun]
        simp only [List.append_assoc, List.singleton_append, List.length_cons,
          Outcome.returns.injEq, SearchResult.mk.injEq, true_and]
        push_cast
        omega
      · refine List.Pairwise.cons ?_ hsorted
        intro x hx
        obtain ⟨j, hj, h1, _⟩ := hmem x hx
        omega
      · intro x hx
        rcases List.mem_cons.1 hx with hx | hx
        · exact ⟨i, hx, le_refl i, by omega, records[i], List.getElem?_eq_getElem hi, ht⟩
        · obtain ⟨j, hj, h1, h2, h3⟩ := hmem x hx
          exact ⟨j, hj, by omega, by omega, h3⟩
      · intro j h1 h2 r hr htr
        by_cases hji : j = i
        · subst hji; exact List.mem_cons_self _ _
        · exact List.mem_cons_of_mem _ (hall j (by omega) (by omega) r hr htr)
    · simp only [ht, if_false]
      obtain ⟨l, hrun, hsorted, hmem, hall⟩ :=
        ih (i + 1) capacity indices count (by omega) hcnt hcap hle
      refine ⟨l, hrun, hsorted, ?_, ?_⟩
      · intro x hx
        obtain ⟨j, hj, h1, h2, h3⟩ := hmem x hx
        exact ⟨j, hj, by omega, by omega, h3⟩
      · intro j h1 h2 r hr htr
        by_cases hji : j = i
        · subst hji
          rw [List.getElem?_eq_getElem hi] at hr
          simp only [Option.some.injEq] at hr
          rw [hr] at ht
          exact absurd htr ht
        · exact hall j (by omega) (by omega) r hr htr


theorem search_spec (test : Repository → Bool) (d : RepositoryDB) (alloc : Nat → Bool)
    (hc : consistent d) (hal : ∀ k, alloc k = true) :
    ∃ (res : SearchResult) (l : List Int),
      (if d.count = 0 then Outcome.returns { indices := none, count := 0 }
        else search_loop test d.records alloc d.count.toNat 0 INITIAL_CAPACITY [] 0) =
        .returns res ∧
      res.count = (l.length : Int) ∧
      (res.indices = some l ∨ (res.indices = none ∧ l = [] ∧ d.count = 0)) ∧
      l.Pairwise (fun a b => a < b) ∧
      (∀ x : Int, x ∈ l ↔
        (0 ≤ x ∧ x < d.count ∧ ∃ r, d.records[x.toNat]? = some r ∧ test r = true)) := by
  have hcons : d.count = (d.records.length : Int) := hc
  by_cases h0 : d.count = 0
  · refine ⟨{ indices := none, count := 0 }, [], by simp [h0], rfl,
      Or.inr ⟨rfl, rfl, h0⟩, List.Pairwise.nil, ?_⟩
    intro x
    constructor
    · intro hx; cases hx
    · rintro ⟨h1, h2, _⟩; omega
  · obtain ⟨l, hrun, hsorted, hmem, hall⟩ :=
      search_loop_spec test d.records alloc hal d.count.toNat 0 INITIAL_CAPACITY [] 0
        (by omega) rfl (by decide) (by decide)
    refine ⟨_, l, by simp only [h0, if_false]; exact hrun, by simp, Or.inl (by simp),
      hsorted, ?_⟩
    intro x
    constructor
    · intro hx
      obtain ⟨j, hj, _, h2, h3⟩ := hmem x hx
      subst hj
      refine ⟨by omega, by omega, ?_⟩
      simpa using h3
    · rintro ⟨h1, h2, r, hr, htr⟩
      have := hall x.toNat (Nat.zero_le _) (by omega) r hr htr
      have hx : ((x.toNat : Nat) : Int) = x := by omega
      rwa [hx] at this

theorem compare_dates_eq_zero_iff (a b : Date)
    (ha : int32 a.day ∧ int32 a.month ∧ int32 a.year)
    (hb : int32 b.day ∧ int32 b.month ∧ int32 b.year) :
    compare_dates a b = 0 ↔ (a.day = b.day ∧ a.month = b.month ∧ a.year = b.year) := by
  unfold int32 at ha hb
  unfold compare_dates wrap32
  split_ifs with h1 h2 <;> constructor <;> intro h <;> omega

/-! ### The comparator -/

theorem strcmp_neg_iff (s t : CStr) (hs : is_cstr s) (ht : is_cstr t) :
    strcmp s t < 0 ↔ bytes_lt s t := by
  induction s generalizing t with
  | nil =>
    cases t with
    | nil => simp [strcmp, bytes_lt]
    | cons b t =>
      have hb := ht b (List.mem_cons_self b t)
      simp only [strcmp, bytes_lt, iff_true]
      omega
  | cons a s ih =>
    cases t with
    | nil =>
      simp only [strcmp, bytes_lt, iff_false]
      omega
    | cons b t =>
      have hs2 : is_cstr s := fun x hx => hs x (List.mem_cons_of_mem a hx)
      have ht2 : is_cstr t := fun x hx => ht x (List.mem_cons_of_mem b hx)
      by_cases hab : a = b
      · subst hab
        have e : strcmp (a :: s) (a :: t) = strcmp s t := by simp [strcmp]
        rw [e, ih t hs2 ht2]
        show bytes_lt s t ↔ (a < a ∨ (a = a ∧ bytes_lt s t))
        constructor
        · intro h; exact Or.inr ⟨rfl, h⟩
        · rintro (h | ⟨_, h⟩)
          · omega
          · exact h
      · have e : strcmp (a :: s) (b :: t) = (a : Int) - (b : Int) := by simp [strcmp, hab]
        rw [e]
        show (a : Int) - (b : Int) < 0 ↔ (a < b ∨ (a = b ∧ bytes_lt s t))
        constructor
        · intro h; left; omega
        · rintro (h | ⟨h, _⟩)
          · omega
          · exact absurd h hab

theorem strcmp_antisymm (s t : CStr) : strcmp t s = -(strcmp s t) := by
  induction s generalizing t with
  | nil =>
    cases t with
    | nil => simp [strcmp]
    | cons b t => simp [strcmp]
  | cons a s ih =>
    cases t with
    | nil => simp [strcmp]
    | cons b t =>
      simp only [strcmp]
      by_cases hab : a = b
      · subst hab; simp [ih t]
      · have hba : ¬ b = a := fun h => hab h.symm
        simp only [hab, hba, if_false]
        omega

theorem strcmp_pos_iff (s t : CStr) (hs : is_cstr s) (ht : is_cstr t) :
    0 < strcmp s t ↔ bytes_lt t s := by
  rw [← strcmp_neg_iff t s ht hs, strcmp_antisymm s t]
  omega

theorem bytes_lt_irrefl (s : CStr) : ¬ bytes_lt s s := by
  induction s with
  | nil => simp [bytes_lt]
  | cons a s ih =>
    simp only [bytes_lt]
    rintro (h | ⟨_, h⟩)
    · omega
    · exact ih h

theorem bytes_lt_trans (s t u : CStr) (h1 : bytes_lt s t) (h2 : bytes_lt t u) :
    bytes_lt s u := by
  induction s generalizing t u with
  | nil =>
    cases u with
    | nil =>
      cases t with
      | nil => exact h1
      | cons b t => simp [bytes_lt] at h2
    | cons c u => simp [bytes_lt]
  | cons a s ih =>
    cases t with
    | nil => simp [bytes_lt] at h1
    | cons b t =>
      cases u with
      | nil => simp [bytes_lt] at h2
      | cons c u =>
        simp only [bytes_lt] at h1 h2 ⊢
        rcases h1 with h1 | ⟨h1, h1b⟩
        · rcases h2 with h2 | ⟨h2, _⟩
          · left; omega
          · left; omega
        · rcases h2 with h2 | ⟨h2, h2b⟩
          · left; omega
          · right; exact ⟨by omega, ih t u h1b h2b⟩

theorem bytes_lt_trichotomy (s t : CStr) : bytes_lt s t ∨ s = t ∨ bytes_lt t s := by
  induction s generalizing t with
  | nil =>
    cases t with
    | nil => right; left; rfl
    | cons b t => left; simp [bytes_lt]
  | cons a s ih =>
    cases t with
    | nil => right; right; simp [bytes_lt]
    | cons b t =>
      simp only [bytes_lt]
      rcases Nat.lt_trichotomy a b with h | h | h
      · left; left; exact h
      · subst h
        rcases ih t with h | h | h
        · left; right; exact ⟨rfl, h⟩
        · right; left; rw [h]
        · right; right; right; exact ⟨rfl, h⟩
      · right; right; left; exact h

theorem bytes_lt_asymm (s t : CStr) (h : bytes_lt s t) : ¬ bytes_lt t s :=
  fun h2 => bytes_lt_irrefl s (bytes_lt_trans s t s h h2)


theorem compare_dates_sign (a b : Date)
    (ha : validate_date a ≠ 0) (hb : validate_date b ≠ 0) :
    (compare_dates a b < 0 ↔ date_lex_lt a b) ∧
    (compare_dates a b = 0 ↔ (a.year = b.year ∧ a.month = b.month ∧ a.day = b.day)) ∧
    (0 < compare_dates a b ↔ date_lex_lt b a) ∧
    -2147483647 ≤ compare_dates a b ∧ compare_dates a b ≤ 2147483647 := by
  obtain ⟨a1, a2, a3, a4, a5, a6⟩ := (validate_date_iff a).1 ha
  obtain ⟨b1, b2, b3, b4, b5, b6⟩ := (validate_date_iff b).1 hb
  have la := month_length_le a.year a.month
  have lb := month_length_le b.year b.month
  unfold compare_dates date_lex_lt
  rw [wrap32_of_small (a.year - b.year) (by omega) (by omega),
    wrap32_of_small (a.month - b.month) (by omega) (by omega),
    wrap32_of_small (a.day - b.day) (by omega) (by omega)]
  split_ifs with h1 h2 <;> refine ⟨?_, ?_, ?_, ?_, ?_⟩ <;> omega

theorem compare_records_cases (a b : Repository) (ha : sortable a) (hb : sortable b) :
    (a.name ≠ b.name ∧ compare_records a b = strcmp a.name b.name ∧
      strcmp a.name b.name ≠ 0) ∨
    (a.name = b.name ∧ a.direction ≠ b.direction ∧
      compare_records a b = a.direction - b.direction) ∨
    (a.name = b.name ∧ a.direction = b.direction ∧
      compare_records a b = -(compare_dates a.release_date b.release_date)) := by
  obtain ⟨na, ⟨da0, da1⟩, va⟩ := ha
  obtain ⟨nb, ⟨db0, db1⟩, vb⟩ := hb
  have hz := strcmp_eq_zero_iff a.name b.name na nb
  unfold Direction DIRECTION_COUNT at *
  by_cases hn : a.name = b.name
  · have h0 : strcmp a.name b.name = 0 := hz.2 hn
    by_cases hd : a.direction = b.direction
    · right; right
      refine ⟨hn, hd, ?_⟩
      obtain ⟨_, _, _, l1, l2⟩ := compare_dates_sign _ _ va vb
      simp only [compare_records, h0, ne_eq, not_true_eq_false, if_false, hd]
      exact wrap32_of_small _ (by omega) (by omega)
    · right; left
      refine ⟨hn, hd, ?_⟩
      simp only [compare_records, h0, ne_eq, not_true_eq_false, if_false, hd,
        not_false_eq_true, if_true]
      exact wrap32_of_small _ (by omega) (by omega)
  · left
    have h0 : strcmp a.name b.name ≠ 0 := fun h => hn (hz.1 h)
    refine ⟨hn, ?_, h0⟩
    simp only [compare_records, ne_eq, h0, not_false_eq_true, if_true]

theorem compare_records_le_iff (a b : Repository) (ha : sortable a) (hb : sortable b) :
    compare_records a b ≤ 0 ↔ record_le a b := by
  have hna := ha.1
  have hnb := hb.1
  obtain ⟨s1, _, s3, _, _⟩ := compare_dates_sign _ _ ha.2.2 hb.2.2
  unfold record_le
  rcases compare_records_cases a b ha hb with ⟨hn, he, h0⟩ | ⟨hn, hd, he⟩ | ⟨hn, hd, he⟩
  all_goals unfold Direction at *
  · rw [he]
    have hneg := strcmp_neg_iff a.name b.name hna hnb
    constructor
    · intro h; left; exact hneg.1 (by omega)
    · rintro (h | ⟨h, _⟩)
      · have := hneg.2 h; omega
      · exact absurd h hn
  · rw [he]
    constructor
    · intro h; right; exact ⟨hn, Or.inl (by omega)⟩
    · rintro (h | ⟨_, h | ⟨h, _⟩⟩)
      · rw [hn] at h; exact absurd h (bytes_lt_irrefl _)
      · omega
      · exact absurd h hd
  · rw [he]
    constructor
    · intro h
      right
      refine ⟨hn, Or.inr ⟨hd, ?_⟩⟩
      intro hlt
      have := s1.2 hlt
      omega
    · rintro (h | ⟨_, h | ⟨_, h⟩⟩)
      · rw [hn] at h; exact absurd h (bytes_lt_irrefl _)
      · omega
      · by_contra hc
        apply h
        exact s1.1 (by omega)

theorem record_le_total (a b : Repository) (h : ¬ record_le a b) : record_le b a := by
  unfold record_le at h ⊢
  unfold date_lex_lt at h ⊢
  unfold Direction at *
  rcases bytes_lt_trichotomy a.name b.name with hl | he | hg
  · exact absurd (Or.inl hl) h
  · right
    refine ⟨he.symm, ?_⟩
    by_contra hc
    apply h
    right
    refine ⟨he, ?_⟩
    by_cases h1 : a.direction < b.direction
    · exact Or.inl h1
    · right
      constructor
      · by_contra h2
        apply hc
        unfold Direction at *
        left; omega
      · intro h3
        apply hc
        by_cases h4 : b.direction < a.direction
        · exact Or.inl h4
        · right
          unfold Direction at *
          refine ⟨by omega, ?_⟩
          intro h5
          omega
  · exact Or.inl hg

theorem record_le_trans (a b c : Repository) (h1 : record_le a b) (h2 : record_le b c) :
    record_le a c := by
  unfold record_le at h1 h2 ⊢
  unfold date_lex_lt at h1 h2 ⊢
  unfold Direction at *
  rcases h1 with h1 | ⟨n1, h1⟩
  · rcases h2 with h2 | ⟨n2, _⟩
    · exact Or.inl (bytes_lt_trans _ _ _ h1 h2)
    · rw [← n2]; exact Or.inl h1
  · rcases h2 with h2 | ⟨n2, h2⟩
    · rw [n1]; exact Or.inl h2
    · right
      refine ⟨n1.trans n2, ?_⟩
      rcases h1 with h1 | ⟨d1, h1⟩
      · rcases h2 with h2 | ⟨d2, _⟩
        · left; omega
        · left; omega
      · rcases h2 with h2 | ⟨d2, h2⟩
        · left; omega
        · right
          refine ⟨by omega, ?_⟩
          intro h3
          omega

theorem compare_records_total (a b : Repository) (ha : sortable a) (hb : sortable b)
    (h : ¬ compare_records a b ≤ 0) : compare_records b a ≤ 0 :=
  (compare_records_le_iff b a hb ha).2
    (record_le_total a b (fun hle => h ((compare_records_le_iff a b ha hb).2 hle)))

theorem compare_records_trans (a b c : Repository) (ha : sortable a) (hb : sortable b)
    (hc : sortable c) (h1 : compare_records a b ≤ 0) (h2 : compare_records b c ≤ 0) :
    compare_records a c ≤ 0 :=
  (compare_records_le_iff a c ha hc).2
    (record_le_trans a b c ((compare_records_le_iff a b ha hb).1 h1)
      ((compare_records_le_iff b c hb hc).1 h2))

theorem compare_records_self (a : Repository) : compare_records a a = 0 := by
  simp [compare_records, strcmp_self, compare_dates, wrap32]


/-! ### Bubble sort yields an ordered sequence -/

theorem bubble_inner_max : ∀ (todo : Nat) (l : List Repository) (s : Bool),
    (∀ r ∈ l, sortable r) → todo + 1 ≤ l.length →
    ∃ (pre : List Repository) (mx : Repository),
      (bubble_inner todo l s).1 = pre ++ mx :: l.drop (todo + 1) ∧
      pre.length = todo ∧
      (∀ x ∈ l.take (todo + 1), compare_records x mx ≤ 0) ∧
      (pre ++ [mx]).Perm (l.take (todo + 1)) := by
  intro todo
  induction todo with
  | zero =>
    intro l s _ hlen
    match l, hlen with
    | a :: t, _ =>
      refine ⟨[], a, by simp [bubble_inner], rfl, ?_, by simp⟩
      intro x hx
      simp only [List.take_succ_cons, List.take_zero, List.mem_singleton, zero_add] at hx
      rw [hx, compare_records_self]
  | succ n ih =>
    intro l s hs hlen
    match l, hs, hlen with
    | [a], _, hlen => simp at hlen
    | a :: b :: t, hs, hlen =>
      have sa : sortable a := hs a (by simp)
      have sb : sortable b := hs b (by simp)
      simp only [bubble_inner]
      by_cases hc : compare_records a b > 0
      · simp only [hc, if_true]
        have hs2 : ∀ r ∈ a :: t, sortable r := by
          intro r hr
          rcases List.mem_cons.1 hr with h | h
          · rw [h]; exact sa
          · exact hs r (by simp [h])
        obtain ⟨pre, mx, h1, h2, h3, h4⟩ := ih (a :: t) true hs2 (by simpa using hlen)
        have smx : sortable mx :=
          hs2 mx (List.mem_of_mem_take (h4.mem_iff.1 (by simp)))
        have ha_mx : compare_records a mx ≤ 0 := h3 a (by simp)
        have hba : compare_records b a ≤ 0 :=
          compare_records_total a b sa sb (by omega)
        refine ⟨b :: pre, mx, ?_, by simp [h2], ?_, ?_⟩
        · rw [h1]; simp
        · intro x hx
          simp only [List.take_succ_cons, List.mem_cons] at hx
          rcases hx with hx | hx | hx
          · rw [hx]; exact ha_mx
          · rw [hx]; exact compare_records_trans b a mx sb sa smx hba ha_mx
          · exact h3 x (by simp [hx])
        · simp only [List.take_succ_cons, List.cons_append] at h4 ⊢
          exact (h4.cons b).trans (List.Perm.swap a b _)
      · simp only [hc, if_false]
        have hs2 : ∀ r ∈ b :: t, sortable r := by
          intro r hr
          exact hs r (List.mem_cons_of_mem a hr)
        obtain ⟨pre, mx, h1, h2, h3, h4⟩ := ih (b :: t) s hs2 (by simpa using hlen)
        have smx : sortable mx :=
          hs2 mx (List.mem_of_mem_take (h4.mem_iff.1 (by simp)))
        have hb_mx : compare_records b mx ≤ 0 := h3 b (by simp)
        have hab : compare_records a b ≤ 0 := by omega
        refine ⟨a :: pre, mx, ?_, by simp [h2], ?_, ?_⟩
        · rw [h1]; simp
        · intro x hx
          rw [List.take_succ_cons] at hx
          rcases List.mem_cons.1 hx with hx | hx
          · rw [hx]; exact compare_records_trans a b mx sa sb smx hab hb_mx
          · exact h3 x hx
        · rw [List.take_succ_cons, List.cons_append]
          exact h4.cons a

theorem bubble_inner_no_swap : ∀ (todo : Nat) (l : List Repository) (s : Bool),
    (bubble_inner todo l s).2 = false →
    s = false ∧ (bubble_inner todo l s).1 = l ∧
    List.Chain' (fun a b => compare_records a b ≤ 0) (l.take (todo + 1)) := by
  intro todo
  induction todo with
  | zero =>
    intro l s h
    simp only [bubble_inner] at h ⊢
    refine ⟨h, trivial, ?_⟩
    cases l with
    | nil => simp
    | cons a t => simp
  | succ n ih =>
    intro l s h
    match l, h with
    | [], h => simp only [bubble_inner] at h ⊢; exact ⟨h, trivial, by simp⟩
    | [a], h => simp only [bubble_inner] at h ⊢; exact ⟨h, trivial, by simp⟩
    | a :: b :: t, h =>
      simp only [bubble_inner] at h ⊢
      by_cases hc : compare_records a b > 0
      · simp only [hc, if_true] at h
        obtain ⟨h1, _, _⟩ := ih (a :: t) true h
        cases h1
      · simp only [hc, if_false] at h ⊢
        obtain ⟨h1, h2, h3⟩ := ih (b :: t) s h
        refine ⟨h1, by rw [h2], ?_⟩
        rw [List.take_succ_cons]
        rw [List.take_succ_cons] at h3
        exact List.chain'_cons.2 ⟨by omega, h3⟩


theorem bubble_outer_sorted : ∀ (todo i count : Nat) (pre suf : List Repository),
    (∀ r ∈ pre ++ suf, sortable r) → pre.length = todo + 1 →
    count = pre.length + suf.length → i = suf.length →
    List.Chain' (fun a b => compare_records a b ≤ 0) suf →
    (∀ x ∈ pre, ∀ y ∈ suf, compare_records x y ≤ 0) →
    List.Chain' (fun a b => compare_records a b ≤ 0)
      (bubble_outer todo i count (pre ++ suf)) := by
  intro todo
  induction todo with
  | zero =>
    intro i count pre suf _ hlen _ _ hsuf hle
    simp only [bubble_outer]
    match pre, hlen with
    | [p], _ =>
      apply List.Chain'.cons' hsuf
      intro y hy
      exact hle p (by simp) y (List.mem_of_mem_head? hy)
  | succ n ih =>
    intro i count pre suf hs hlen hcount hi hsuf hle
    have htodo : count - 1 - i = n + 1 := by omega
    simp only [bubble_outer, htodo]
    have htake : (pre ++ suf).take (n + 1 + 1) = pre := List.take_left' hlen
    have hdrop : (pre ++ suf).drop (n + 1 + 1) = suf := List.drop_left' hlen
    by_cases hflag : (bubble_inner (n + 1) (pre ++ suf) false).2 = false
    · simp only [hflag, if_true]
      obtain ⟨_, h2, h3⟩ := bubble_inner_no_swap (n + 1) (pre ++ suf) false hflag
      rw [h2]
      rw [htake] at h3
      refine List.chain'_append.2 ⟨h3, hsuf, ?_⟩
      intro x hx y hy
      exact hle x (List.mem_of_mem_getLast? hx) y (List.mem_of_mem_head? hy)
    · simp only [hflag, if_false]
      obtain ⟨pre2, mx, h1, h2, h3, h4⟩ :=
        bubble_inner_max (n + 1) (pre ++ suf) false hs (by simp; omega)
      rw [htake] at h3 h4
      rw [hdrop] at h1
      rw [h1]
      have hmx : mx ∈ pre := h4.mem_iff.1 (by simp)
      have hpre2 : ∀ x ∈ pre2, x ∈ pre := fun x hx => h4.mem_iff.1 (by simp [hx])
      apply ih (i + 1) count pre2 (mx :: suf)
      · intro r hr
        rcases List.mem_append.1 hr with h | h
        · exact hs r (List.mem_append_left _ (hpre2 r h))
        · rcases List.mem_cons.1 h with h | h
          · rw [h]; exact hs mx (List.mem_append_left _ hmx)
          · exact hs r (List.mem_append_right _ h)
      · exact h2
      · have := h4.length_eq
        simp only [List.length_append, List.length_singleton, List.length_cons] at this ⊢
        omega
      · simp [hi]
      · apply List.Chain'.cons' hsuf
        intro y hy
        exact hle mx hmx y (List.mem_of_mem_head? hy)
      · intro x hx y hy
        rcases List.mem_cons.1 hy with h | h
        · rw [h]; exact h3 x (hpre2 x hx)
        · exact hle x (hpre2 x hx) y h

theorem db_sort_bubble_nonnull_sorted (d : RepositoryDB) (hc : consistent d)
    (hs : ∀ r ∈ d.records, sortable r) :
    List.Chain' (fun a b => compare_records a b ≤ 0) (db_sort_bubble_nonnull d).2.records := by
  have hcons : d.count = (d.records.length : Int) := hc
  unfold db_sort_bubble_nonnull
  by_cases h2 : d.count < 2
  · simp only [h2, if_true]
    match hl : d.records with
    | [] => simp
    | [a] => simp
    | a :: b :: t => rw [hl] at hcons; simp at hcons; omega
  · simp only [h2, if_false]
    have h := bubble_outer_sorted (d.count - 1).toNat 0 d.count.toNat d.records []
      (by simpa using hs) (by omega) (by simp; omega) rfl List.chain'_nil
      (by intro x _ y hy; cases hy)
    simpa using h

theorem chain_getElem (l : List Repository)
    (h : List.Chain' (fun a b => compare_records a b ≤ 0) l) (i : Nat)
    (hi : i + 1 < l.length) :
    compare_records (l.get ⟨i, by omega⟩) (l.get ⟨i + 1, hi⟩) ≤ 0 :=
  List.chain'_iff_get.1 h i (by omega)

theorem compare_records_neg (a b : Repository) (ha : sortable a) (hb : sortable b) :
    compare_records b a = -(compare_records a b) := by
  obtain ⟨_, _, _, l1, l2⟩ := compare_dates_sign _ _ ha.2.2 hb.2.2
  have hdate : compare_dates b.release_date a.release_date =
      -(compare_dates a.release_date b.release_date) := by
    obtain ⟨a1, a2, a3, a4, a5, a6⟩ := (validate_date_iff a.release_date).1 ha.2.2
    obtain ⟨b1, b2, b3, b4, b5, b6⟩ := (validate_date_iff b.release_date).1 hb.2.2
    have la := month_length_le a.release_date.year a.release_date.month
    have lb := month_length_le b.release_date.year b.release_date.month
    unfold compare_dates
    rw [wrap32_of_small (a.release_date.year - b.release_date.year) (by omega) (by omega),
      wrap32_of_small (a.release_date.month - b.release_date.month) (by omega) (by omega),
      wrap32_of_small (a.release_date.day - b.release_date.day) (by omega) (by omega),
      wrap32_of_small (b.release_date.year - a.release_date.year) (by omega) (by omega),
      wrap32_of_small (b.release_date.month - a.release_date.month) (by omega) (by omega),
      wrap32_of_small (b.release_date.day - a.release_date.day) (by omega) (by omega)]
    split_ifs <;> omega
  rcases compare_records_cases a b ha hb with ⟨hn, he, _⟩ | ⟨hn, hd, he⟩ | ⟨hn, hd, he⟩
  · rcases compare_records_cases b a hb ha with ⟨_, he2, _⟩ | ⟨hn2, _⟩ | ⟨hn2, _⟩
    · rw [he, he2, strcmp_antisymm a.name b.name]
    · exact absurd hn2.symm hn
    · exact absurd hn2.symm hn
  · rcases compare_records_cases b a hb ha with ⟨hn2, _⟩ | ⟨_, _, he2⟩ | ⟨_, hd2, _⟩
    · exact absurd hn.symm hn2
    · rw [he, he2]; unfold Direction at *; omega
    · exact absurd hd2.symm hd
  · rcases compare_records_cases b a hb ha with ⟨hn2, _⟩ | ⟨_, hd2, _⟩ | ⟨_, _, he2⟩
    · exact absurd hn.symm hn2
    · exact absurd hd.symm hd2
    · rw [he, he2, hdate]

theorem bubble_inner_sorted : ∀ (todo : Nat) (l : List Repository) (s : Bool),
    List.Chain' (fun a b => compare_records a b ≤ 0) l → bubble_inner todo l s = (l, s) := by
  intro todo
  induction todo with
  | zero => intro l s _; simp [bubble_inner]
  | succ n ih =>
    intro l s h
    match l, h with
    | [], _ => simp [bubble_inner]
    | [a], _ => simp [bubble_inner]
    | a :: b :: t, h =>
      obtain ⟨hab, ht⟩ := List.chain'_cons.1 h
      have hc : ¬ compare_records a b > 0 := by omega
      simp only [bubble_inner, hc, if_false, ih (b :: t) s ht]

theorem bubble_outer_sorted_id (todo i count : Nat) (l : List Repository)
    (h : List.Chain' (fun a b => compare_records a b ≤ 0) l) :
    bubble_outer todo i count l = l := by
  cases todo with
  | zero => rfl
  | succ n => simp [bubble_outer, bubble_inner_sorted _ l false h]


theorem db_sort_bubble_nonnull_sorted_id (d : RepositoryDB)
    (h : List.Chain' (fun a b => compare_records a b ≤ 0) d.records) :
    db_sort_bubble_nonnull d = (1, d) := by
  unfold db_sort_bubble_nonnull
  split_ifs with h2
  · rfl
  · rw [bubble_outer_sorted_id _ _ _ _ h]

/-! ### Stability of the bubble sort -/

theorem compare_records_same_key (a b : Repository) (h : same_key a b) :
    compare_records a b = 0 := by
  obtain ⟨h1, h2, h3⟩ := h
  have h0 := compare_records_self b
  unfold compare_records at h0 ⊢
  rw [h1, h2, h3]
  exact h0

theorem compare_records_eq_zero_iff (a b : Repository) (ha : key_typed a) (hb : key_typed b) :
    compare_records a b = 0 ↔ same_key a b := by
  constructor
  · intro h
    obtain ⟨na, da, a1, a2, a3⟩ := ha
    obtain ⟨nb, db, b1, b2, b3⟩ := hb
    have hz := strcmp_eq_zero_iff a.name b.name na nb
    have hd := compare_dates_eq_zero_iff a.release_date b.release_date ⟨a1, a2, a3⟩ ⟨b1, b2, b3⟩
    have hr : int32 (compare_dates a.release_date b.release_date) := by
      unfold compare_dates
      split_ifs <;> exact wrap32_int32 _
    unfold int32 at da db hr
    unfold Direction at *
    unfold compare_records at h
    by_cases hn : strcmp a.name b.name = 0
    · simp only [hn, ne_eq, not_true_eq_false, if_false] at h
      by_cases hdir : a.direction = b.direction
      · simp only [hdir, ne_eq, not_true_eq_false, if_false] at h
        have hc : compare_dates a.release_date b.release_date = 0 := by
          unfold wrap32 at h
          omega
        obtain ⟨e1, e2, e3⟩ := hd.1 hc
        refine ⟨hz.1 hn, hdir, ?_⟩
        cases hx : a.release_date
        cases hy : b.release_date
        rw [hx] at e1 e2 e3
        rw [hy] at e1 e2 e3
        simp only [Date.mk.injEq]
        exact ⟨e1, e2, e3⟩
      · exfalso
        simp only [ne_eq, hdir, not_false_eq_true, if_true] at h
        unfold wrap32 at h
        unfold Direction at *
        omega
    · exfalso
      simp only [ne_eq, hn, not_false_eq_true, if_true] at h
  · exact compare_records_same_key a b

theorem bubble_inner_filter (k : Repository) : ∀ (todo : Nat) (l : List Repository) (s : Bool),
    (bubble_inner todo l s).1.filter (fun x => decide (same_key k x)) =
      l.filter (fun x => decide (same_key k x)) := by
  intro todo
  induction todo with
  | zero => intro l s; simp [bubble_inner]
  | succ n ih =>
    intro l s
    match l with
    | [] => simp [bubble_inner]
    | [a] => simp [bubble_inner]
    | a :: b :: t =>
      simp only [bubble_inner]
      split_ifs with h
      · have ih1 := ih (a :: t) true
        by_cases hb : same_key k b
        · have ha : ¬ same_key k a := by
            intro ha
            have hab : same_key a b :=
              ⟨ha.1.symm.trans hb.1, ha.2.1.symm.trans hb.2.1, ha.2.2.symm.trans hb.2.2⟩
            have := compare_records_same_key a b hab
            omega
          simp only [List.filter_cons, hb, ha, decide_True, decide_False, if_true,
            Bool.false_eq_true, if_false] at ih1 ⊢
          rw [ih1]
        · simp only [List.filter_cons, hb, decide_False, Bool.false_eq_true, if_false]
            at ih1 ⊢
          exact ih1
      · have ih1 := ih (b :: t) s
        simp only [List.filter_cons] at ih1 ⊢
        rw [ih1]

theorem bubble_outer_filter (k : Repository) : ∀ (todo i count : Nat) (l : List Repository),
    (bubble_outer todo i count l).filter (fun x => decide (same_key k x)) =
      l.filter (fun x => decide (same_key k x)) := by
  intro todo
  induction todo with
  | zero => intro i count l; simp [bubble_outer]
  | succ n ih =>
    intro i count l
    simp only [bubble_outer]
    split_ifs with h
    · exact bubble_inner_filter k _ l false
    · exact (ih (i + 1) count _).trans (bubble_inner_filter k _ l false)

theorem db_sort_bubble_nonnull_filter (k : Repository) (d : RepositoryDB) :
    (db_sort_bubble_nonnull d).2.records.filter (fun x => decide (same_key k x)) =
      d.records.filter (fun x => decide (same_key k x)) := by
  unfold db_sort_bubble_nonnull
  split_ifs with h
  · rfl
  · exact bubble_outer_filter k _ _ _ _

theorem sublist_pair_of_filter (k a b : Repository) (l l1 : List Repository)
    (ha : same_key k a) (hb : same_key k b)
    (hf : l1.filter (fun x => decide (same_key k x)) =
      l.filter (fun x => decide (same_key k x)))
    (h : List.Sublist [a, b] l) : List.Sublist [a, b] l1 := by
  have h1 := h.filter (fun x => decide (same_key k x))
  simp only [List.filter_cons, ha, hb, decide_True, if_true, List.filter_nil] at h1
  rw [← hf] at h1
  exact h1.trans (List.filter_sublist l1)

/-! ### The exchange sort of `Kursovayaya.c` -/

theorem sort_records_swap_iff (a b : Repository) (ha : sortable a) (hb : sortable b) :
    sort_records_swap a b = true ↔ 0 < compare_records a b := by
  obtain ⟨s1, s2, s3, l1, l2⟩ := compare_dates_sign _ _ ha.2.2 hb.2.2
  have hz := strcmp_eq_zero_iff a.name b.name ha.1 hb.1
  unfold sort_records_swap
  simp only [decide_eq_true_eq]
  rcases compare_records_cases a b ha hb with ⟨hn, he, h0⟩ | ⟨hn, hd, he⟩ | ⟨hn, hd, he⟩
  all_goals unfold Direction at *
  · rw [he]
    constructor
    · rintro (h | ⟨h, _⟩ | ⟨h, _⟩)
      · exact h
      · exact absurd h h0
      · exact absurd h h0
    · intro h; exact Or.inl h
  · rw [he]
    have h0 := hz.2 hn
    constructor
    · rintro (h | ⟨_, h⟩ | ⟨_, h, _⟩)
      · omega
      · omega
      · exact absurd h hd
    · intro h; exact Or.inr (Or.inl ⟨h0, by omega⟩)
  · rw [he]
    have h0 := hz.2 hn
    constructor
    · rintro (h | ⟨_, h⟩ | ⟨_, _, h⟩)
      · omega
      · omega
      · omega
    · intro h; exact Or.inr (Or.inr ⟨h0, hd, by omega⟩)

theorem sort_records_inner_min : ∀ (t : List Repository) (todo : Nat) (x : Repository),
    sortable x → (∀ r ∈ t, sortable r) → t.length ≤ todo →
    ((sort_records_inner todo x t).1 :: (sort_records_inner todo x t).2).Perm (x :: t) ∧
    (sort_records_inner todo x t).2.length = t.length ∧
    ∀ z ∈ x :: t, compare_records (sort_records_inner todo x t).1 z ≤ 0 := by
  intro t
  induction t with
  | nil =>
    intro todo x _ _ _
    have h : sort_records_inner todo x [] = (x, []) := by
      cases todo <;> simp [sort_records_inner]
    rw [h]
    refine ⟨List.Perm.refl _, rfl, ?_⟩
    intro z hz
    rw [List.mem_singleton.1 hz, compare_records_self]
  | cons y t ih =>
    intro todo x sx st hlen
    have sy : sortable y := st y (by simp)
    have st2 : ∀ r ∈ t, sortable r := fun r hr => st r (List.mem_cons_of_mem _ hr)
    match todo, hlen with
    | n + 1, hlen =>
      have hn : t.length ≤ n := by simpa using hlen
      simp only [sort_records_inner]
      by_cases hsw : sort_records_swap x y = true
      · simp only [hsw, if_true]
        obtain ⟨hp, hl, hmin⟩ := ih n y sy st2 hn
        have hm : sortable (sort_records_inner n y t).1 := by
          have : (sort_records_inner n y t).1 ∈ y :: t := hp.mem_iff.1 (by simp)
          rcases List.mem_cons.1 this with h | h
          · rw [h]; exact sy
          · exact st2 _ h
        refine ⟨?_, by simp [hl], ?_⟩
        · exact ((List.Perm.swap _ _ _).trans (hp.cons x))
        · intro z hz
          rcases List.mem_cons.1 hz with h | h
          · rw [h]
            have hyx : compare_records y x ≤ 0 :=
              compare_records_total x y sx sy
                (by have := (sort_records_swap_iff x y sx sy).1 hsw; omega)
            exact compare_records_trans _ y x hm sy sx (hmin y (by simp)) hyx
          · exact hmin z h
      · simp only [hsw, if_false, Bool.false_eq_true]
        obtain ⟨hp, hl, hmin⟩ := ih n x sx st2 hn
        have hm : sortable (sort_records_inner n x t).1 := by
          have : (sort_records_inner n x t).1 ∈ x :: t := hp.mem_iff.1 (by simp)
          rcases List.mem_cons.1 this with h | h
          · rw [h]; exact sx
          · exact st2 _ h
        refine ⟨?_, by simp [hl], ?_⟩
        · exact ((List.Perm.swap _ _ _).trans (hp.cons y)).trans (List.Perm.swap _ _ _)
        · intro z hz
          rcases List.mem_cons.1 hz with h | h
          · exact hmin z (by rw [h]; simp)
          · rcases List.mem_cons.1 h with h | h
            · rw [h]
              have hxy : compare_records x y ≤ 0 := by
                by_contra hc
                exact hsw ((sort_records_swap_iff x y sx sy).2 (by omega))
              exact compare_records_trans _ x y hm sx sy (hmin x (by simp)) hxy
            · exact hmin z (List.mem_cons_of_mem _ h)

theorem sort_records_outer_sorted : ∀ (todo i count : Nat) (l : List Repository),
    (∀ r ∈ l, sortable r) → l.length + i = count → l.length ≤ todo + 1 →
    (sort_records_outer todo i count l).Perm l ∧
    List.Pairwise (fun a b => compare_records a b ≤ 0) (sort_records_outer todo i count l) := by
  intro todo
  induction todo with
  | zero =>
    intro i count l _ _ hlen
    have h : sort_records_outer 0 i count l = l := by
      cases l <;> simp [sort_records_outer]
    rw [h]
    refine ⟨List.Perm.refl _, ?_⟩
    match l, hlen with
    | [], _ => exact List.Pairwise.nil
    | [a], _ => exact List.pairwise_singleton _ a
    | _ :: _ :: _, hlen => simp at hlen
  | succ n ih =>
    intro i count l hs hcount hlen
    match l, hs, hcount, hlen with
    | [], _, _, _ => simp [sort_records_outer]
    | x :: t, hs, hcount, hlen =>
      have sx : sortable x := hs x (by simp)
      have st : ∀ r ∈ t, sortable r := fun r hr => hs r (List.mem_cons_of_mem _ hr)
      have hcnt : count - 1 - i = t.length := by
        simp only [List.length_cons] at hcount; omega
      simp only [sort_records_outer]
      rw [hcnt]
      obtain ⟨hp, hl, hmin⟩ := sort_records_inner_min t t.length x sx st (le_refl _)
      have hmem : ∀ z ∈ (sort_records_inner t.length x t).2, z ∈ x :: t :=
        fun z hz => hp.mem_iff.1 (List.mem_cons_of_mem _ hz)
      have hs2 : ∀ r ∈ (sort_records_inner t.length x t).2, sortable r :=
        fun r hr => hs r (hmem r hr)
      obtain ⟨hp2, hsorted⟩ := ih (i + 1) count _ hs2
        (by rw [hl]; simp only [List.length_cons] at hcount; omega)
        (by rw [hl]; simp only [List.length_cons] at hlen; omega)
      refine ⟨(hp2.cons _).trans hp, ?_⟩
      refine List.Pairwise.cons ?_ hsorted
      intro z hz
      exact hmin z (hmem z (hp2.mem_iff.1 hz))

theorem sort_records_spec (l : List Repository) (hs : ∀ r ∈ l, sortable r) :
    (sort_records l l.length).1 = 1 ∧ (sort_records l l.length).2.Perm l ∧
    List.Pairwise (fun a b => compare_records a b ≤ 0) (sort_records l l.length).2 := by
  unfold sort_records
  refine ⟨rfl, ?_⟩
  exact sort_records_outer_sorted _ 0 _ l hs (by simp) (by simp; omega)

/-! ### Two ordered permutations have the same sequence of keys -/

theorem key_le_antisymm (k1 k2 : CStr × Int × Date) (h1 : key_le k1 k2) (h2 : key_le k2 k1) :
    k1 = k2 := by
  obtain ⟨n1, d1, t1⟩ := k1
  obtain ⟨n2, d2, t2⟩ := k2
  unfold key_le at h1 h2
  simp only at h1 h2
  rcases h1 with h1 | ⟨e1, h1⟩
  · rcases h2 with h2 | ⟨e2, _⟩
    · exact absurd h2 (bytes_lt_asymm _ _ h1)
    · rw [e2] at h1; exact absurd h1 (bytes_lt_irrefl _)
  · rcases h2 with h2 | ⟨_, h2⟩
    · rw [e1] at h2; exact absurd h2 (bytes_lt_irrefl _)
    · have hd : d1 = d2 := by
        rcases h1 with h1 | ⟨h1, _⟩
        · rcases h2 with h2 | ⟨h2, _⟩
          · omega
          · omega
        · exact h1
      have ht : t1 = t2 := by
        have a1 : ¬ date_lex_lt t1 t2 := by
          rcases h1 with h1 | ⟨_, h1⟩
          · omega
          · exact h1
        have a2 : ¬ date_lex_lt t2 t1 := by
          rcases h2 with h2 | ⟨_, h2⟩
          · omega
          · exact h2
        unfold date_lex_lt at a1 a2
        cases t1
        cases t2
        simp only [Date.mk.injEq] at a1 a2 ⊢
        omega
      rw [e1, hd, ht]

theorem chain_record_le : ∀ (l : List Repository), (∀ r ∈ l, sortable r) →
    List.Chain' (fun a b => compare_records a b ≤ 0) l → List.Chain' record_le l := by
  intro l
  induction l with
  | nil => intro _ _; exact List.chain'_nil
  | cons a t ih =>
    intro hs hc
    match t, ih, hs, hc with
    | [], _, _, _ => exact List.chain'_singleton a
    | b :: t, ih, hs, hc =>
      rw [List.chain'_cons] at hc ⊢
      exact ⟨(compare_records_le_iff a b (hs a (by simp)) (hs b (by simp))).1 hc.1,
        ih (fun r hr => hs r (List.mem_cons_of_mem _ hr)) hc.2⟩

theorem pairwise_record_le (l : List Repository) (hs : ∀ r ∈ l, sortable r)
    (hc : List.Chain' (fun a b => compare_records a b ≤ 0) l) :
    List.Pairwise record_le l := by
  haveI : IsTrans Repository record_le := ⟨record_le_trans⟩
  exact List.chain'_iff_pairwise.1 (chain_record_le l hs hc)

theorem sorted_keys_eq (l1 l2 : List Repository) (hp : l1.Perm l2)
    (h1 : List.Pairwise record_le l1) (h2 : List.Pairwise record_le l2) :
    l1.map sort_key = l2.map sort_key := by
  haveI : IsAntisymm (CStr × Int × Date) key_le := ⟨key_le_antisymm⟩
  have k1 : List.Pairwise key_le (l1.map sort_key) := List.pairwise_map.2 h1
  have k2 : List.Pairwise key_le (l2.map sort_key) := List.pairwise_map.2 h2
  exact List.eq_of_perm_of_sorted (hp.map sort_key) k1 k2

theorem eq_of_map_sort_key_eq : ∀ (l1 l2 : List Repository),
    l1.map sort_key = l2.map sort_key →
    (∀ a ∈ l1, ∀ b ∈ l2, same_key a b → a = b) → l1 = l2 := by
  intro l1
  induction l1 with
  | nil =>
    intro l2 h _
    cases l2 with
    | nil => rfl
    | cons b t => simp at h
  | cons a t ih =>
    intro l2 h hinj
    cases l2 with
    | nil => simp at h
    | cons b t2 =>
      simp only [List.map_cons, List.cons.injEq] at h
      obtain ⟨hk, ht⟩ := h
      have hab : a = b := by
        apply hinj a (by simp) b (by simp)
        unfold sort_key at hk
        simp only [Prod.mk.injEq] at hk
        exact hk
      rw [hab, ih t2 ht (fun x hx y hy => hinj x (List.mem_cons_of_mem _ hx) y
        (List.mem_cons_of_mem _ hy))]

/-! ### Enum values outside the tables -/

theorem direction_to_string_unknown (k : Int) (h : k < 0 ∨ k ≥ DIRECTION_COUNT) :
    direction_to_string k = cstr "Unknown" := by
  unfold direction_to_string
  have : ¬ (k ≥ 0 ∧ k < DIRECTION_COUNT) := by
    unfold DIRECTION_COUNT at *; omega
  simp only [this, if_false]

theorem compatibility_to_string_unknown (k : Int) (h : k < 0 ∨ k ≥ COMPAT_COUNT) :
    compatibility_to_string k = cstr "Unknown" := by
  unfold compatibility_to_string
  have : ¬ (k ≥ 0 ∧ k < COMPAT_COUNT) := by
    unfold COMPAT_COUNT at *; omega
  simp only [this, if_false]

theorem dir_string_props (k : Int) :
    direction_to_string k ≠ [] ∧ (direction_to_string k).length ≤ 49 ∧
    is_cstr (direction_to_string k) ∧ 10 ∉ direction_to_string k ∧
    reads_back (direction_to_string k) := by
  by_cases h : 0 ≤ k ∧ k < DIRECTION_COUNT
  · obtain ⟨a, b, c, d, e, _, _⟩ := dir_name_props k h.1 h.2
    exact ⟨a, b, c, d, e⟩
  · rw [direction_to_string_unknown k (by omega)]
    decide

theorem compat_string_props (k : Int) :
    compatibility_to_string k ≠ [] ∧ (compatibility_to_string k).length ≤ 49 ∧
    is_cstr (compatibility_to_string k) ∧ 10 ∉ compatibility_to_string k ∧
    reads_back (compatibility_to_string k) := by
  by_cases h : 0 ≤ k ∧ k < COMPAT_COUNT
  · obtain ⟨a, b, c, d, e, _, _⟩ := compat_name_props k h.1 h.2
    exact ⟨a, b, c, d, e⟩
  · rw [compatibility_to_string_unknown k (by omega)]
    decide

theorem fscanf_record_print_shape (r : Repository) (rest : List Nat) (hr : shape_safe r) :
    fscanf_record (fprintf_record r ++ rest) = some (scanned_of r, skip_space rest) := by
  obtain ⟨hsz, hday, hmonth, hyear, hdep, hsite, hsite2, hname, hname2⟩ := hr
  obtain ⟨dn1, dn2, dn3, dn4, _⟩ := dir_string_props r.direction
  obtain ⟨cn1, cn2, cn3, cn4, cn5⟩ := compat_string_props r.compatibility
  obtain ⟨s1, s2, s3⟩ := hsite
  obtain ⟨n1, n2, n3⟩ := hname
  have hsne : r.site ≠ [] := by
    obtain ⟨x, t, hx, _⟩ := hsite2; rw [hx]; simp
  have hnne : r.name ≠ [] := by
    obtain ⟨x, t, hx, _⟩ := hname2; rw [hx]; simp
  rw [fprintf_record_append]
  unfold fscanf_record
  rw [scan_line_text 49 _ _ dn1 dn2 dn3 dn4]
  simp only
  rw [skip_sep_line _ _ hsite2, scan_line_text 99 _ _ hsne s2 s1 s3]
  simp only
  rw [skip_sep_line _ _ hname2, scan_line_text 99 _ _ hnne n2 n1 n3]
  simp only
  rw [skip_sep_print 10 _ _ (Or.inl rfl), scan_int_sep 10 _ _ hsz (Or.inl rfl)]
  simp only
  rw [skip_sep_print 10 _ _ (Or.inl rfl), scan_int_sep 32 _ _ hday (Or.inr rfl)]
  simp only
  rw [skip_sep_print 32 _ _ (Or.inr rfl), scan_int_sep 32 _ _ hmonth (Or.inr rfl)]
  simp only
  rw [skip_sep_print 32 _ _ (Or.inr rfl), scan_int_sep 10 _ _ hyear (Or.inl rfl)]
  simp only
  rw [skip_sep_print 10 _ _ (Or.inl rfl), scan_int_sep 10 _ _ hdep (Or.inl rfl)]
  simp only
  rw [skip_sep_line _ _ cn5, scan_line_text 49 _ _ cn1 cn2 cn3 cn4]
  simp only
  have hsk : skip_space (10 :: rest) = skip_space rest := by
    simp [skip_space, List.dropWhile, isspace]
  rw [hsk]
  rfl

theorem fprintf_record_head_shape (r : Repository) (rest : List Nat) :
    skip_space (fprintf_record r ++ rest) = fprintf_record r ++ rest := by
  obtain ⟨_, _, _, _, ⟨x, t, hx, hsp⟩⟩ := dir_string_props r.direction
  rw [fprintf_record_append, hx, List.cons_append]
  exact skip_space_cons x _ hsp

theorem scan_all_records_text_shape : ∀ (rs : List Repository) (fuel : Nat),
    (∀ r ∈ rs, shape_safe r) → (records_text rs).length < fuel →
    scan_all fuel (records_text rs) = rs.map scanned_of := by
  intro rs
  induction rs with
  | nil =>
    intro fuel _ _
    cases fuel with
    | zero => rfl
    | succ n =>
      have : fscanf_record [] = none := by decide
      simp [scan_all, records_text, this]
  | cons r rs ih =>
    intro fuel hst hfuel
    have hr := hst r (List.mem_cons_self r rs)
    cases fuel with
    | zero => omega
    | succ n =>
      have hsplit : records_text (r :: rs) = fprintf_record r ++ records_text rs := by
        simp [records_text]
      rw [hsplit] at hfuel ⊢
      have hscan := fscanf_record_print_shape r (records_text rs) hr
      have hlt := fscanf_record_length _ _ _ hscan
      simp only [scan_all, hscan, List.map_cons]
      refine congrArg (fun l => scanned_of r :: l) ?_
      have hhead : skip_space (records_text rs) = records_text rs := by
        cases rs with
        | nil => rfl
        | cons r2 rs2 =>
          have : records_text (r2 :: rs2) = fprintf_record r2 ++ records_text rs2 := by
            simp [records_text]
          rw [this]
          exact fprintf_record_head_shape r2 _
      rw [hhead] at hlt ⊢
      exact ih n (fun x hx => hst x (List.mem_cons_of_mem r hx)) (by omega)

theorem unknown_enum_text_rejected (d : RepositoryDB) (bad : Repository)
    (hc : consistent d) (hsafe : ∀ r ∈ d.records, shape_safe r) (hbad : bad ∈ d.records)
    (hout : (bad.direction < 0 ∨ bad.direction ≥ DIRECTION_COUNT) ∨
      (bad.compatibility < 0 ∨ bad.compatibility ≥ COMPAT_COUNT)) :
    ∃ saved : List Nat,
      (∀ (g : CStr) (fopen_w : CStr → Bool), fopen_w g = true →
        db_save_to_file (some d) (some g) fopen_w = .returns (1, some d, some saved)) ∧
      (∀ (d2 : RepositoryDB) (g : CStr) (fopen : CStr → Option (List Nat))
        (alloc : Nat → Bool) (cur : Repository), fopen g = some saved →
        db_load_from_file (some d2) (some g) fopen alloc cur =
          .returns (0, some { records := [], count := 0, capacity := 0 })) := by
  refine ⟨records_text d.records, ?_, ?_⟩
  · intro g fopen_w hw
    have hcons : d.count = (d.records.length : Int) := hc
    have hne : d.count ≠ 0 := by
      intro h0
      rw [h0] at hcons
      have : d.records = [] := List.length_eq_zero.1 (by omega)
      rw [this] at hbad
      cases hbad
    exact db_save_to_file_spec d g fopen_w hc hne hw
  · intro d2 g fopen alloc cur hopen
    have hscan := scan_all_records_text_shape d.records ((records_text d.records).length + 1)
      hsafe (by omega)
    have hnv : ¬ scanned_valid (scanned_of bad) := by
      rintro ⟨h1, h2, _⟩
      rcases hout with h | h
      · simp only [scanned_of, direction_to_string_unknown _ h] at h1
        exact absurd h1 (by decide)
      · simp only [scanned_of, compatibility_to_string_unknown _ h] at h2
        exact absurd h2 (by decide)
    obtain ⟨c, d1, hrun, hres⟩ := db_load_from_file_spec d2 g fopen alloc cur _ hopen
    rcases hres with ⟨h0, h1⟩ | ⟨_, _, _, _, _, _, h7⟩
    · rw [hrun, h0, h1]
    · exfalso
      apply hnv
      apply h7
      rw [hscan]
      exact List.mem_map_of_mem _ hbad

/-! ### Load, save, load -/

/-- Load, save, load on a text without NUL byte: when the load succeeds,
saving the resulting store to a writable file succeeds, and loading the saved
text again (allocations succeeding) succeeds and yields the same sequence of
records, and the same count, as the first load. -/
theorem load_save_load_text_identity (d : RepositoryDB) (f : CStr)
    (fopen : CStr → Option (List Nat)) (alloc : Nat → Bool) (cur : Repository)
    (content : List Nat) (c : Int) (d1 : RepositoryDB)
    (hopen : fopen f = some content) (htext : ∀ b ∈ content, b ≠ 0)
    (hload : db_load_from_file (some d) (some f) fopen alloc cur = .returns (c, some d1))
    (hc : c ≠ 0) :
    ∃ saved : List Nat,
      (∀ (g : CStr) (fopen_w : CStr → Bool), fopen_w g = true →
        db_save_to_file (some d1) (some g) fopen_w = .returns (1, some d1, some saved)) ∧
      (∀ (d2 : RepositoryDB) (g : CStr) (fopen2 : CStr → Option (List Nat))
        (alloc2 : Nat → Bool) (cur2 : Repository),
        fopen2 g = some saved → (∀ k, alloc2 k = true) →
        ∃ d3 : RepositoryDB,
          db_load_from_file (some d2) (some g) fopen2 alloc2 cur2 = .returns (1, some d3) ∧
          d3.records = d1.records ∧ d3.count = d1.count) := by
  obtain ⟨c2, d1b, hrun, hres⟩ := db_load_from_file_spec d f fopen alloc cur content hopen
  rw [hrun] at hload
  simp only [Outcome.returns.injEq, Prod.mk.injEq, Option.some.injEq] at hload
  obtain ⟨hcc, hdd⟩ := hload
  subst hcc hdd
  rcases hres with ⟨h0, _⟩ | ⟨_, h2, h3, h4, _, _, h7⟩
  · exact absurd h0 hc
  have h3b : d1b.count = (d1b.records.length : Int) := h3
  have hfields := scan_all_fields (content.length + 1) content htext
  have hst : ∀ r ∈ d1b.records, storable r := by
    intro r hr
    rw [h2] at hr
    obtain ⟨sc, hsc, he⟩ := List.mem_map.1 hr
    rw [← he]
    exact storable_record_of sc (h7 sc hsc) (hfields sc hsc)
  have hne : d1b.records ≠ [] := by
    intro h
    rw [h] at h3b
    exact h4 (by simpa using h3b)
  refine ⟨records_text d1b.records, ?_, ?_⟩
  · intro g fopen_w hw
    exact db_save_to_file_spec d1b g fopen_w h3 h4 hw
  · intro d2 g fopen2 alloc2 cur2 hopen2 hal2
    obtain ⟨d3, hrun3, hrec3, hcons3⟩ :=
      save_load_round_trip d1b.records hne hst [] (by decide) d2 g fopen2 alloc2 cur2
        (by simpa using hopen2) hal2
    refine ⟨d3, hrun3, hrec3, ?_⟩
    have h3c : d3.count = (d3.records.length : Int) := hcons3
    rw [h3c, hrec3, h3b]

/-! ### A line longer than the width of its conversion -/

theorem skip_space_idem (l : List Nat) : skip_space (skip_space l) = skip_space l := by
  unfold skip_space
  induction l with
  | nil => rfl
  | cons x t ih =>
    by_cases hx : isspace x = true
    · simp only [List.dropWhile_cons, hx, if_true]; exact ih
    · simp only [List.dropWhile_cons, hx, if_false, Bool.false_eq_true]

theorem skip_space_newline (l : List Nat) : skip_space (10 :: l) = skip_space l := by
  simp [skip_space, List.dropWhile, isspace]

theorem scan_int_skip (l : List Nat) : scan_int (skip_space l) = scan_int l := by
  unfold scan_int
  rw [skip_space_idem]

theorem takeWhile_line (s rest : List Nat) (hnl : 10 ∉ s) :
    (s ++ 10 :: rest).takeWhile (fun c => decide (c ≠ 10)) = s := by
  apply takeWhile_append_stop
  · intro c hcm
    simp only [decide_eq_true_eq]
    intro h; subst h; exact hnl hcm
  · intro x t hx
    simp only [List.cons.injEq] at hx
    simp [← hx.1]

theorem scan_line_run (w : Nat) (s rest : List Nat) (hne : s ≠ []) (hlen : s.length ≤ w)
    (hnl : 10 ∉ s) :
    scan_line w (s ++ 10 :: rest) =
      some (s.takeWhile (fun c => decide (c ≠ 0)), 10 :: rest) := by
  simp only [scan_line, takeWhile_line s rest hnl, List.take_of_length_le hlen, hne, if_false,
    List.drop_left]

theorem scan_line_long (w : Nat) (s rest : List Nat) (hw : 0 < w) (hlen : w < s.length)
    (hnl : 10 ∉ s) :
    scan_line w (s ++ 10 :: rest) =
      some ((s.take w).takeWhile (fun c => decide (c ≠ 0)), s.drop w ++ 10 :: rest) := by
  have hne : s.take w ≠ [] := by
    intro h
    have := congrArg List.length h
    simp only [List.length_take, List.length_nil] at this
    omega
  have hl : (s.take w).length = w := by
    simp only [List.length_take]; omega
  simp only [scan_line, takeWhile_line s rest hnl, hne, if_false, hl]
  rw [List.drop_append_of_le_length (by omega)]


theorem db_load_loop_none (fuel fuel' : Nat) (inp inp' : List Nat) (alloc : Nat → Bool)
    (i : Nat) (cur : Repository) (d : RepositoryDB)
    (h1 : fscanf_record inp = none) (h2 : fscanf_record inp' = none) :
    db_load_loop (fuel + 1) inp alloc i cur d = db_load_loop (fuel' + 1) inp' alloc i cur d := by
  simp only [db_load_loop, h1, h2]

theorem db_load_loop_step (fuel fuel' : Nat) (inp inp' rest rest' : List Nat) (sc : Scanned)
    (h1 : fscanf_record inp = some (sc, rest)) (h2 : fscanf_record inp' = some (sc, rest'))
    (hrec : ∀ (alloc : Nat → Bool) (i : Nat) (cur : Repository) (d : RepositoryDB),
      db_load_loop fuel rest alloc i cur d = db_load_loop fuel' rest' alloc i cur d)
    (alloc : Nat → Bool) (i : Nat) (cur : Repository) (d : RepositoryDB) :
    db_load_loop (fuel + 1) inp alloc i cur d = db_load_loop (fuel' + 1) inp' alloc i cur d := by
  simp only [db_load_loop, h1, h2, hrec]

theorem db_load_loop_fuel : ∀ (fuel fuel' : Nat) (inp : List Nat),
    inp.length < fuel → inp.length < fuel' →
    ∀ (alloc : Nat → Bool) (i : Nat) (cur : Repository) (d : RepositoryDB),
      db_load_loop fuel inp alloc i cur d = db_load_loop fuel' inp alloc i cur d := by
  intro fuel
  induction fuel with
  | zero => intro fuel' inp h; omega
  | succ n ih =>
    intro fuel' inp h1 h2 alloc i cur d
    match fuel', h2 with
    | m + 1, h2 =>
      cases hs : fscanf_record inp with
      | none => exact db_load_loop_none n m inp inp alloc i cur d hs hs
      | some p =>
        obtain ⟨sc, rest⟩ := p
        have hl := fscanf_record_length inp sc rest hs
        exact db_load_loop_step n m inp inp rest rest sc hs hs
          (ih m rest (by omega) (by omega)) alloc i cur d

theorem db_load_loop_congr (fuel fuel' : Nat) (inp inp' : List Nat)
    (h1 : inp.length < fuel) (h2 : inp'.length < fuel')
    (hs : fscanf_record inp = fscanf_record inp')
    (alloc : Nat → Bool) (i : Nat) (cur : Repository) (d : RepositoryDB) :
    db_load_loop fuel inp alloc i cur d = db_load_loop fuel' inp' alloc i cur d := by
  match fuel, fuel', h1, h2 with
  | n + 1, m + 1, h1, h2 =>
    cases hs2 : fscanf_record inp' with
    | none => exact db_load_loop_none n m inp inp' alloc i cur d (hs.trans hs2) hs2
    | some p =>
      obtain ⟨sc, rest⟩ := p
      have hl := fscanf_record_length inp' sc rest hs2
      have hl2 := fscanf_record_length inp sc rest (hs.trans hs2)
      exact db_load_loop_step n m inp inp' rest rest sc (hs.trans hs2) hs2
        (db_load_loop_fuel n m rest (by omega) (by omega)) alloc i cur d

theorem db_load_loop_records_congr : ∀ (pre : List Repository) (y y' : List Nat),
    (∀ r ∈ pre, storable r) → skip_space y = y → skip_space y' = y' →
    fscanf_record y = fscanf_record y' →
    ∀ (fuel fuel' : Nat), (records_text pre ++ y).length < fuel →
      (records_text pre ++ y').length < fuel' →
    ∀ (alloc : Nat → Bool) (i : Nat) (cur : Repository) (d : RepositoryDB),
      db_load_loop fuel (records_text pre ++ y) alloc i cur d =
        db_load_loop fuel' (records_text pre ++ y') alloc i cur d := by
  intro pre
  induction pre with
  | nil =>
    intro y y' _ _ _ hs fuel fuel' h1 h2 alloc i cur d
    simp only [records_text, List.flatMap_nil, List.nil_append] at h1 h2 ⊢
    exact db_load_loop_congr fuel fuel' y y' h1 h2 hs alloc i cur d
  | cons r t ih =>
    intro y y' hst hy hy' hs fuel fuel' h1 h2 alloc i cur d
    have hr : storable r := hst r (by simp)
    have ht : ∀ x ∈ t, storable x := fun x hx => hst x (List.mem_cons_of_mem _ hx)
    have hsplit : ∀ z : List Nat, records_text (r :: t) ++ z =
        fprintf_record r ++ (records_text t ++ z) := by
      intro z
      simp only [records_text, List.flatMap_cons, List.append_assoc]
    have hhead : ∀ z : List Nat, skip_space z = z →
        skip_space (records_text t ++ z) = records_text t ++ z := by
      intro z hz
      cases t with
      | nil => simpa [records_text] using hz
      | cons a u =>
        have ha : storable a := ht a (by simp)
        have : records_text (a :: u) ++ z = fprintf_record a ++ (records_text u ++ z) := by
          simp only [records_text, List.flatMap_cons, List.append_assoc]
        rw [this]
        exact fprintf_record_head a _ ha
    rw [hsplit] at h1 h2 ⊢
    rw [hsplit]
    have e1 := fscanf_record_print r (records_text t ++ y) hr
    have e2 := fscanf_record_print r (records_text t ++ y') hr
    rw [hhead y hy] at e1
    rw [hhead y' hy'] at e2
    have l1 := fscanf_record_length _ _ _ e1
    have l2 := fscanf_record_length _ _ _ e2
    obtain ⟨n, hn⟩ : ∃ n, fuel = n + 1 := ⟨fuel - 1, by omega⟩
    obtain ⟨m, hm⟩ : ∃ m, fuel' = m + 1 := ⟨fuel' - 1, by omega⟩
    subst hn hm
    exact db_load_loop_step n m (fprintf_record r ++ (records_text t ++ y))
      (fprintf_record r ++ (records_text t ++ y')) (records_text t ++ y)
      (records_text t ++ y') (scanned_of r) e1 e2
      (ih y y' ht hy hy' hs n m (by omega) (by omega)) alloc i cur d

theorem db_load_from_file_congr (pre : List Repository) (y y' : List Nat)
    (hst : ∀ r ∈ pre, storable r) (hy : skip_space y = y) (hy' : skip_space y' = y')
    (hs : fscanf_record y = fscanf_record y')
    (d : RepositoryDB) (f : CStr) (alloc : Nat → Bool) (cur : Repository) :
    db_load_from_file (some d) (some f) (fun _ => some (records_text pre ++ y)) alloc cur =
      db_load_from_file (some d) (some f) (fun _ => some (records_text pre ++ y')) alloc
        cur := by
  simp only [db_load_from_file]
  split_ifs with h
  · rfl
  · rw [db_load_loop_records_congr pre y y' hst hy hy' hs _ _ (Nat.lt_succ_self _)
      (Nat.lt_succ_self _)]


theorem reads_back_take (s : CStr) (n : Nat) (hs : reads_back s) :
    reads_back (s.take (n + 1)) := by
  obtain ⟨x, t, hx, hsp⟩ := hs
  exact ⟨x, t.take n, by rw [hx, List.take_succ_cons], hsp⟩

theorem skip_space_reads_back (s rest : List Nat) (hs : reads_back s) :
    skip_space (s ++ rest) = s ++ rest := by
  obtain ⟨x, t, hx, hsp⟩ := hs
  rw [hx, List.cons_append]
  exact skip_space_cons x _ hsp

theorem fscanf_record_long_site (k : Int) (s rest : List Nat)
    (hk : 0 ≤ k ∧ k < DIRECTION_COUNT) (hlen : 99 < s.length) (hnl : 10 ∉ s)
    (hs : reads_back s) :
    fscanf_record (direction_to_string k ++ 10 :: (s ++ 10 :: rest)) =
      fscanf_record (direction_to_string k ++ 10 ::
        (s.take 99 ++ 10 :: (s.drop 99 ++ 10 :: rest))) := by
  obtain ⟨dn1, dn2, dn3, dn4, _, _, _⟩ := dir_name_props k hk.1 hk.2
  have hne : s.take 99 ≠ [] := by
    intro h
    have := congrArg List.length h
    simp only [List.length_take, List.length_nil] at this
    omega
  unfold fscanf_record
  rw [scan_line_text 49 _ (s ++ 10 :: rest) dn1 dn2 dn3 dn4,
    scan_line_text 49 _ (s.take 99 ++ 10 :: (s.drop 99 ++ 10 :: rest)) dn1 dn2 dn3 dn4]
  simp only
  rw [skip_sep_line s _ hs, skip_sep_line (s.take 99) _ (reads_back_take s 98 hs),
    scan_line_long 99 s rest (by decide) hlen hnl,
    scan_line_run 99 (s.take 99) _ hne (by simp only [List.length_take]; omega)
      (fun h => hnl (List.mem_of_mem_take h))]
  simp only
  rw [skip_space_newline]

theorem fscanf_record_long_name (k : Int) (t s rest : List Nat)
    (hk : 0 ≤ k ∧ k < DIRECTION_COUNT) (ht : line_text t ∧ reads_back t)
    (hlen : 99 < s.length) (hnl : 10 ∉ s) (hs : reads_back s) :
    fscanf_record (direction_to_string k ++ 10 :: (t ++ 10 :: (s ++ 10 :: rest))) =
      fscanf_record (direction_to_string k ++ 10 ::
        (t ++ 10 :: (s.take 99 ++ 10 :: (s.drop 99 ++ 10 :: rest)))) := by
  obtain ⟨dn1, dn2, dn3, dn4, _, _, _⟩ := dir_name_props k hk.1 hk.2
  obtain ⟨⟨t1, t2, t3⟩, t4⟩ := ht
  have htne : t ≠ [] := by
    obtain ⟨x, u, hx, _⟩ := t4; rw [hx]; simp
  have hne : s.take 99 ≠ [] := by
    intro h
    have := congrArg List.length h
    simp only [List.length_take, List.length_nil] at this
    omega
  unfold fscanf_record
  rw [scan_line_text 49 _ (t ++ 10 :: (s ++ 10 :: rest)) dn1 dn2 dn3 dn4,
    scan_line_text 49 _ (t ++ 10 :: (s.take 99 ++ 10 :: (s.drop 99 ++ 10 :: rest)))
      dn1 dn2 dn3 dn4]
  simp only
  rw [skip_sep_line t _ t4, skip_sep_line t _ t4,
    scan_line_text 99 t (s ++ 10 :: rest) htne t2 t1 t3,
    scan_line_text 99 t (s.take 99 ++ 10 :: (s.drop 99 ++ 10 :: rest)) htne t2 t1 t3]
  simp only
  rw [skip_sep_line s _ hs, skip_sep_line (s.take 99) _ (reads_back_take s 98 hs),
    scan_line_long 99 s rest (by decide) hlen hnl,
    scan_line_run 99 (s.take 99) _ hne (by simp only [List.length_take]; omega)
      (fun h => hnl (List.mem_of_mem_take h))]
  simp only
  rw [skip_space_newline]

theorem fscanf_record_long_site_none (k : Int) (s rest : List Nat)
    (hk : 0 ≤ k ∧ k < DIRECTION_COUNT) (hlen : 99 < s.length) (hnl : 10 ∉ s)
    (hs : reads_back s) (hmax : s.length ≤ 198) (ho : reads_back (s.drop 99))
    (hnum : scan_int rest = none) :
    fscanf_record (direction_to_string k ++ 10 :: (s ++ 10 :: rest)) = none := by
  obtain ⟨dn1, dn2, dn3, dn4, _, _, _⟩ := dir_name_props k hk.1 hk.2
  have hone : s.drop 99 ≠ [] := by
    obtain ⟨x, u, hx, _⟩ := ho; rw [hx]; simp
  unfold fscanf_record
  rw [scan_line_text 49 _ (s ++ 10 :: rest) dn1 dn2 dn3 dn4]
  simp only
  rw [skip_sep_line s _ hs, scan_line_long 99 s rest (by decide) hlen hnl]
  simp only
  rw [skip_space_reads_back _ _ ho,
    scan_line_run 99 (s.drop 99) rest hone (by simp only [List.length_drop]; omega)
      (fun h => hnl (List.mem_of_mem_drop h))]
  simp only
  rw [skip_space_newline, scan_int_skip, hnum]

theorem fscanf_record_long_name_none (k : Int) (t s rest : List Nat)
    (hk : 0 ≤ k ∧ k < DIRECTION_COUNT) (ht : line_text t ∧ reads_back t)
    (hlen : 99 < s.length) (hnl : 10 ∉ s) (hs : reads_back s)
    (hnum : scan_int (s.drop 99 ++ 10 :: rest) = none) :
    fscanf_record (direction_to_string k ++ 10 :: (t ++ 10 :: (s ++ 10 :: rest))) = none := by
  obtain ⟨dn1, dn2, dn3, dn4, _, _, _⟩ := dir_name_props k hk.1 hk.2
  obtain ⟨⟨t1, t2, t3⟩, t4⟩ := ht
  have htne : t ≠ [] := by
    obtain ⟨x, u, hx, _⟩ := t4; rw [hx]; simp
  unfold fscanf_record
  rw [scan_line_text 49 _ (t ++ 10 :: (s ++ 10 :: rest)) dn1 dn2 dn3 dn4]
  simp only
  rw [skip_sep_line t _ t4, scan_line_text 99 t (s ++ 10 :: rest) htne t2 t1 t3]
  simp only
  rw [skip_sep_line s _ hs, scan_line_long 99 s rest (by decide) hlen hnl]
  simp only
  rw [scan_int_skip, hnum]

theorem load_stops_of_none (pre : List Repository) (y : List Nat)
    (hst : ∀ r ∈ pre, storable r) (hy : skip_space y = y) (hnone : fscanf_record y = none) :
    load_stops_after pre (records_text pre ++ y) := by
  intro d f cur
  constructor
  · intro hpre alloc
    subst hpre
    simp only [records_text, List.flatMap_nil, List.nil_append]
    obtain ⟨c, d1, hrun, hres⟩ :=
      db_load_from_file_spec d f (fun _ => some y) alloc cur y rfl
    rcases hres with ⟨h0, h1⟩ | ⟨_, h2, h3, h4, _⟩
    · rw [hrun, h0, h1]
    · exfalso
      have h3b : d1.count = (d1.records.length : Int) := h3
      simp only [scan_all, hnone, List.map_nil] at h2
      rw [h2] at h3b
      exact h4 (by simpa using h3b)
  · intro hpre alloc hal
    obtain ⟨d1, hrun, h2, h3⟩ :=
      save_load_round_trip pre hpre hst y (by rw [hy]; exact hnone) d f
        (fun _ => some (records_text pre ++ y)) alloc cur rfl hal
    refine ⟨d1, hrun, h2, ?_⟩
    have h3b : d1.count = (d1.records.length : Int) := h3
    rw [h3b, h2]

/-! ## Claims -/

/-- C1: `validate_date` returns non-zero exactly for the dates with year in
1900..2100, month in 1..12 and day between 1 and the length of the month
(February has 29 days in a leap year, otherwise 28); 29.02.2023 is rejected,
29.02.2024 accepted, and the years 1899 and 2101 are rejected. -/
theorem C1_validate_date_calendar :
    (∀ d : Date, validate_date d ≠ 0 ↔
      (1900 ≤ d.year ∧ d.year ≤ 2100 ∧ 1 ≤ d.month ∧ d.month ≤ 12 ∧
        1 ≤ d.day ∧ d.day ≤ month_length d.year d.month)) ∧
    validate_date ⟨29, 2, 2023⟩ = 0 ∧ validate_date ⟨29, 2, 2024⟩ ≠ 0 ∧
    (∀ day month : Int, validate_date ⟨day, month, 1899⟩ = 0) ∧
    (∀ day month : Int, validate_date ⟨day, month, 2101⟩ = 0) := by
  refine ⟨validate_date_iff, by decide, by decide, ?_, ?_⟩
  · intro day month; simp [validate_date]
  · intro day month; simp [validate_date]

/-- C2: on two dates accepted by `validate_date`, `compare_dates` is negative,
zero or positive exactly when the triple (year, month, day) of the first is
lexicographically less than, equal to, or greater than that of the second. -/
theorem C2_compare_dates_lexicographic (a b : Date)
    (ha : validate_date a ≠ 0) (hb : validate_date b ≠ 0) :
    (compare_dates a b < 0 ↔ date_lex_lt a b) ∧
    (compare_dates a b = 0 ↔ (a.year = b.year ∧ a.month = b.month ∧ a.day = b.day)) ∧
    (0 < compare_dates a b ↔ date_lex_lt b a) := by
  obtain ⟨a1, a2, a3, a4, a5, a6⟩ := (validate_date_iff a).1 ha
  obtain ⟨b1, b2, b3, b4, b5, b6⟩ := (validate_date_iff b).1 hb
  have la := month_length_le a.year a.month
  have lb := month_length_le b.year b.month
  unfold compare_dates date_lex_lt
  rw [wrap32_of_small (a.year - b.year) (by omega) (by omega),
    wrap32_of_small (a.month - b.month) (by omega) (by omega),
    wrap32_of_small (a.day - b.day) (by omega) (by omega)]
  split_ifs with h1 h2 <;> refine ⟨?_, ?_, ?_⟩ <;> constructor <;> intro h <;> omega

theorem C2_compare_dates_lexicographic_witness :
    validate_date ⟨10, 1, 2024⟩ ≠ 0 ∧ validate_date ⟨9, 2, 2024⟩ ≠ 0 ∧
    ((compare_dates ⟨10, 1, 2024⟩ ⟨9, 2, 2024⟩ < 0 ↔
        date_lex_lt ⟨10, 1, 2024⟩ ⟨9, 2, 2024⟩) ∧
      (compare_dates ⟨10, 1, 2024⟩ ⟨9, 2, 2024⟩ = 0 ↔
        ((2024 : Int) = 2024 ∧ (1 : Int) = 2 ∧ (10 : Int) = 9)) ∧
      (0 < compare_dates ⟨10, 1, 2024⟩ ⟨9, 2, 2024⟩ ↔
        date_lex_lt ⟨9, 2, 2024⟩ ⟨10, 1, 2024⟩)) :=
  ⟨by decide, by decide,
    C2_compare_dates_lexicographic ⟨10, 1, 2024⟩ ⟨9, 2, 2024⟩ (by decide) (by decide)⟩

/-- C3: for each of the 5 directions `d`,
`string_to_direction(direction_to_string(d))` succeeds and yields `d`, and for
each of the 4 compatibilities `c`, `string_to_compatibility` of
`compatibility_to_string(c)` succeeds and yields `c`; the two name tables are
injective, and a string the parser accepts with result `d` (or `c`) is the
name of `d` (of `c`). -/
theorem C3_enum_string_conversions_inverse (d : Direction) (c : Compatibility)
    (r : Direction) (r' : Compatibility)
    (hd : 0 ≤ d ∧ d < DIRECTION_COUNT) (hc : 0 ≤ c ∧ c < COMPAT_COUNT) :
    string_to_direction (some (direction_to_string d)) (some r) = (1, some d) ∧
    string_to_compatibility (some (compatibility_to_string c)) (some r') = (1, some c) ∧
    (∀ d2 : Direction, 0 ≤ d2 ∧ d2 < DIRECTION_COUNT →
      direction_to_string d2 = direction_to_string d → d2 = d) ∧
    (∀ c2 : Compatibility, 0 ≤ c2 ∧ c2 < COMPAT_COUNT →
      compatibility_to_string c2 = compatibility_to_string c → c2 = c) ∧
    (∀ s : CStr, is_cstr s → string_to_direction (some s) (some r) = (1, some d) →
      direction_to_string d = s) ∧
    (∀ s : CStr, is_cstr s → string_to_compatibility (some s) (some r') = (1, some c) →
      compatibility_to_string c = s) := by
  obtain ⟨hd0, hd1⟩ := hd
  obtain ⟨hc0, hc1⟩ := hc
  have hd5 : d < 5 := hd1
  have hc4 : c < 4 := hc1
  refine ⟨?_, ?_, ?_, ?_, ?_, ?_⟩
  · interval_cases d <;> rfl
  · interval_cases c <;> rfl
  · rintro d2 ⟨h0, h1⟩ he
    have h5 : d2 < 5 := h1
    interval_cases d <;> interval_cases d2 <;> first | rfl | (exact absurd he (by decide))
  · rintro c2 ⟨h0, h1⟩ he
    have h4 : c2 < 4 := h1
    interval_cases c <;> interval_cases c2 <;> first | rfl | (exact absurd he (by decide))
  · intro s hs h
    rcases string_to_direction_cases s hs r with ⟨k, hk, he, hr⟩ | ⟨_, hr⟩
    · rw [hr] at h
      have hkd : (k : Int) = d := by simpa using h
      subst hkd
      rw [he]
      simp [direction_to_string, DIRECTION_COUNT, hk]
    · rw [hr] at h
      simp at h
  · intro s hs h
    rcases string_to_compatibility_cases s hs r' with ⟨k, hk, he, hr⟩ | ⟨_, hr⟩
    · rw [hr] at h
      have hkc : (k : Int) = c := by simpa using h
      subst hkc
      rw [he]
      simp [compatibility_to_string, COMPAT_COUNT, hk]
    · rw [hr] at h
      simp at h

theorem C3_enum_string_conversions_inverse_witness :
    ((0 : Int) ≤ DIRECTION_DEVOPS ∧ DIRECTION_DEVOPS < DIRECTION_COUNT) ∧
    ((0 : Int) ≤ COMPAT_MACOS ∧ COMPAT_MACOS < COMPAT_COUNT) ∧
    string_to_direction (some (direction_to_string DIRECTION_DEVOPS)) (some 0)
      = (1, some DIRECTION_DEVOPS) ∧
    string_to_compatibility (some (compatibility_to_string COMPAT_MACOS)) (some 0)
      = (1, some COMPAT_MACOS) :=
  ⟨by decide, by decide,
    (C3_enum_string_conversions_inverse DIRECTION_DEVOPS COMPAT_MACOS 0 0
      (by decide) (by decide)).1,
    (C3_enum_string_conversions_inverse DIRECTION_DEVOPS COMPAT_MACOS 0 0
      (by decide) (by decide)).2.1⟩

/-- C4: for a C string `s`, `string_to_direction` fails (returns 0) exactly
when `s` is none of "Backend", "Frontend", "Mobile", "DevOps", "DataScience";
on failure the output direction keeps its value, on success it is the table
index of `s`. The variants "backend", " Backend" and "Backend " are rejected. -/
theorem C4_string_to_direction_exact_match (s : CStr) (r : Direction) (hs : is_cstr s) :
    ((string_to_direction (some s) (some r)).1 = 0 ↔
      (s ≠ cstr "Backend" ∧ s ≠ cstr "Frontend" ∧ s ≠ cstr "Mobile" ∧
        s ≠ cstr "DevOps" ∧ s ≠ cstr "DataScience")) ∧
    ((string_to_direction (some s) (some r)).1 = 0 →
      (string_to_direction (some s) (some r)).2 = some r) ∧
    ((string_to_direction (some s) (some r)).1 ≠ 0 →
      ∃ i : Nat, i < 5 ∧ dir_names.getD i [] = s ∧
        string_to_direction (some s) (some r) = (1, some (i : Int))) ∧
    string_to_direction (some (cstr "backend")) (some r) = (0, some r) ∧
    string_to_direction (some (cstr " Backend")) (some r) = (0, some r) ∧
    string_to_direction (some (cstr "Backend ")) (some r) = (0, some r) := by
  refine ⟨?_, ?_, ?_, rfl, rfl, rfl⟩
  · rcases string_to_direction_cases s hs r with ⟨k, hk, he, hr⟩ | ⟨hne, hr⟩
    · rw [hr]
      constructor
      · intro h; simp at h
      · rintro ⟨h0, h1, h2, h3, h4⟩
        exfalso
        interval_cases k
        · exact h0 he
        · exact h1 he
        · exact h2 he
        · exact h3 he
        · exact h4 he
    · rw [hr]
      constructor
      · intro _
        exact ⟨hne 0 (by omega), hne 1 (by omega), hne 2 (by omega), hne 3 (by omega),
          hne 4 (by omega)⟩
      · intro _; rfl
  · rcases string_to_direction_cases s hs r with ⟨k, hk, he, hr⟩ | ⟨hne, hr⟩
    · rw [hr]; intro h; simp at h
    · rw [hr]; intro _; rfl
  · rcases string_to_direction_cases s hs r with ⟨k, hk, he, hr⟩ | ⟨hne, hr⟩
    · intro _; exact ⟨k, hk, he.symm, hr⟩
    · rw [hr]; intro h; simp at h

theorem C4_string_to_direction_exact_match_witness :
    is_cstr (cstr "Mobile") ∧
    ((string_to_direction (some (cstr "Mobile")) (some 0)).1 ≠ 0 →
      ∃ i : Nat, i < 5 ∧ dir_names.getD i [] = cstr "Mobile" ∧
        string_to_direction (some (cstr "Mobile")) (some 0) = (1, some (i : Int))) :=
  ⟨by decide, (C4_string_to_direction_exact_match (cstr "Mobile") 0 (by decide)).2.2.1⟩

/-- C6: for a non-NULL store and record, `db_add_record` returns failure only
when growth is needed (`count >= capacity`) and the allocation fails, and then
the store (count, capacity and every record) is as it was before the call. -/
theorem C6_add_record_failure_keeps_store (d : RepositoryDB) (r : Repository) (ok : Bool)
    (c : Int) (d1 : Option RepositoryDB)
    (h : db_add_record (some d) (some r) ok = .returns (c, d1)) (hc : c = 0) :
    (d.count ≥ d.capacity ∧ ok = false) ∧ d1 = some d := by
  obtain ⟨d2, hd, hrun⟩ := (db_add_record_some d r ok c d1).1 h
  obtain ⟨h1, h2, h3⟩ := add_nonnull_fail d r ok c d2 hrun hc
  exact ⟨⟨h1, h2⟩, by rw [hd, h3]⟩

theorem C6_add_record_failure_keeps_store_witness :
    db_add_record (some full_store) (some other_record) false =
      .returns (0, some full_store) ∧
    (full_store.count ≥ full_store.capacity ∧ false = false) ∧
    some full_store = some full_store :=
  ⟨by decide,
    C6_add_record_failure_keeps_store full_store other_record false 0 (some full_store)
      (by decide) rfl⟩


/-- C7 as stated fails: `db_add_record` admits any record, so after `db_init`
one call with a record of size 0 gives a store holding an invalid record. -/
theorem C7_counterexample :
    Reachable (fun _ => True)
      { records := [zero_size_record], count := 1, capacity := 10 } ∧
    zero_size_record ∈
      ({ records := [zero_size_record], count := 1, capacity := 10 } : RepositoryDB).records ∧
    ¬ valid_record zero_size_record :=
  ⟨Reachable.add { records := [], count := 0, capacity := 10 } _ zero_size_record true 1
      (Reachable.init { records := [], count := 0, capacity := 0 } _ (by decide))
      trivial (by decide),
    by decide, by decide⟩

/-- C7, amended: in every store state reached from a successful `db_init` by
calls of `db_add_record` with valid records, of `db_load_from_file` and of
`db_sort_bubble`, each of which stays inside the buffer, `count` is the number
of records held, 0 <= count <= capacity, and every record held is valid (size
> 0, dependencies >= 0, valid date, direction among the 5 and compatibility
among the 4 enumerators). From such a state every call of `db_load_from_file`
and of `db_sort_bubble` stays inside the buffer, and so does every call of
`db_add_record` but one: on a store of capacity 0 (the state a failed load
leaves) with `realloc` giving a buffer, the call writes outside the buffer
and the sequence is not followed further. -/
theorem C7_reachable_records_valid (d : RepositoryDB) (h : Reachable valid_record d) :
    consistent d ∧ (∀ r ∈ d.records, valid_record r) ∧
    (0 ≤ d.count ∧ d.count ≤ d.capacity) ∧
    (∀ (r : Repository) (ok : Bool), (d.capacity ≠ 0 ∨ ok = false) →
      ∃ (c : Int) (d1 : RepositoryDB),
        db_add_record (some d) (some r) ok = .returns (c, some d1)) ∧
    (∀ r : Repository, d.capacity = 0 →
      db_add_record (some d) (some r) true = .undefined) ∧
    (∀ (name : Option CStr) (fopen : CStr → Option (List Nat)) (alloc : Nat → Bool)
      (cur : Repository), ∃ (c : Int) (d1 : RepositoryDB),
        db_load_from_file (some d) name fopen alloc cur = .returns (c, some d1)) ∧
    (∃ d1 : RepositoryDB, db_sort_bubble (some d) = (1, some d1)) := by
  have inv : consistent d ∧ (∀ r ∈ d.records, valid_record r) ∧ d.count ≤ d.capacity := by
    induction h with
    | init d0 d hinit =>
      simp only [db_init, db_init_nonnull, Prod.mk.injEq, Option.some.injEq] at hinit
      obtain ⟨_, hd⟩ := hinit
      subst hd
      refine ⟨rfl, fun r hr => (by cases hr), ?_⟩
      show (0 : Int) ≤ INITIAL_CAPACITY
      decide
    | add d d1 r ok c _ hr hadd ih =>
      obtain ⟨hc, hv, hb⟩ := ih
      obtain ⟨d2, hd, hrun⟩ := (db_add_record_some d r ok c (some d1)).1 hadd
      have hd2 : d1 = d2 := by simpa using hd
      subst hd2
      have hcons : d.count = (d.records.length : Int) := hc
      rcases add_nonnull_cases d r ok c d1 hc hrun with
        ⟨_, h1, _⟩ | ⟨_, h2, h3, h4⟩
      · rw [h1]; exact ⟨hc, hv, hb⟩
      · refine ⟨?_, ?_, ?_⟩
        · unfold consistent at hc ⊢
          rw [h3, h2, hc]; simp
        · intro x hx
          rw [h2] at hx
          rcases List.mem_append.1 hx with hx | hx
          · exact hv x hx
          · rw [List.mem_singleton.1 hx]; exact hr
        · rcases h4 with ⟨h5, h6⟩ | ⟨h5, h6, h7⟩
          · rw [h3, h6]; omega
          · subst h6
            by_cases hin : 0 ≤ d.count ∧ d.count < d.capacity * 2
            · rw [h3, h7]; omega
            · rw [add_grow_undefined d r h5 hin] at hrun
              cases hrun
    | load d d1 name fopen alloc cur c _ hload ih =>
      obtain ⟨hc, hv, hb⟩ := ih
      obtain ⟨c2, d2, hrun, hres⟩ := db_load_from_file_cases d name fopen alloc cur
      rw [hrun] at hload
      simp only [Outcome.returns.injEq, Prod.mk.injEq, Option.some.injEq] at hload
      obtain ⟨_, hd⟩ := hload
      subst hd
      rcases hres with ⟨_, _, h1⟩ | ⟨_, _, h1⟩ | ⟨_, f, content, hn, hopen, h2, h3, _, h5⟩
      · rw [h1]; exact ⟨hc, hv, hb⟩
      · rw [h1]; exact ⟨rfl, fun r hr => (by cases hr), by decide⟩
      · refine ⟨h3, ?_, ?_⟩
        · intro x hx
          rw [h2] at hx
          obtain ⟨sc, hsc, he⟩ := List.mem_map.1 hx
          rw [← he]
          exact valid_record_of_scanned sc (h5 sc hsc)
        · obtain ⟨c3, d3, hrun3, hres3⟩ :=
            db_load_from_file_spec d f fopen alloc cur content hopen
          rw [hn, hrun3] at hrun
          simp only [Outcome.returns.injEq, Prod.mk.injEq, Option.some.injEq] at hrun
          obtain ⟨_, hd3⟩ := hrun
          subst hd3
          rcases hres3 with ⟨_, h1⟩ | ⟨_, _, _, _, _, h6, _⟩
          · rw [h1]
          · exact h6
    | sort d d1 c _ hsort ih =>
      obtain ⟨hc, hv, hb⟩ := ih
      simp only [db_sort_bubble, Prod.mk.injEq, Option.some.injEq] at hsort
      obtain ⟨_, hd⟩ := hsort
      subst hd
      obtain ⟨_, hp, hcnt, hcap⟩ := db_sort_bubble_nonnull_perm d
      refine ⟨?_, ?_, ?_⟩
      · unfold consistent at hc ⊢
        rw [hcnt, hp.length_eq, hc]
      · intro x hx
        exact hv x (hp.mem_iff.1 hx)
      · rw [hcnt, hcap]; exact hb
  obtain ⟨hc, hv, hb⟩ := inv
  have hcons : d.count = (d.records.length : Int) := hc
  refine ⟨hc, hv, ⟨by omega, hb⟩, ?_, ?_, ?_, ?_⟩
  · intro r ok hok
    by_cases hlt : d.count < d.capacity
    · exact ⟨1, _, (db_add_record_some d r ok 1 _).2 ⟨_, rfl, add_in_bounds d r ok hc hlt⟩⟩
    · cases ok with
      | false =>
        exact ⟨0, d, (db_add_record_some d r false 0 _).2
          ⟨_, rfl, add_grow_fail d r (by omega)⟩⟩
      | true =>
        have hne : d.capacity ≠ 0 := by
          rcases hok with h | h
          · exact h
          · cases h
        exact ⟨1, _, (db_add_record_some d r true 1 _).2
          ⟨_, rfl, add_grow_ok d r hc (by omega) (by omega)⟩⟩
  · intro r h0
    have hu := add_grow_undefined d r (by omega) (by omega)
    simp only [db_add_record, hu, Outcome.map]
  · intro name fopen alloc cur
    obtain ⟨c, d1, hrun, _⟩ := db_load_from_file_cases d name fopen alloc cur
    exact ⟨c, d1, hrun⟩
  · obtain ⟨h1, _, _, _⟩ := db_sort_bubble_nonnull_perm d
    exact ⟨(db_sort_bubble_nonnull d).2, by simp only [db_sort_bubble, h1]⟩

theorem C7_reachable_records_valid_witness :
    Reachable valid_record { records := [sample_record], count := 1, capacity := 10 } ∧
    consistent { records := [sample_record], count := 1, capacity := 10 } ∧
    ∀ r ∈ ({ records := [sample_record], count := 1, capacity := 10 } : RepositoryDB).records,
      valid_record r :=
  have hreach : Reachable valid_record
      { records := [sample_record], count := 1, capacity := 10 } :=
    Reachable.add { records := [], count := 0, capacity := 10 } _ sample_record true 1
      (Reachable.init { records := [], count := 0, capacity := 0 } _ (by decide))
      (by decide) (by decide)
  ⟨hreach, (C7_reachable_records_valid _ hreach).1, (C7_reachable_records_valid _ hreach).2.1⟩


/-- C8: whenever `db_load_from_file` returns success, the file was opened and
the store holds exactly the records parsed from its content, in input order,
whatever it held before; `count` is their number and is at least 1; and every
loaded record has size > 0, dependencies >= 0, a date `validate_date` accepts
and direction and compatibility names found in the tables. -/
theorem C8_load_success_content (db : Option RepositoryDB) (name : Option CStr)
    (fopen : CStr → Option (List Nat)) (alloc : Nat → Bool) (cur : Repository)
    (c : Int) (d1 : Option RepositoryDB)
    (h : db_load_from_file db name fopen alloc cur = .returns (c, d1)) (hc : c ≠ 0) :
    ∃ (f : CStr) (content : List Nat) (d2 : RepositoryDB),
      name = some f ∧ fopen f = some content ∧ d1 = some d2 ∧
      d2.records = (scan_all (content.length + 1) content).map record_of ∧
      d2.count = (d2.records.length : Int) ∧ d2.count ≥ 1 ∧
      (∀ r ∈ d2.records, r.size > 0 ∧ r.dependencies ≥ 0 ∧
        validate_date r.release_date ≠ 0) ∧
      (∀ sc ∈ scan_all (content.length + 1) content,
        sc.dir_str ∈ dir_names ∧ sc.compat_str ∈ compat_names) ∧
      (∀ fuel : Nat, content.length < fuel →
        scan_all fuel content = scan_all (content.length + 1) content) := by
  cases db with
  | none =>
    simp only [db_load_from_file, Outcome.returns.injEq, Prod.mk.injEq] at h
    exact absurd h.1.symm hc
  | some d =>
    obtain ⟨c2, d2, hrun, hres⟩ := db_load_from_file_cases d name fopen alloc cur
    rw [hrun] at h
    simp only [Outcome.returns.injEq, Prod.mk.injEq] at h
    obtain ⟨hcc, hd⟩ := h
    subst hcc
    rcases hres with ⟨h0, _⟩ | ⟨h0, _⟩ | ⟨_, f, content, hn, ho, h2, h3, h4, h5⟩
    · exact absurd h0 hc
    · exact absurd h0 hc
    · refine ⟨f, content, d2, hn, ho, hd.symm, h2, h3, ?_, ?_, ?_, ?_⟩
      · have h3b : d2.count = (d2.records.length : Int) := h3
        omega
      · intro r hr
        rw [h2] at hr
        obtain ⟨sc, hsc, he⟩ := List.mem_map.1 hr
        have hv := valid_record_of_scanned sc (h5 sc hsc)
        rw [he] at hv
        exact ⟨hv.1, hv.2.1, hv.2.2.1⟩
      · intro sc hsc
        exact ⟨(h5 sc hsc).1, (h5 sc hsc).2.1⟩
      · intro fuel hf
        exact scan_all_fuel fuel (content.length + 1) content hf (by omega)

theorem C8_load_success_content_witness :
    db_load_from_file (some full_store) (some (cstr "db.txt"))
      (fun _ => some (sample_text ++ other_text)) (fun _ => true) zero_size_record =
      .returns (1, some { records := [sample_record, other_record], count := 2,
                          capacity := 10 }) ∧
    ∃ (f : CStr) (content : List Nat) (d2 : RepositoryDB),
      some (cstr "db.txt") = some f ∧
      (fun _ => some (sample_text ++ other_text) : CStr → Option (List Nat)) f = some content ∧
      some ({ records := [sample_record, other_record], count := 2, capacity := 10 } :
        RepositoryDB) = some d2 ∧
      d2.records = (scan_all (content.length + 1) content).map record_of ∧
      d2.count = (d2.records.length : Int) ∧ d2.count ≥ 1 ∧
      (∀ r ∈ d2.records, r.size > 0 ∧ r.dependencies ≥ 0 ∧
        validate_date r.release_date ≠ 0) ∧
      (∀ sc ∈ scan_all (content.length + 1) content,
        sc.dir_str ∈ dir_names ∧ sc.compat_str ∈ compat_names) ∧
      (∀ fuel : Nat, content.length < fuel →
        scan_all fuel content = scan_all (content.length + 1) content) :=
  ⟨by decide,
    C8_load_success_content (some full_store) (some (cstr "db.txt"))
      (fun _ => some (sample_text ++ other_text)) (fun _ => true) zero_size_record 1 _
      (by decide) (by decide)⟩


/-- C9: when some record parsed from the opened file fails validation (unknown
direction, unknown compatibility, size <= 0, dependencies < 0 or invalid
date), `db_load_from_file` returns failure and leaves the store empty
(`count = 0`, no records), however many valid records precede it, whatever
the store held before and whatever the allocator does. -/
theorem C9_invalid_record_empties_store (d : RepositoryDB) (f : CStr)
    (fopen : CStr → Option (List Nat)) (alloc : Nat → Bool) (cur : Repository)
    (content : List Nat) (hopen : fopen f = some content)
    (hbad : ∃ sc ∈ scan_all (content.length + 1) content, ¬ scanned_valid sc) :
    db_load_from_file (some d) (some f) fopen alloc cur =
      .returns (0, some { records := [], count := 0, capacity := 0 }) := by
  obtain ⟨c, d1, hrun, hres⟩ := db_load_from_file_spec d f fopen alloc cur content hopen
  rcases hres with ⟨h0, h1⟩ | ⟨_, _, _, _, _, _, h7⟩
  · rw [hrun, h0, h1]
  · obtain ⟨sc, hsc, hnv⟩ := hbad
    exact absurd (h7 sc hsc) hnv

set_option maxRecDepth 100000 in
theorem C9_invalid_record_empties_store_witness :
    (fun _ => some (sample_text ++ other_text ++ zero_size_text) :
      CStr → Option (List Nat)) (cstr "db.txt") =
        some (sample_text ++ other_text ++ zero_size_text) ∧
    (∃ sc ∈ scan_all ((sample_text ++ other_text ++ zero_size_text).length + 1)
        (sample_text ++ other_text ++ zero_size_text), ¬ scanned_valid sc) ∧
    (scan_all ((sample_text ++ other_text ++ zero_size_text).length + 1)
        (sample_text ++ other_text ++ zero_size_text)).map (fun sc => sc.size)
      = [500, 900, 0] ∧
    db_load_from_file (some full_store) (some (cstr "db.txt"))
      (fun _ => some (sample_text ++ other_text ++ zero_size_text)) (fun _ => true)
      sample_record = .returns (0, some { records := [], count := 0, capacity := 0 }) :=
  ⟨rfl, by decide, by decide,
    C9_invalid_record_empties_store full_store (cstr "db.txt")
      (fun _ => some (sample_text ++ other_text ++ zero_size_text)) (fun _ => true)
      sample_record (sample_text ++ other_text ++ zero_size_text) rfl (by decide)⟩

/-- C10 as stated fails: a load that fails after the file was opened does not
leave the records held before. A store holding one record, loading an empty
file, ends with no record. -/
theorem C10_counterexample :
    db_load_from_file (some { records := [sample_record], count := 1, capacity := 10 })
      (some (cstr "db.txt")) (fun _ => some []) (fun _ => true) sample_record =
      .returns (0, some { records := [], count := 0, capacity := 0 }) ∧
    ({ records := [], count := 0, capacity := 0 } : RepositoryDB).records ≠
      ({ records := [sample_record], count := 1, capacity := 10 } : RepositoryDB).records := by
  decide

/-- C10, amended: every call of `db_load_from_file` on a store returns, and
afterwards the store either holds exactly the newly loaded records (success),
or is exactly as before the call (failure because the file name is NULL or
the file cannot be opened), or is empty with count 0 (every failure after the
file was opened). -/
theorem C10_load_replaces_keeps_or_empties (d : RepositoryDB) (name : Option CStr)
    (fopen : CStr → Option (List Nat)) (alloc : Nat → Bool) (cur : Repository) :
    ∃ (c : Int) (d1 : RepositoryDB),
      db_load_from_file (some d) name fopen alloc cur = .returns (c, some d1) ∧
      ((c = 1 ∧ ∃ f content, name = some f ∧ fopen f = some content ∧
          d1.records = (scan_all (content.length + 1) content).map record_of ∧
          d1.count = (d1.records.length : Int)) ∨
       (c = 0 ∧ (name = none ∨ ∃ f, name = some f ∧ fopen f = none) ∧ d1 = d) ∨
       (c = 0 ∧ (∃ f content, name = some f ∧ fopen f = some content) ∧
          d1 = { records := [], count := 0, capacity := 0 })) := by
  obtain ⟨c, d1, hrun, hres⟩ := db_load_from_file_cases d name fopen alloc cur
  refine ⟨c, d1, hrun, ?_⟩
  rcases hres with h | h | ⟨h1, f, content, hn, ho, h2, h3, _, _⟩
  · exact Or.inr (Or.inl h)
  · exact Or.inr (Or.inr h)
  · exact Or.inl ⟨h1, f, content, hn, ho, h2, h3⟩

/-- C11: when every allocation succeeds, an input made of the text of n >= 1
valid records followed by a tail that the parser cannot match to the record
shape makes `db_load_from_file` return success with a store holding exactly
those n records in order: parsing stops at the tail and no error is reported. -/
theorem C11_load_stops_at_unmatched_tail (rs : List Repository) (tail : List Nat)
    (d : RepositoryDB) (f : CStr) (fopen : CStr → Option (List Nat)) (alloc : Nat → Bool)
    (cur : Repository) (hn : 1 ≤ rs.length) (hst : ∀ r ∈ rs, storable r)
    (htail : fscanf_record (skip_space tail) = none)
    (hopen : fopen f = some (records_text rs ++ tail)) (hal : ∀ k, alloc k = true) :
    ∃ d1 : RepositoryDB,
      db_load_from_file (some d) (some f) fopen alloc cur = .returns (1, some d1) ∧
      d1.records = rs ∧ d1.count = (rs.length : Int) := by
  have hne : rs ≠ [] := by
    intro h; rw [h] at hn; simp at hn
  obtain ⟨d1, hrun, h2, h3⟩ :=
    save_load_round_trip rs hne hst tail htail d f fopen alloc cur hopen hal
  refine ⟨d1, hrun, h2, ?_⟩
  have h3b : d1.count = (d1.records.length : Int) := h3
  rw [h3b, h2]

set_option maxRecDepth 100000 in
theorem C11_load_stops_at_unmatched_tail_witness :
    1 ≤ seven_records.length ∧ seven_records.length = 7 ∧
    (∀ r ∈ seven_records, storable r) ∧
    fscanf_record (skip_space stray_tail) = none ∧
    ∃ d1 : RepositoryDB,
      db_load_from_file (some full_store) (some (cstr "db.txt"))
        (fun _ => some (records_text seven_records ++ stray_tail)) (fun _ => true)
        sample_record = .returns (1, some d1) ∧
      d1.records = seven_records ∧ d1.count = (seven_records.length : Int) :=
  ⟨by decide, by decide, by decide, by decide,
    C11_load_stops_at_unmatched_tail seven_records stray_tail full_store (cstr "db.txt")
      (fun _ => some (records_text seven_records ++ stray_tail)) (fun _ => true)
      sample_record (by decide) (by decide) (by decide) rfl (fun _ => rfl)⟩

/-- C12: when no complete record can be parsed from the start of the opened
file (empty input, or first lines that do not match the record shape),
`db_load_from_file` returns failure and leaves the store empty (`count = 0`),
whatever the store held before and whatever the allocator does. -/
theorem C12_no_record_load_fails (d : RepositoryDB) (f : CStr)
    (fopen : CStr → Option (List Nat)) (alloc : Nat → Bool) (cur : Repository)
    (content : List Nat) (hopen : fopen f = some content)
    (hnone : fscanf_record content = none) :
    db_load_from_file (some d) (some f) fopen alloc cur =
      .returns (0, some { records := [], count := 0, capacity := 0 }) := by
  obtain ⟨c, d1, hrun, hres⟩ := db_load_from_file_spec d f fopen alloc cur content hopen
  rcases hres with ⟨h0, h1⟩ | ⟨_, h2, h3, h4, _⟩
  · rw [hrun, h0, h1]
  · exfalso
    have h3b : d1.count = (d1.records.length : Int) := h3
    simp only [scan_all, hnone, List.map_nil] at h2
    rw [h2] at h3b
    exact h4 (by simpa using h3b)

theorem C12_no_record_load_fails_witness :
    fscanf_record [] = none ∧ fscanf_record stray_tail = none ∧
    db_load_from_file (some full_store) (some (cstr "db.txt")) (fun _ => some [])
      (fun _ => true) sample_record =
      .returns (0, some { records := [], count := 0, capacity := 0 }) ∧
    db_load_from_file (some full_store) (some (cstr "db.txt")) (fun _ => some stray_tail)
      (fun _ => true) sample_record =
      .returns (0, some { records := [], count := 0, capacity := 0 }) :=
  ⟨by decide, by decide,
    C12_no_record_load_fails full_store (cstr "db.txt") (fun _ => some [])
      (fun _ => true) sample_record [] rfl (by decide),
    C12_no_record_load_fails full_store (cstr "db.txt") (fun _ => some stray_tail)
      (fun _ => true) sample_record stray_tail rfl (by decide)⟩


/-- C13 at a failing input: a store holding one valid record whose site is the
empty string (a string of at most 99 bytes without newline) is saved
successfully, and loading the saved text fails and leaves the store empty; a
site starting with a blank is read back without the blank. -/
theorem C13_empty_site_is_not_read_back :
    valid_record empty_site_record ∧ line_text empty_site_record.site ∧
    line_text empty_site_record.name ∧
    db_save_to_file (some { records := [empty_site_record], count := 1, capacity := 10 })
      (some (cstr "db.txt")) (fun _ => true) =
      .returns (1, some { records := [empty_site_record], count := 1, capacity := 10 },
        some (cstr "Backend\n\nalpha\n500\n10 1 2024\n3\nLinux\n")) ∧
    db_load_from_file (some { records := [empty_site_record], count := 1, capacity := 10 })
      (some (cstr "db.txt"))
      (fun _ => some (cstr "Backend\n\nalpha\n500\n10 1 2024\n3\nLinux\n"))
      (fun _ => true) sample_record =
      .returns (0, some { records := [], count := 0, capacity := 0 }) ∧
    valid_record blank_site_record ∧ line_text blank_site_record.site ∧
    db_save_to_file (some { records := [blank_site_record], count := 1, capacity := 10 })
      (some (cstr "db.txt")) (fun _ => true) =
      .returns (1, some { records := [blank_site_record], count := 1, capacity := 10 },
        some (cstr "Backend\n x\nalpha\n500\n10 1 2024\n3\nLinux\n")) ∧
    db_load_from_file (some { records := [blank_site_record], count := 1, capacity := 10 })
      (some (cstr "db.txt"))
      (fun _ => some (cstr "Backend\n x\nalpha\n500\n10 1 2024\n3\nLinux\n"))
      (fun _ => true) sample_record =
      .returns (1, some (RepositoryDB.mk [{ blank_site_record with site := cstr "x" }] 1 10))
      := by
  decide

set_option maxRecDepth 100000 in
/-- C14 at a failing input: the text of one record whose site line starts with
a NUL byte is loaded successfully, the site being the empty string; saving the
resulting store succeeds and writes an empty site line; loading the saved text
fails and leaves the store empty. -/
theorem C14_nul_site_is_not_loaded_back :
    db_load_from_file (some { records := [], count := 0, capacity := 10 })
      (some (cstr "db.txt")) (fun _ => some nul_site_text) (fun _ => true) sample_record =
      .returns (1, some { records := [empty_site_record], count := 1, capacity := 10 }) ∧
    db_save_to_file (some { records := [empty_site_record], count := 1, capacity := 10 })
      (some (cstr "db.txt")) (fun _ => true) =
      .returns (1, some { records := [empty_site_record], count := 1, capacity := 10 },
        some (cstr "Backend\n\nalpha\n500\n10 1 2024\n3\nLinux\n")) ∧
    db_load_from_file (some { records := [empty_site_record], count := 1, capacity := 10 })
      (some (cstr "db.txt"))
      (fun _ => some (cstr "Backend\n\nalpha\n500\n10 1 2024\n3\nLinux\n"))
      (fun _ => true) sample_record =
      .returns (0, some { records := [], count := 0, capacity := 0 }) := by
  decide

/-- C15: for a non-empty store, the text `db_save_to_file` writes to a file it
can open is the concatenation, in store order, of one block per record of the
form "<DirectionName>\n<site>\n<name>\n<size>\n<day> <month> <year>\n
<dependencies>\n<CompatibilityName>\n" with the integers in decimal, and the
store is unchanged by saving (also when the file cannot be opened, where
nothing is written). -/
theorem C15_save_writes_blocks_in_order (d : RepositoryDB) (name : CStr)
    (fopen_w : CStr → Bool) (hc : consistent d) (hne : d.count ≥ 1) :
    (fopen_w name = true →
      db_save_to_file (some d) (some name) fopen_w =
        .returns (1, some d, some (d.records.flatMap block_text))) ∧
    (fopen_w name = false →
      db_save_to_file (some d) (some name) fopen_w = .returns (0, some d, none)) := by
  have h0 : d.count ≠ 0 := by omega
  constructor
  · intro hw
    rw [db_save_to_file_spec d name fopen_w hc h0 hw]
    have hfun : fprintf_record = block_text := funext fprintf_record_block
    unfold records_text
    rw [hfun]
  · intro hw
    simp [db_save_to_file, h0, hw]

theorem C15_save_writes_blocks_in_order_witness :
    consistent { records := [sample_record, other_record], count := 2, capacity := 10 } ∧
    (2 : Int) ≥ 1 ∧
    db_save_to_file
      (some { records := [sample_record, other_record], count := 2, capacity := 10 })
      (some (cstr "db.txt")) (fun _ => true) =
      .returns (1, some { records := [sample_record, other_record], count := 2,
                          capacity := 10 },
        some (cstr ("Backend\nhttps://a.example\nalpha\n500\n10 1 2024\n3\nLinux\n" ++
          "Mobile\nsite two\nbeta\n900\n29 2 2024\n0\nmacOS\n"))) ∧
    ((fun _ => true : CStr → Bool) (cstr "db.txt") = true →
      db_save_to_file
        (some { records := [sample_record, other_record], count := 2, capacity := 10 })
        (some (cstr "db.txt")) (fun _ => true) =
        .returns (1, some { records := [sample_record, other_record], count := 2,
                            capacity := 10 },
          some (([sample_record, other_record] : List Repository).flatMap block_text))) :=
  ⟨by decide, by decide, by decide,
    (C15_save_writes_blocks_in_order
      { records := [sample_record, other_record], count := 2, capacity := 10 }
      (cstr "db.txt") (fun _ => true) (by decide) (by decide)).1⟩

/-- C16: for a store with `count = 0`, `db_save_to_file` returns failure
without opening the target (no file is created or truncated) and leaves the
store as it is; for a store with `count >= 1` and a target that can be opened
for writing it returns success. -/
theorem C16_save_empty_store_fails (d : RepositoryDB) (name : Option CStr)
    (fopen_w : CStr → Bool) (hc : consistent d) :
    (d.count = 0 → db_save_to_file (some d) name fopen_w = .returns (0, some d, none)) ∧
    (d.count ≥ 1 → ∀ g : CStr, fopen_w g = true →
      ∃ text : List Nat,
        db_save_to_file (some d) (some g) fopen_w = .returns (1, some d, some text)) := by
  constructor
  · intro h0
    cases name with
    | none => rfl
    | some g => simp [db_save_to_file, h0]
  · intro h1 g hw
    exact ⟨_, db_save_to_file_spec d g fopen_w hc (by omega) hw⟩

theorem C16_save_empty_store_fails_witness :
    consistent { records := [], count := 0, capacity := 10 } ∧
    db_save_to_file (some { records := [], count := 0, capacity := 10 })
      (some (cstr "db.txt")) (fun _ => true) =
      .returns (0, some { records := [], count := 0, capacity := 10 }, none) :=
  ⟨by decide,
    (C16_save_empty_store_fails { records := [], count := 0, capacity := 10 }
      (some (cstr "db.txt")) (fun _ => true) (by decide)).1 rfl⟩

/-- C17: on a store (count = number of records) and with every allocation
succeeding, `db_search_by_direction` returns a strictly ascending sequence of
0-based positions, with `count` its length, that contains position i exactly
when 0 <= i < count and records[i].direction is the direction searched; for an
empty store or when nothing matches the count is 0; there is no cap on the
number of positions returned. -/
theorem C17_search_by_direction_positions (d : RepositoryDB) (direction : Direction)
    (alloc : Nat → Bool) (hc : consistent d) (hal : ∀ k, alloc k = true) :
    ∃ (res : SearchResult) (l : List Int),
      db_search_by_direction (some d) direction alloc = .returns res ∧
      res.count = (l.length : Int) ∧
      (res.indices = some l ∨ (res.indices = none ∧ l = [] ∧ d.count = 0)) ∧
      l.Pairwise (fun a b => a < b) ∧
      (∀ x : Int, x ∈ l ↔
        (0 ≤ x ∧ x < d.count ∧
          ∃ r, d.records[x.toNat]? = some r ∧ r.direction = direction)) ∧
      ((d.count = 0 ∨ ∀ r ∈ d.records, r.direction ≠ direction) → res.count = 0) := by
  obtain ⟨res, l, hrun, hcount, hind, hsorted, hmem⟩ :=
    search_spec (fun r => decide (r.direction = direction)) d alloc hc hal
  have hmem2 : ∀ x : Int, x ∈ l ↔
      (0 ≤ x ∧ x < d.count ∧
        ∃ r, d.records[x.toNat]? = some r ∧ r.direction = direction) := by
    intro x
    rw [hmem x]
    simp only [decide_eq_true_eq]
  refine ⟨res, l, ?_, hcount, hind, hsorted, hmem2, ?_⟩
  · simp only [db_search_by_direction, hal 0, Bool.true_eq_false, if_false]
    exact hrun
  · intro hnone
    have hl : l = [] := by
      apply List.eq_nil_iff_forall_not_mem.2
      intro x hx
      obtain ⟨h1, h2, r, hr, hdir⟩ := (hmem2 x).1 hx
      rcases hnone with h0 | hno
      · omega
      · exact hno r (List.getElem?_mem hr) hdir
    rw [hcount, hl]; rfl

theorem C17_search_by_direction_positions_witness :
    consistent thirteen_store ∧
    db_search_by_direction (some thirteen_store) DIRECTION_BACKEND (fun _ => true) =
      .returns { indices := some [0, 1, 2, 3, 4, 5, 6, 7, 8, 9, 10, 11], count := 12 } ∧
    db_search_by_direction (some thirteen_store) DIRECTION_DEVOPS (fun _ => true) =
      .returns { indices := some [], count := 0 } ∧
    ∃ (res : SearchResult) (l : List Int),
      db_search_by_direction (some thirteen_store) DIRECTION_BACKEND (fun _ => true) =
        .returns res ∧
      res.count = (l.length : Int) ∧
      (res.indices = some l ∨ (res.indices = none ∧ l = [] ∧ thirteen_store.count = 0)) ∧
      l.Pairwise (fun a b => a < b) ∧
      (∀ x : Int, x ∈ l ↔
        (0 ≤ x ∧ x < thirteen_store.count ∧
          ∃ r, thirteen_store.records[x.toNat]? = some r ∧
            r.direction = DIRECTION_BACKEND)) ∧
      ((thirteen_store.count = 0 ∨
          ∀ r ∈ thirteen_store.records, r.direction ≠ DIRECTION_BACKEND) →
        res.count = 0) :=
  ⟨by decide, by decide, by decide,
    C17_search_by_direction_positions thirteen_store DIRECTION_BACKEND (fun _ => true)
      (by decide) (fun _ => rfl)⟩

/-- C18: on a store (count = number of records) whose dates and the target
date have `int` fields, and with every allocation succeeding,
`db_search_combined` returns a strictly ascending sequence of positions, with
`count` its length, that contains i exactly when 0 <= i < count,
records[i].release_date has the day, month and year of the target and
records[i].size is the target size; a record matching only one of the two
conditions is not returned. -/
theorem C18_search_combined_positions (d : RepositoryDB) (target_date : Date)
    (target_size : Int) (alloc : Nat → Bool) (hc : consistent d)
    (hal : ∀ k, alloc k = true)
    (htarget : int32 target_date.day ∧ int32 target_date.month ∧ int32 target_date.year)
    (hdates : ∀ r ∈ d.records, int32 r.release_date.day ∧ int32 r.release_date.month ∧
      int32 r.release_date.year) :
    ∃ (res : SearchResult) (l : List Int),
      db_search_combined (some d) target_date target_size alloc = .returns res ∧
      res.count = (l.length : Int) ∧
      (res.indices = some l ∨ (res.indices = none ∧ l = [] ∧ d.count = 0)) ∧
      l.Pairwise (fun a b => a < b) ∧
      (∀ x : Int, x ∈ l ↔
        (0 ≤ x ∧ x < d.count ∧
          ∃ r, d.records[x.toNat]? = some r ∧
            (r.release_date.day = target_date.day ∧
              r.release_date.month = target_date.month ∧
              r.release_date.year = target_date.year) ∧
            r.size = target_size)) := by
  obtain ⟨res, l, hrun, hcount, hind, hsorted, hmem⟩ :=
    search_spec (fun r => decide (compare_dates r.release_date target_date = 0) &&
      decide (r.size = target_size)) d alloc hc hal
  refine ⟨res, l, ?_, hcount, hind, hsorted, ?_⟩
  · simp only [db_search_combined, hal 0, Bool.true_eq_false, if_false]
    exact hrun
  · intro x
    rw [hmem x]
    constructor
    · rintro ⟨h1, h2, r, hr, ht⟩
      simp only [Bool.and_eq_true, decide_eq_true_eq] at ht
      exact ⟨h1, h2, r, hr,
        (compare_dates_eq_zero_iff _ _ (hdates r (List.getElem?_mem hr)) htarget).1 ht.1,
        ht.2⟩
    · rintro ⟨h1, h2, r, hr, hd, hs⟩
      refine ⟨h1, h2, r, hr, ?_⟩
      simp only [Bool.and_eq_true, decide_eq_true_eq]
      exact ⟨(compare_dates_eq_zero_iff _ _ (hdates r (List.getElem?_mem hr))
        htarget).2 hd, hs⟩

theorem C18_search_combined_positions_witness :
    consistent same_date_store ∧
    db_search_combined (some same_date_store) { day := 10, month := 1, year := 2024 } 500
      (fun _ => true) = .returns { indices := some [0], count := 1 } ∧
    db_search_combined (some same_date_store) { day := 11, month := 1, year := 2024 } 500
      (fun _ => true) = .returns { indices := some [], count := 0 } ∧
    ∃ (res : SearchResult) (l : List Int),
      db_search_combined (some same_date_store) { day := 10, month := 1, year := 2024 } 500
        (fun _ => true) = .returns res ∧
      res.count = (l.length : Int) ∧
      (res.indices = some l ∨ (res.indices = none ∧ l = [] ∧ same_date_store.count = 0)) ∧
      l.Pairwise (fun a b => a < b) ∧
      (∀ x : Int, x ∈ l ↔
        (0 ≤ x ∧ x < same_date_store.count ∧
          ∃ r, same_date_store.records[x.toNat]? = some r ∧
            (r.release_date.day = 10 ∧ r.release_date.month = 1 ∧
              r.release_date.year = 2024) ∧
            r.size = 500)) :=
  ⟨by decide, by decide, by decide,
    C18_search_combined_positions same_date_store { day := 10, month := 1, year := 2024 }
      500 (fun _ => true) (by decide) (fun _ => rfl) (by decide) (by decide)⟩

/-- C19: for records with valid dates (names C strings, directions among the
enumerators), `compare_records(a,b)` has the sign of the byte-wise
lexicographic comparison of the names when the names differ; otherwise the
sign of the comparison of the directions when they differ; otherwise it is the
negation of `compare_dates` of the release dates, so the later date orders
first. Site, size, dependencies and compatibility do not influence it. -/
theorem C19_compare_records_three_keys (a b : Repository)
    (ha : sortable a) (hb : sortable b) :
    (a.name ≠ b.name →
      (compare_records a b < 0 ↔ bytes_lt a.name b.name) ∧
      (0 < compare_records a b ↔ bytes_lt b.name a.name) ∧ compare_records a b ≠ 0) ∧
    (a.name = b.name → a.direction ≠ b.direction →
      (compare_records a b < 0 ↔ a.direction < b.direction) ∧
      (0 < compare_records a b ↔ b.direction < a.direction) ∧ compare_records a b ≠ 0) ∧
    (a.name = b.name → a.direction = b.direction →
      compare_records a b = -(compare_dates a.release_date b.release_date) ∧
      (compare_records a b < 0 ↔ date_lex_lt b.release_date a.release_date) ∧
      (0 < compare_records a b ↔ date_lex_lt a.release_date b.release_date)) ∧
    (∀ a2 b2 : Repository, a2.name = a.name → a2.direction = a.direction →
      a2.release_date = a.release_date → b2.name = b.name → b2.direction = b.direction →
      b2.release_date = b.release_date → compare_records a2 b2 = compare_records a b) := by
  have hna := ha.1
  have hnb := hb.1
  obtain ⟨s1, _, s3, _, _⟩ := compare_dates_sign _ _ ha.2.2 hb.2.2
  refine ⟨?_, ?_, ?_, ?_⟩
  · intro hn
    rcases compare_records_cases a b ha hb with ⟨_, he, h0⟩ | ⟨h, _⟩ | ⟨h, _⟩
    · rw [he]
      exact ⟨strcmp_neg_iff _ _ hna hnb, strcmp_pos_iff _ _ hna hnb, h0⟩
    · exact absurd h hn
    · exact absurd h hn
  · intro hn hd
    rcases compare_records_cases a b ha hb with ⟨h, _⟩ | ⟨_, _, he⟩ | ⟨_, h, _⟩
    · exact absurd hn h
    · rw [he]
      unfold Direction at *
      refine ⟨?_, ?_, ?_⟩
      · constructor <;> intro h <;> omega
      · constructor <;> intro h <;> omega
      · omega
    · exact absurd h hd
  · intro hn hd
    rcases compare_records_cases a b ha hb with ⟨h, _⟩ | ⟨_, h, _⟩ | ⟨_, _, he⟩
    · exact absurd hn h
    · exact absurd hd h
    · rw [he]
      refine ⟨rfl, ?_, ?_⟩
      · rw [← s3]; constructor <;> intro h <;> omega
      · rw [← s1]; constructor <;> intro h <;> omega
  · intro a2 b2 h1 h2 h3 h4 h5 h6
    simp only [compare_records, h1, h2, h3, h4, h5, h6]

theorem C19_compare_records_three_keys_witness :
    sortable sort_a_old ∧ sortable sort_a_new ∧
    (sort_a_old.name = sort_a_new.name → sort_a_old.direction = sort_a_new.direction →
      compare_records sort_a_old sort_a_new =
        -(compare_dates sort_a_old.release_date sort_a_new.release_date) ∧
      (compare_records sort_a_old sort_a_new < 0 ↔
        date_lex_lt sort_a_new.release_date sort_a_old.release_date) ∧
      (0 < compare_records sort_a_old sort_a_new ↔
        date_lex_lt sort_a_old.release_date sort_a_new.release_date)) ∧
    0 < compare_records sort_a_old sort_a_new ∧ compare_records sort_b sort_a_old > 0 :=
  ⟨by decide, by decide,
    (C19_compare_records_three_keys sort_a_old sort_a_new (by decide) (by decide)).2.2.1,
    by decide, by decide⟩

/-- C20: for a store (count = number of records) of records with valid dates
(names C strings, directions among the enumerators), after `db_sort_bubble`
every adjacent pair satisfies `compare_records(records[i], records[i+1]) <= 0`,
that is, the sequence is ordered by name ascending, then direction ascending,
then release date descending; this covers the exit after a pass without
swaps. -/
theorem C20_sort_bubble_orders_adjacent_pairs (d : RepositoryDB) (hc : consistent d)
    (hs : ∀ r ∈ d.records, sortable r) :
    ∃ d1 : RepositoryDB,
      db_sort_bubble (some d) = (1, some d1) ∧ d1.count = d.count ∧
      d1.records.length = d.records.length ∧
      ∀ (i : Nat) (hi : i + 1 < d1.records.length),
        compare_records (d1.records.get ⟨i, by omega⟩) (d1.records.get ⟨i + 1, hi⟩) ≤ 0 ∧
        record_le (d1.records.get ⟨i, by omega⟩) (d1.records.get ⟨i + 1, hi⟩) := by
  obtain ⟨h1, hp, hcnt, _⟩ := db_sort_bubble_nonnull_perm d
  have hsorted := db_sort_bubble_nonnull_sorted d hc hs
  refine ⟨(db_sort_bubble_nonnull d).2, ?_, hcnt, hp.length_eq, ?_⟩
  · simp only [db_sort_bubble, h1]
  · intro i hi
    have hle := chain_getElem _ hsorted i hi
    refine ⟨hle, ?_⟩
    have hmem : ∀ (j : Nat) (hj : j < (db_sort_bubble_nonnull d).2.records.length),
        sortable ((db_sort_bubble_nonnull d).2.records.get ⟨j, hj⟩) :=
      fun j hj => hs _ (hp.mem_iff.1 (List.get_mem _ j hj))
    exact (compare_records_le_iff _ _ (hmem i (by omega)) (hmem (i + 1) hi)).1 hle

theorem C20_sort_bubble_orders_adjacent_pairs_witness :
    consistent { records := [sort_b, sort_a_old, sort_a_new], count := 3, capacity := 10 } ∧
    (∀ r ∈ [sort_b, sort_a_old, sort_a_new], sortable r) ∧
    db_sort_bubble
      (some { records := [sort_b, sort_a_old, sort_a_new], count := 3, capacity := 10 }) =
      (1, some { records := [sort_a_new, sort_a_old, sort_b], count := 3, capacity := 10 }) ∧
    db_sort_bubble
      (some { records := [sort_a_new, sort_a_old, sort_b], count := 3, capacity := 10 }) =
      (1, some { records := [sort_a_new, sort_a_old, sort_b], count := 3, capacity := 10 }) ∧
    ∃ d1 : RepositoryDB,
      db_sort_bubble
        (some { records := [sort_b, sort_a_old, sort_a_new], count := 3, capacity := 10 }) =
        (1, some d1) ∧
      d1.count = 3 ∧ d1.records.length = 3 ∧
      ∀ (i : Nat) (hi : i + 1 < d1.records.length),
        compare_records (d1.records.get ⟨i, by omega⟩) (d1.records.get ⟨i + 1, hi⟩) ≤ 0 ∧
        record_le (d1.records.get ⟨i, by omega⟩) (d1.records.get ⟨i + 1, hi⟩) :=
  ⟨by decide, by decide, by decide, by decide,
    C20_sort_bubble_orders_adjacent_pairs
      { records := [sort_b, sort_a_old, sort_a_new], count := 3, capacity := 10 }
      (by decide) (by decide)⟩

/-- C21: for every store, `db_sort_bubble` returns 1, leaves `count` (and the
capacity) unchanged and yields a record sequence that is a permutation of the
original one: every whole record occurs as many times after as before; a
store with fewer than 2 records is returned unchanged. -/
theorem C21_sort_bubble_permutes (d : RepositoryDB) :
    ∃ d1 : RepositoryDB,
      db_sort_bubble (some d) = (1, some d1) ∧ d1.count = d.count ∧
      d1.capacity = d.capacity ∧ d1.records.Perm d.records ∧
      d1.records.length = d.records.length ∧
      (∀ r : Repository, d1.records.count r = d.records.count r) ∧
      (d.count < 2 → d1 = d) := by
  obtain ⟨h1, hp, hcnt, hcap⟩ := db_sort_bubble_nonnull_perm d
  refine ⟨(db_sort_bubble_nonnull d).2, ?_, hcnt, hcap, hp, hp.length_eq,
    fun r => hp.count_eq r, ?_⟩
  · simp only [db_sort_bubble, h1]
  · intro h2
    simp [db_sort_bubble_nonnull, h2]

/-- C22: `db_sort_bubble` is stable. For every store and every two records a
and b that compare equal under `compare_records` (which, for C strings and
32-bit fields, is having the same name, direction and release date), whatever
their site, size, dependencies and compatibility: if a stands before b in the
store before the sort, a stands before b after it; and the records having the
key of a form the same sequence before and after the sort. -/
theorem C22_sort_bubble_stable (d : RepositoryDB) (a b : Repository)
    (ha : key_typed a) (hb : key_typed b) (heq : compare_records a b = 0) :
    same_key a b ∧
    ∃ d1 : RepositoryDB,
      db_sort_bubble (some d) = (1, some d1) ∧
      d1.records.filter (fun x => decide (same_key a x)) =
        d.records.filter (fun x => decide (same_key a x)) ∧
      (List.Sublist [a, b] d.records → List.Sublist [a, b] d1.records) := by
  have hk := (compare_records_eq_zero_iff a b ha hb).1 heq
  have hf := db_sort_bubble_nonnull_filter a d
  obtain ⟨h1, _, _, _⟩ := db_sort_bubble_nonnull_perm d
  refine ⟨hk, (db_sort_bubble_nonnull d).2, ?_, hf, ?_⟩
  · simp only [db_sort_bubble, h1]
  · exact sublist_pair_of_filter a a b _ _ ⟨rfl, rfl, rfl⟩ hk hf

theorem C22_sort_bubble_stable_witness :
    key_typed sort_b ∧ key_typed sort_b_mirror ∧ compare_records sort_b sort_b_mirror = 0 ∧
    sort_b ≠ sort_b_mirror ∧
    db_sort_bubble
      (some { records := [sort_b, sort_a_old, sort_b_mirror, sort_a_new], count := 4,
              capacity := 10 }) =
      (1, some { records := [sort_a_new, sort_a_old, sort_b, sort_b_mirror], count := 4,
                 capacity := 10 }) ∧
    same_key sort_b sort_b_mirror ∧
    ∃ d1 : RepositoryDB,
      db_sort_bubble
        (some { records := [sort_b, sort_a_old, sort_b_mirror, sort_a_new], count := 4,
                capacity := 10 }) = (1, some d1) ∧
      d1.records.filter (fun x => decide (same_key sort_b x)) =
        ({ records := [sort_b, sort_a_old, sort_b_mirror, sort_a_new], count := 4,
           capacity := 10 } : RepositoryDB).records.filter
          (fun x => decide (same_key sort_b x)) ∧
      (List.Sublist [sort_b, sort_b_mirror]
          ({ records := [sort_b, sort_a_old, sort_b_mirror, sort_a_new], count := 4,
             capacity := 10 } : RepositoryDB).records →
        List.Sublist [sort_b, sort_b_mirror] d1.records) :=
  ⟨by decide, by decide, by decide, by decide, by decide,
    C22_sort_bubble_stable
      { records := [sort_b, sort_a_old, sort_b_mirror, sort_a_new], count := 4, capacity := 10 }
      sort_b sort_b_mirror (by decide) (by decide) (by decide)⟩

/-- C23 as stated fails: on the sequence (B, mirror of B, A), where the first
two records have valid dates and the same name, direction and release date but
different sites, `sort_records` leaves (A, mirror of B, B) and
`db_sort_bubble` leaves (A, B, mirror of B). -/
theorem C23_counterexample :
    (∀ r ∈ [sort_b, sort_b_mirror, sort_a_new], sortable r) ∧
    sort_records [sort_b, sort_b_mirror, sort_a_new] 3 =
      (1, [sort_a_new, sort_b_mirror, sort_b]) ∧
    db_sort_bubble
      (some { records := [sort_b, sort_b_mirror, sort_a_new], count := 3, capacity := 10 }) =
      (1, some { records := [sort_a_new, sort_b, sort_b_mirror], count := 3,
                 capacity := 10 }) ∧
    [sort_a_new, sort_b_mirror, sort_b] ≠ [sort_a_new, sort_b, sort_b_mirror] := by
  decide

/-- C23, amended: for every sequence of records with valid dates (names C
strings, directions among the enumerators), `sort_records` of `Kursovayaya.c`
and `db_sort_bubble` of `repository_db.c` both return 1 and leave a
permutation of the sequence, and the two results carry the same name,
direction and release date at every position; they are the identical sequence
of records when any two records of the input with the same name, direction
and release date are the same record in all fields. -/
theorem C23_sort_variants_agree_on_keys (l : List Repository) (cap : Int)
    (hs : ∀ r ∈ l, sortable r) :
    ∃ d1 : RepositoryDB,
      db_sort_bubble (some { records := l, count := l.length, capacity := cap }) =
        (1, some d1) ∧
      (sort_records l l.length).1 = 1 ∧
      d1.records.Perm l ∧ (sort_records l l.length).2.Perm l ∧
      (sort_records l l.length).2.map sort_key = d1.records.map sort_key ∧
      ((∀ a ∈ l, ∀ b ∈ l, same_key a b → a = b) →
        (sort_records l l.length).2 = d1.records) := by
  obtain ⟨h1, hp, _, _⟩ :=
    db_sort_bubble_nonnull_perm { records := l, count := l.length, capacity := cap }
  have hsorted :=
    db_sort_bubble_nonnull_sorted { records := l, count := l.length, capacity := cap } rfl hs
  obtain ⟨e1, ep, esorted⟩ := sort_records_spec l hs
  have hs1 : ∀ r ∈ (db_sort_bubble_nonnull
      { records := l, count := l.length, capacity := cap }).2.records, sortable r :=
    fun r hr => hs r (hp.mem_iff.1 hr)
  have hs2 : ∀ r ∈ (sort_records l l.length).2, sortable r :=
    fun r hr => hs r (ep.mem_iff.1 hr)
  have hk := sorted_keys_eq _ _ (ep.trans hp.symm)
    (pairwise_record_le _ hs2 esorted.chain') (pairwise_record_le _ hs1 hsorted)
  refine ⟨_, ?_, e1, hp, ep, hk, ?_⟩
  · simp only [db_sort_bubble, h1]
  · intro hinj
    exact eq_of_map_sort_key_eq _ _ hk
      (fun a ha b hb => hinj a (ep.mem_iff.1 ha) b (hp.mem_iff.1 hb))

theorem C23_sort_variants_agree_on_keys_witness :
    (∀ r ∈ [sort_b, sort_b_mirror, sort_a_new], sortable r) ∧
    ∃ d1 : RepositoryDB,
      db_sort_bubble
        (some { records := [sort_b, sort_b_mirror, sort_a_new],
                count := [sort_b, sort_b_mirror, sort_a_new].length, capacity := 10 }) =
        (1, some d1) ∧
      (sort_records [sort_b, sort_b_mirror, sort_a_new]
        [sort_b, sort_b_mirror, sort_a_new].length).1 = 1 ∧
      d1.records.Perm [sort_b, sort_b_mirror, sort_a_new] ∧
      (sort_records [sort_b, sort_b_mirror, sort_a_new]
        [sort_b, sort_b_mirror, sort_a_new].length).2.Perm
        [sort_b, sort_b_mirror, sort_a_new] ∧
      (sort_records [sort_b, sort_b_mirror, sort_a_new]
        [sort_b, sort_b_mirror, sort_a_new].length).2.map sort_key =
        d1.records.map sort_key ∧
      ((∀ a ∈ [sort_b, sort_b_mirror, sort_a_new],
          ∀ b ∈ [sort_b, sort_b_mirror, sort_a_new], same_key a b → a = b) →
        (sort_records [sort_b, sort_b_mirror, sort_a_new]
          [sort_b, sort_b_mirror, sort_a_new].length).2 = d1.records) :=
  ⟨by decide,
    C23_sort_variants_agree_on_keys [sort_b, sort_b_mirror, sort_a_new] 10 (by decide)⟩

set_option maxRecDepth 100000 in
/-- C24 as stated fails: a record whose site line has 99 bytes is admitted
with that site; the same record with a site line of 100 bytes, or with a name
line of 100 bytes, is not admitted: the byte after the first 99 is taken for
the start of the next field, `fscanf` stops after 3 conversions, the load
returns 0 and the store is left empty; standing between two well-formed
records it ends the load, which returns 1 with the first record only. -/
theorem C24_counterexample :
    db_load_from_file (some { records := [], count := 0, capacity := 10 })
      (some (cstr "db.txt")) (fun _ => some cut_site_text) (fun _ => true) sample_record =
      .returns (1, some (RepositoryDB.mk [{ sample_record with site := List.replicate 99 97 }]
        1 10)) ∧
    fscanf_record long_site_text = none ∧
    db_load_from_file (some { records := [], count := 0, capacity := 10 })
      (some (cstr "db.txt")) (fun _ => some long_site_text) (fun _ => true) sample_record =
      .returns (0, some { records := [], count := 0, capacity := 0 }) ∧
    fscanf_record long_name_text = none ∧
    db_load_from_file (some { records := [], count := 0, capacity := 10 })
      (some (cstr "db.txt")) (fun _ => some long_name_text) (fun _ => true) sample_record =
      .returns (0, some { records := [], count := 0, capacity := 0 }) ∧
    db_load_from_file (some { records := [], count := 0, capacity := 10 })
      (some (cstr "db.txt")) (fun _ => some (sample_text ++ long_site_text ++ other_text))
      (fun _ => true) sample_record =
      .returns (1, some { records := [sample_record], count := 1, capacity := 10 }) := by
  decide

/-- C24, amended: when a record of the input, standing after any number of
well-formed valid records and opened by a direction name, has a site or name
line of more than 99 bytes (not starting with white space), the conversion
gives the field the first 99 bytes and leaves the rest of the line in the
input, where it is read as the next field: `db_load_from_file` returns exactly
what it returns on the input with a line break after the 99th byte of that
line. The record is then not admitted as if the line had 99 bytes: for a site
line of at most 198 bytes whose 100th byte is not white space, followed by a
line that does not start with a number, and for a name line (after a
well-formed site line) whose part after the 99th byte does not start with a
number, `fscanf` makes 3 conversions and
the loading stops there as at unmatched input, returning 1 with exactly the
records before it, or 0 with an empty store when there are none. -/
theorem C24_long_line_is_read_as_two_lines (pre : List Repository) (k : Int)
    (s t rest : List Nat) (hpre : ∀ r ∈ pre, storable r)
    (hk : 0 ≤ k ∧ k < DIRECTION_COUNT)
    (hs : 99 < s.length ∧ 10 ∉ s ∧ reads_back s) :
    scan_line 99 (s ++ 10 :: rest) =
      some ((s.take 99).takeWhile (fun c => decide (c ≠ 0)), s.drop 99 ++ 10 :: rest) ∧
    same_load
      (records_text pre ++ (direction_to_string k ++ 10 :: (s ++ 10 :: rest)))
      (records_text pre ++ (direction_to_string k ++ 10 ::
        (s.take 99 ++ 10 :: (s.drop 99 ++ 10 :: rest)))) ∧
    (line_text t ∧ reads_back t →
      same_load
        (records_text pre ++ (direction_to_string k ++ 10 :: (t ++ 10 :: (s ++ 10 :: rest))))
        (records_text pre ++ (direction_to_string k ++ 10 ::
          (t ++ 10 :: (s.take 99 ++ 10 :: (s.drop 99 ++ 10 :: rest)))))) ∧
    (s.length ≤ 198 → reads_back (s.drop 99) → scan_int rest = none →
      load_stops_after pre
        (records_text pre ++ (direction_to_string k ++ 10 :: (s ++ 10 :: rest)))) ∧
    (line_text t ∧ reads_back t → scan_int (s.drop 99 ++ 10 :: rest) = none →
      load_stops_after pre
        (records_text pre ++
          (direction_to_string k ++ 10 :: (t ++ 10 :: (s ++ 10 :: rest))))) := by
  obtain ⟨hlen, hnl, hrb⟩ := hs
  obtain ⟨_, _, _, _, dn5, _, _⟩ := dir_name_props k hk.1 hk.2
  have hy : ∀ z : List Nat, skip_space (direction_to_string k ++ z) =
      direction_to_string k ++ z := fun z => skip_space_reads_back _ z dn5
  refine ⟨scan_line_long 99 s rest (by decide) hlen hnl, ?_, ?_, ?_, ?_⟩
  · intro d f alloc cur
    exact db_load_from_file_congr pre _ _ hpre (hy _) (hy _)
      (fscanf_record_long_site k s rest hk hlen hnl hrb) d f alloc cur
  · intro ht d f alloc cur
    exact db_load_from_file_congr pre _ _ hpre (hy _) (hy _)
      (fscanf_record_long_name k t s rest hk ht hlen hnl hrb) d f alloc cur
  · intro hmax ho hnum
    exact load_stops_of_none pre _ hpre (hy _)
      (fscanf_record_long_site_none k s rest hk hlen hnl hrb hmax ho hnum)
  · intro ht hnum
    exact load_stops_of_none pre _ hpre (hy _)
      (fscanf_record_long_name_none k t s rest hk ht hlen hnl hrb hnum)

set_option maxRecDepth 100000 in
theorem C24_long_line_is_read_as_two_lines_witness :
    (∀ r ∈ [sample_record], storable r) ∧
    (99 < (List.replicate 100 97).length ∧ 10 ∉ List.replicate 100 97 ∧
      reads_back (List.replicate 100 97)) ∧
    records_text [sample_record] ++ (direction_to_string DIRECTION_BACKEND ++ 10 ::
      (List.replicate 100 97 ++ 10 ::
        (cstr "alpha\n500\n10 1 2024\n3\nLinux\n" ++ other_text))) =
      sample_text ++ long_site_text ++ other_text ∧
    same_load
      (records_text [sample_record] ++ (direction_to_string DIRECTION_BACKEND ++ 10 ::
        (List.replicate 100 97 ++ 10 ::
          (cstr "alpha\n500\n10 1 2024\n3\nLinux\n" ++ other_text))))
      (records_text [sample_record] ++ (direction_to_string DIRECTION_BACKEND ++ 10 ::
        ((List.replicate 100 97).take 99 ++ 10 :: ((List.replicate 100 97).drop 99 ++ 10 ::
          (cstr "alpha\n500\n10 1 2024\n3\nLinux\n" ++ other_text))))) ∧
    load_stops_after [sample_record]
      (records_text [sample_record] ++ (direction_to_string DIRECTION_BACKEND ++ 10 ::
        (List.replicate 100 97 ++ 10 ::
          (cstr "alpha\n500\n10 1 2024\n3\nLinux\n" ++ other_text)))) :=
  ⟨by decide, by decide, by decide,
    (C24_long_line_is_read_as_two_lines [sample_record] DIRECTION_BACKEND
      (List.replicate 100 97) [] (cstr "alpha\n500\n10 1 2024\n3\nLinux\n" ++ other_text)
      (by decide) (by decide) (by decide)).2.1,
    (C24_long_line_is_read_as_two_lines [sample_record] DIRECTION_BACKEND
      (List.replicate 100 97) [] (cstr "alpha\n500\n10 1 2024\n3\nLinux\n" ++ other_text)
      (by decide) (by decide) (by decide)).2.2.2.1 (by decide) (by decide) (by decide)⟩

/-- C25: for every sequence of records with valid dates (names C strings,
directions among the enumerators), `sort_records` of `Kursovayaya.c` returns 1
and leaves a permutation of its input in which every adjacent pair is in
non-decreasing order under the 3-key comparator: name ascending, then
direction ascending, then release date descending. -/
theorem C25_sort_records_orders_adjacent_pairs (l : List Repository)
    (hs : ∀ r ∈ l, sortable r) :
    (sort_records l l.length).1 = 1 ∧
    (sort_records l l.length).2.Perm l ∧
    (sort_records l l.length).2.length = l.length ∧
    ∀ (i : Nat) (hi : i + 1 < (sort_records l l.length).2.length),
      compare_records ((sort_records l l.length).2.get ⟨i, by omega⟩)
        ((sort_records l l.length).2.get ⟨i + 1, hi⟩) ≤ 0 ∧
      record_le ((sort_records l l.length).2.get ⟨i, by omega⟩)
        ((sort_records l l.length).2.get ⟨i + 1, hi⟩) := by
  obtain ⟨h1, hp, hsorted⟩ := sort_records_spec l hs
  refine ⟨h1, hp, hp.length_eq, ?_⟩
  intro i hi
  have hle := chain_getElem _ hsorted.chain' i hi
  refine ⟨hle, ?_⟩
  have hmem : ∀ (j : Nat) (hj : j < (sort_records l l.length).2.length),
      sortable ((sort_records l l.length).2.get ⟨j, hj⟩) :=
    fun j hj => hs _ (hp.mem_iff.1 (List.get_mem _ j hj))
  exact (compare_records_le_iff _ _ (hmem i (by omega)) (hmem (i + 1) hi)).1 hle

theorem C25_sort_records_orders_adjacent_pairs_witness :
    (∀ r ∈ [sort_b, sort_a_old, sort_b_mirror, sort_a_new], sortable r) ∧
    sort_records [sort_b, sort_a_old, sort_b_mirror, sort_a_new] 4 =
      (1, [sort_a_new, sort_a_old, sort_b_mirror, sort_b]) ∧
    (sort_records [sort_b, sort_a_old, sort_b_mirror, sort_a_new]
      [sort_b, sort_a_old, sort_b_mirror, sort_a_new].length).1 = 1 ∧
    (sort_records [sort_b, sort_a_old, sort_b_mirror, sort_a_new]
      [sort_b, sort_a_old, sort_b_mirror, sort_a_new].length).2.Perm
      [sort_b, sort_a_old, sort_b_mirror, sort_a_new] ∧
    (sort_records [sort_b, sort_a_old, sort_b_mirror, sort_a_new]
      [sort_b, sort_a_old, sort_b_mirror, sort_a_new].length).2.length =
      [sort_b, sort_a_old, sort_b_mirror, sort_a_new].length ∧
    ∀ (i : Nat) (hi : i + 1 < (sort_records [sort_b, sort_a_old, sort_b_mirror, sort_a_new]
        [sort_b, sort_a_old, sort_b_mirror, sort_a_new].length).2.length),
      compare_records
        ((sort_records [sort_b, sort_a_old, sort_b_mirror, sort_a_new]
          [sort_b, sort_a_old, sort_b_mirror, sort_a_new].length).2.get ⟨i, by omega⟩)
        ((sort_records [sort_b, sort_a_old, sort_b_mirror, sort_a_new]
          [sort_b, sort_a_old, sort_b_mirror, sort_a_new].length).2.get ⟨i + 1, hi⟩) ≤ 0 ∧
      record_le
        ((sort_records [sort_b, sort_a_old, sort_b_mirror, sort_a_new]
          [sort_b, sort_a_old, sort_b_mirror, sort_a_new].length).2.get ⟨i, by omega⟩)
        ((sort_records [sort_b, sort_a_old, sort_b_mirror, sort_a_new]
          [sort_b, sort_a_old, sort_b_mirror, sort_a_new].length).2.get ⟨i + 1, hi⟩) :=
  ⟨by decide, by decide,
    C25_sort_records_orders_adjacent_pairs [sort_b, sort_a_old, sort_b_mirror, sort_a_new]
      (by decide)⟩

/-- C26: for dates with arbitrary 32-bit integer fields, the subtractions
being taken modulo 2^32, `compare_dates(a,b) == 0` holds exactly when day,
month and year of a and b are equal, that is when a and b are the same date;
so `db_search_combined` with the target b, valid or not, returns (on a store
with count = number of records, allocations succeeding) exactly the positions
of the records whose release date is b and whose size is the target size. -/
theorem C26_compare_dates_zero_iff_equal (a b : Date)
    (ha : int32 a.day ∧ int32 a.month ∧ int32 a.year)
    (hb : int32 b.day ∧ int32 b.month ∧ int32 b.year) :
    (compare_dates a b = 0 ↔ (a.day = b.day ∧ a.month = b.month ∧ a.year = b.year)) ∧
    (compare_dates a b = 0 ↔ a = b) ∧
    ∀ (d : RepositoryDB) (target_size : Int) (alloc : Nat → Bool),
      consistent d → (∀ k, alloc k = true) →
      (∀ r ∈ d.records, int32 r.release_date.day ∧ int32 r.release_date.month ∧
        int32 r.release_date.year) →
      ∃ (res : SearchResult) (l : List Int),
        db_search_combined (some d) b target_size alloc = .returns res ∧
        res.count = (l.length : Int) ∧
        (res.indices = some l ∨ (res.indices = none ∧ l = [] ∧ d.count = 0)) ∧
        (∀ x : Int, x ∈ l ↔
          (0 ≤ x ∧ x < d.count ∧
            ∃ r, d.records[x.toNat]? = some r ∧ r.release_date = b ∧
              r.size = target_size)) := by
  have heq : ∀ (x y : Date), int32 x.day ∧ int32 x.month ∧ int32 x.year →
      int32 y.day ∧ int32 y.month ∧ int32 y.year → (compare_dates x y = 0 ↔ x = y) := by
    intro x y hx hy
    rw [compare_dates_eq_zero_iff x y hx hy]
    constructor
    · rintro ⟨h1, h2, h3⟩
      cases x; cases y
      simp only [Date.mk.injEq]
      exact ⟨h1, h2, h3⟩
    · intro he
      rw [he]
      exact ⟨rfl, rfl, rfl⟩
  refine ⟨compare_dates_eq_zero_iff a b ha hb, heq a b ha hb, ?_⟩
  intro d target_size alloc hc hal hdates
  obtain ⟨res, l, hrun, hcount, hind, _, hmem⟩ :=
    search_spec (fun r => decide (compare_dates r.release_date b = 0) &&
      decide (r.size = target_size)) d alloc hc hal
  refine ⟨res, l, ?_, hcount, hind, ?_⟩
  · simp only [db_search_combined, hal 0, Bool.true_eq_false, if_false]
    exact hrun
  · intro x
    rw [hmem x]
    constructor
    · rintro ⟨h1, h2, r, hr, ht⟩
      simp only [Bool.and_eq_true, decide_eq_true_eq] at ht
      exact ⟨h1, h2, r, hr, (heq _ _ (hdates r (List.getElem?_mem hr)) hb).1 ht.1, ht.2⟩
    · rintro ⟨h1, h2, r, hr, hd, hs⟩
      refine ⟨h1, h2, r, hr, ?_⟩
      simp only [Bool.and_eq_true, decide_eq_true_eq]
      exact ⟨(heq _ _ (hdates r (List.getElem?_mem hr)) hb).2 hd, hs⟩

theorem C26_compare_dates_zero_iff_equal_witness :
    (int32 (-2147483648) ∧ int32 0 ∧ int32 (-2147483648)) ∧
    (int32 2147483647 ∧ int32 13 ∧ int32 2147483647) ∧
    compare_dates { day := -2147483648, month := 0, year := -2147483648 }
      { day := 2147483647, month := 13, year := 2147483647 } = 1 ∧
    (compare_dates { day := -2147483648, month := 0, year := -2147483648 }
        { day := 2147483647, month := 13, year := 2147483647 } = 0 ↔
      ((-2147483648 : Int) = 2147483647 ∧ (0 : Int) = 13 ∧
        (-2147483648 : Int) = 2147483647)) ∧
    (compare_dates { day := -2147483648, month := 0, year := -2147483648 }
        { day := 2147483647, month := 13, year := 2147483647 } = 0 ↔
      ({ day := -2147483648, month := 0, year := -2147483648 } : Date) =
        { day := 2147483647, month := 13, year := 2147483647 }) :=
  ⟨by decide, by decide, by decide,
    (C26_compare_dates_zero_iff_equal
      { day := -2147483648, month := 0, year := -2147483648 }
      { day := 2147483647, month := 13, year := 2147483647 } (by decide) (by decide)).1,
    (C26_compare_dates_zero_iff_equal
      { day := -2147483648, month := 0, year := -2147483648 }
      { day := 2147483647, month := 13, year := 2147483647 } (by decide) (by decide)).2.1⟩

/-- C27: on records with valid dates (names C strings, directions among the
enumerators) `compare_records` is a total preorder comparator:
`compare_records(b,a)` is the negation of `compare_records(a,b)`, so the signs
are opposite, and `compare_records(a,b) <= 0` with `compare_records(b,c) <= 0`
gives `compare_records(a,c) <= 0`. -/
theorem C27_compare_records_total_preorder (a b c : Repository)
    (ha : sortable a) (hb : sortable b) (hc : sortable c) :
    compare_records b a = -(compare_records a b) ∧
    (compare_records a b < 0 ↔ 0 < compare_records b a) ∧
    (compare_records a b = 0 ↔ compare_records b a = 0) ∧
    (0 < compare_records a b ↔ compare_records b a < 0) ∧
    (compare_records a b ≤ 0 → compare_records b c ≤ 0 → compare_records a c ≤ 0) := by
  have hneg := compare_records_neg a b ha hb
  refine ⟨hneg, ?_, ?_, ?_, compare_records_trans a b c ha hb hc⟩
  · rw [hneg]; constructor <;> intro h <;> omega
  · rw [hneg]; constructor <;> intro h <;> omega
  · rw [hneg]; constructor <;> intro h <;> omega

theorem C27_compare_records_total_preorder_witness :
    sortable sort_a_new ∧ sortable sort_a_old ∧ sortable sort_b ∧
    compare_records sort_a_old sort_a_new = -(compare_records sort_a_new sort_a_old) ∧
    (compare_records sort_a_new sort_a_old < 0 ↔ 0 < compare_records sort_a_old sort_a_new) ∧
    (compare_records sort_a_new sort_a_old = 0 ↔ compare_records sort_a_old sort_a_new = 0) ∧
    (0 < compare_records sort_a_new sort_a_old ↔ compare_records sort_a_old sort_a_new < 0) ∧
    (compare_records sort_a_new sort_a_old ≤ 0 → compare_records sort_a_old sort_b ≤ 0 →
      compare_records sort_a_new sort_b ≤ 0) :=
  ⟨by decide, by decide, by decide,
    C27_compare_records_total_preorder sort_a_new sort_a_old sort_b (by decide) (by decide)
      (by decide)⟩

/-- C28 at a failing input: after a successful `db_init`, a load of an empty
file fails and leaves the store with count 0 and capacity 0; in that reachable
state `db_grow_capacity` doubles the capacity 0 to 0 and reports success when
`realloc` gives a buffer, so `db_add_record` goes on to write `records[0]`,
a position >= capacity, outside the buffer; it keeps inside the buffer only
when `realloc` fails and it returns 0. -/
theorem C28_add_after_failed_load_leaves_buffer :
    db_init (some { records := [], count := 0, capacity := 0 }) true =
      (1, some { records := [], count := 0, capacity := 10 }) ∧
    db_load_from_file (some { records := [], count := 0, capacity := 10 })
      (some (cstr "db.txt")) (fun _ => some []) (fun _ => true) sample_record =
      .returns (0, some { records := [], count := 0, capacity := 0 }) ∧
    Reachable valid_record { records := [], count := 0, capacity := 0 } ∧
    db_grow_capacity { records := [], count := 0, capacity := 0 } true =
      (1, { records := [], count := 0, capacity := 0 }) ∧
    db_add_record (some { records := [], count := 0, capacity := 0 }) (some sample_record)
      true = .undefined ∧
    db_add_record (some { records := [], count := 0, capacity := 0 }) (some sample_record)
      false = .returns (0, some { records := [], count := 0, capacity := 0 }) :=
  ⟨by decide, by decide,
    Reachable.load { records := [], count := 0, capacity := 10 } _ (some (cstr "db.txt"))
      (fun _ => some []) (fun _ => true) sample_record 0
      (Reachable.init { records := [], count := 0, capacity := 0 } _ (by decide))
      (by decide),
    by decide, by decide, by decide⟩

/-- C29: `db_sort_bubble` is idempotent: for a store (count = number of
records) of records with valid dates (names C strings, directions among the
enumerators), sorting the result of `db_sort_bubble` again leaves the store,
and so the record sequence, exactly unchanged; more generally a store whose
adjacent records all satisfy `compare_records <= 0` is returned unchanged. -/
theorem C29_sort_bubble_idempotent (d : RepositoryDB) (hc : consistent d)
    (hs : ∀ r ∈ d.records, sortable r) :
    (∃ d1 : RepositoryDB,
      db_sort_bubble (some d) = (1, some d1) ∧ db_sort_bubble (some d1) = (1, some d1)) ∧
    (List.Chain' (fun a b => compare_records a b ≤ 0) d.records →
      db_sort_bubble (some d) = (1, some d)) := by
  constructor
  · obtain ⟨h1, _, _, _⟩ := db_sort_bubble_nonnull_perm d
    have hsorted := db_sort_bubble_nonnull_sorted d hc hs
    refine ⟨(db_sort_bubble_nonnull d).2, ?_, ?_⟩
    · simp only [db_sort_bubble, h1]
    · simp only [db_sort_bubble, db_sort_bubble_nonnull_sorted_id _ hsorted]
  · intro h
    simp only [db_sort_bubble, db_sort_bubble_nonnull_sorted_id _ h]

theorem C29_sort_bubble_idempotent_witness :
    consistent { records := [sort_b, sort_a_old, sort_a_new], count := 3, capacity := 10 } ∧
    (∀ r ∈ [sort_b, sort_a_old, sort_a_new], sortable r) ∧
    db_sort_bubble
      (some { records := [sort_b, sort_a_old, sort_a_new], count := 3, capacity := 10 }) =
      (1, some { records := [sort_a_new, sort_a_old, sort_b], count := 3, capacity := 10 }) ∧
    db_sort_bubble
      (some { records := [sort_a_new, sort_a_old, sort_b], count := 3, capacity := 10 }) =
      (1, some { records := [sort_a_new, sort_a_old, sort_b], count := 3, capacity := 10 }) ∧
    ∃ d1 : RepositoryDB,
      db_sort_bubble
        (some { records := [sort_b, sort_a_old, sort_a_new], count := 3, capacity := 10 }) =
        (1, some d1) ∧ db_sort_bubble (some d1) = (1, some d1) :=
  ⟨by decide, by decide, by decide, by decide,
    (C29_sort_bubble_idempotent
      { records := [sort_b, sort_a_old, sort_a_new], count := 3, capacity := 10 }
      (by decide) (by decide)).1⟩

set_option maxRecDepth 100000 in
/-- C30 at a failing input: `direction_to_string(7)` is "Unknown" and
`string_to_direction("Unknown")` fails, yet the text saved from the store
holding a valid record followed by a record with direction 7 and an empty site
is accepted by `db_load_from_file`: the empty site line is skipped as white
space, `fscanf` stops after 7 conversions in the second record, whose
direction is never examined, and the load returns 1 with the first record. -/
theorem C30_unknown_enum_text_is_accepted :
    direction_to_string unknown_direction_record.direction = cstr "Unknown" ∧
    string_to_direction (some (cstr "Unknown")) (some 0) = (0, some 0) ∧
    string_to_compatibility (some (cstr "Unknown")) (some 0) = (0, some 0) ∧
    db_save_to_file
      (some { records := [sample_record, unknown_direction_record], count := 2,
              capacity := 10 })
      (some (cstr "db.txt")) (fun _ => true) =
      .returns (1, some { records := [sample_record, unknown_direction_record], count := 2,
                          capacity := 10 },
        some (cstr ("Backend\nhttps://a.example\nalpha\n500\n10 1 2024\n3\nLinux\n" ++
          "Unknown\n\nbeta\n900\n29 2 2024\n0\nmacOS\n"))) ∧
    db_load_from_file (some full_store) (some (cstr "db.txt"))
      (fun _ => some
        (cstr ("Backend\nhttps://a.example\nalpha\n500\n10 1 2024\n3\nLinux\n" ++
          "Unknown\n\nbeta\n900\n29 2 2024\n0\nmacOS\n")))
      (fun _ => true) sample_record =
      .returns (1, some { records := [sample_record], count := 1, capacity := 10 }) := by
  decide

end Kursovayaya
